import Mathlib

/-!
Verification model of the DuinoMemory smart-pointer library.

The C++ sources modelled here are:
* `src/internal/SmartPointer.hpp` — base wrapper holding one raw address,
  with equality/inequality operators against wrappers, raw addresses and values;
* `src/internal/U_ptr.hpp` — exclusive-ownership wrapper (move-only,
  `release`, destructor deletes the held object);
* `src/internal/S_ptr.hpp` — shared-ownership wrapper with a separately
  allocated `uint16_t` reference-count cell (the control block).

Raw addresses, wrapper identities and control-block identities are modelled
as natural numbers; a held address is `Option Nat` (`none` = `nullptr`).
The `uint16_t` reference count is a `Nat` reduced mod 2^16 exactly where the
C++ unsigned arithmetic wraps.  States carry ghost instrumentation
(`destroyed` logs every `delete` of an owned object, in order) so that
lifecycle properties can be stated; the instrumentation never influences
the modelled control flow.
-/

namespace DuinoMemory

/-- Size of the `uint16_t` reference counter used by `S_ptr`. -/
def u16size : Nat := 65536

/-- `uint16_t` increment with wraparound: models `(*_ref_count)++`. -/
def u16inc (c : Nat) : Nat := (c + 1) % u16size

/-- `uint16_t` decrement with wraparound: models `*_ref_count -= 1`. -/
def u16dec (c : Nat) : Nat := (c + 65535) % u16size

/-! ## Base wrapper value comparisons (`SmartPointer.hpp`)

The value-comparison operators take the program memory as an explicit map
from addresses to stored values, since `*sp` reads the pointed-to object. -/

section ValueEq

variable {V : Type} [DecidableEq V]

/-- `operator ==(const SmartPointer<T>& sp, const T& other)`
(`SmartPointer.hpp` lines 83–86): `sp != nullptr && *sp == other`.
The C++ `&&` short-circuits, so the dereference happens only on the
non-null branch; the model reflects this by consulting `mem` only in the
`some` branch. -/
def sp_eq_value (mem : Nat → V) (d : Option Nat) (v : V) : Bool :=
  match d with
  | none => false
  | some a => decide (mem a = v)

/-- `operator ==(const T& other, const SmartPointer<T>& sp)`
(lines 88–91): delegates to `sp == other`. -/
def value_eq_sp (mem : Nat → V) (v : V) (d : Option Nat) : Bool :=
  sp_eq_value mem d v

/-- `operator !=(const SmartPointer<T>& sp, const T& other)`
(lines 103–106): `!(sp == other)`. -/
def sp_ne_value (mem : Nat → V) (d : Option Nat) (v : V) : Bool :=
  !(sp_eq_value mem d v)

/-- `operator !=(const T& other, const SmartPointer<T>& sp)`
(lines 108–111): `!(sp == other)`. -/
def value_ne_sp (mem : Nat → V) (v : V) (d : Option Nat) : Bool :=
  !(sp_eq_value mem d v)

end ValueEq

/-! ## Exclusive wrapper (`U_ptr.hpp`)

A `U_ptr` value is its `_data` member (`Option Nat`).  A `UState` holds the
set of live wrapper objects (indexed by creation order), the liveness of the
owned heap objects, the ghost log of destructor invocations, and the list of
addresses that have left the ownership system through `release` and have not
been re-adopted. -/

structure UState where
  uwrappers : Nat → Option (Option Nat)
  unextW : Nat
  uobjects : Nat → Bool
  udestroyed : List Nat
  ureleased : List Nat

/-- The initial state: no wrappers, no objects. -/
def uInit : UState :=
  ⟨fun _ => none, 0, fun _ => false, [], []⟩

/-- `delete ptr` for a possibly-null `T*`: deleting `nullptr` is a no-op,
otherwise the object's destructor runs (logged) and the object dies. -/
def uDelete (st : UState) (d : Option Nat) : UState :=
  match d with
  | none => st
  | some a =>
      { st with uobjects := Function.update st.uobjects a false
              , udestroyed := a :: st.udestroyed }

/-- Adopting address `d` into the ownership system: the caller either
allocated it freshly (`make_unique` / `new T`) or obtained it from a prior
`release`.  Ghost bookkeeping only. -/
def uAdopt (st : UState) (d : Option Nat) : UState :=
  match d with
  | none => st
  | some a =>
      { st with uobjects := Function.update st.uobjects a true
              , ureleased := st.ureleased.erase a }

/-- `U_ptr(T* data)` (`U_ptr.hpp` lines 48–51) together with the caller's
allocation: a new wrapper object holding `d`. -/
def uNew (st : UState) (d : Option Nat) : UState :=
  let st1 := uAdopt st d
  { st1 with uwrappers := Function.update st1.uwrappers st.unextW (some d)
           , unextW := st.unextW + 1 }

/-- `U_ptr(U_ptr&& other)` (lines 55–59): the new wrapper takes
`other.get()` and `other.set_data(nullptr)` empties the source. -/
def uMoveCtor (st : UState) (s : Nat) : UState :=
  match st.uwrappers s with
  | none => st
  | some vs =>
      { st with uwrappers :=
          Function.update (Function.update st.uwrappers st.unextW (some vs)) s (some none)
              , unextW := st.unextW + 1 }

/-- `~U_ptr` (lines 62–65): `delete get()`, then the wrapper object is gone. -/
def uDestroy (st : UState) (w : Nat) : UState :=
  match st.uwrappers w with
  | none => st
  | some d =>
      let st1 := uDelete st d
      { st1 with uwrappers := Function.update st1.uwrappers w none }

/-- `release()` (lines 71–76): returns the current address, empties the
wrapper, destroys nothing.  The returned address joins the ghost
`ureleased` list when non-null. -/
def uRelease (st : UState) (w : Nat) : Option Nat × UState :=
  match st.uwrappers w with
  | none => (none, st)
  | some none => (none, { st with uwrappers := Function.update st.uwrappers w (some none) })
  | some (some a) =>
      (some a, { st with uwrappers := Function.update st.uwrappers w (some none)
                       , ureleased := a :: st.ureleased })

/-- `operator =(T* data_ptr)` (lines 82–93): `tmp = get()`; if
`data_ptr != tmp` then `delete tmp; set_data(data_ptr)`, else no-op. -/
def uAssignRaw (st : UState) (w : Nat) (d : Option Nat) : UState :=
  match st.uwrappers w with
  | none => st
  | some cur =>
      if d = cur then st
      else
        let st1 := uAdopt (uDelete st cur) d
        { st1 with uwrappers := Function.update st1.uwrappers w (some d) }

/-- `operator =(U_ptr&& other)` (lines 97–109): if `this == &other` return;
else `delete get(); set_data(other.get()); other.set_data(nullptr)`. -/
def uMoveAssign (st : UState) (w s : Nat) : UState :=
  if w = s then st
  else
    match st.uwrappers w, st.uwrappers s with
    | some cur, some vs =>
        let st1 := uDelete st cur
        { st1 with uwrappers :=
            Function.update (Function.update st1.uwrappers w (some vs)) s (some none) }
    | _, _ => st

/-! ## Shared wrapper (`S_ptr.hpp`)

An `S_ptr` object has two members: `_data` (the held address) and
`_ref_count` (a pointer to the control block, a heap-allocated `uint16_t`).
The C++ code never stores `nullptr` into `_ref_count`, but the member is a
raw pointer that could in principle be null, so the model keeps it as an
`Option`.  Control blocks are identified by allocation order. -/

structure SPtrVal where
  data : Option Nat
  ref : Option Nat
deriving DecidableEq

structure SState where
  wrappers : Nat → Option SPtrVal
  nextW : Nat
  blocks : Nat → Option Nat
  nextB : Nat
  objects : Nat → Bool
  destroyed : List Nat

/-- The initial state: no wrappers, no control blocks, no objects. -/
def sInit : SState :=
  ⟨fun _ => none, 0, fun _ => none, 0, fun _ => false, []⟩

/-- `S_ptr::decrease_ref_count` (`S_ptr.hpp` lines 135–150), acting on
wrapper `w`:
if `*this == nullptr` return; otherwise `*_ref_count -= 1`; if the count
reached 0 then `delete _ref_count` (the block dies), `set_data(nullptr)`
(the wrapper keeps its now-dangling `_ref_count`), and `delete tmp`
(the owned object's destructor runs, logged). -/
def decRefCount (st : SState) (w : Nat) : SState :=
  match st.wrappers w with
  | none => st
  | some v =>
      match v.data, v.ref with
      | none, _ => st
      | some _, none => st
      | some a, some b =>
          let c' := u16dec ((st.blocks b).getD 0)
          if c' = 0 then
            { st with blocks := Function.update st.blocks b none
                    , wrappers := Function.update st.wrappers w (some ⟨none, some b⟩)
                    , objects := Function.update st.objects a false
                    , destroyed := a :: st.destroyed }
          else
            { st with blocks := Function.update st.blocks b (some c') }

/-- The caller-side allocation paired with putting address `d` under shared
ownership (`make_shared` does `new T`): ghost bookkeeping only. -/
def sAdopt (st : SState) (d : Option Nat) : SState :=
  match d with
  | none => st
  | some a => { st with objects := Function.update st.objects a true }

/-- `S_ptr(void)` / `S_ptr(T* data)` (lines 43 and 50–56): a fresh control
block `new uint16_t{0}` is always allocated; if `data != nullptr` the count
is incremented to 1. -/
def sNew (st : SState) (d : Option Nat) : SState :=
  let st1 := sAdopt st d
  let c : Nat := match d with | some _ => 1 | none => 0
  { st1 with wrappers := Function.update st1.wrappers st.nextW (some ⟨d, some st.nextB⟩)
           , nextW := st.nextW + 1
           , blocks := Function.update st1.blocks st.nextB (some c)
           , nextB := st.nextB + 1 }

/-- `S_ptr(const S_ptr& other)` (lines 58–64): the new wrapper takes
`other.get()` and `other._ref_count`; if `other.get() != nullptr` the shared
count is incremented (`uint16_t` wraparound). -/
def sCopyCtor (st : SState) (s : Nat) : SState :=
  match st.wrappers s with
  | none => st
  | some o =>
      let st1 := { st with wrappers := Function.update st.wrappers st.nextW (some ⟨o.data, o.ref⟩)
                         , nextW := st.nextW + 1 }
      match o.data, o.ref with
      | some _, some b =>
          { st1 with blocks := Function.update st1.blocks b (some (u16inc ((st1.blocks b).getD 0))) }
      | _, _ => st1

/-- `S_ptr(S_ptr&& other)` (lines 66–72): the body is the same as the copy
constructor's — the source is not cleared and the count is incremented. -/
def sMoveCtor (st : SState) (s : Nat) : SState :=
  match st.wrappers s with
  | none => st
  | some o =>
      let st1 := { st with wrappers := Function.update st.wrappers st.nextW (some ⟨o.data, o.ref⟩)
                         , nextW := st.nextW + 1 }
      match o.data, o.ref with
      | some _, some b =>
          { st1 with blocks := Function.update st1.blocks b (some (u16inc ((st1.blocks b).getD 0))) }
      | _, _ => st1

/-- `~S_ptr` (lines 74–77): `decrease_ref_count()`, then the wrapper object
is gone. -/
def sDestroy (st : SState) (w : Nat) : SState :=
  match st.wrappers w with
  | none => st
  | some _ =>
      let st1 := decRefCount st w
      { st1 with wrappers := Function.update st1.wrappers w none }

/-- `operator =(T* data_ptr)` (lines 87–100): if `data_ptr != *this`
(address comparison) then `decrease_ref_count(); set_data(data_ptr);
_ref_count = new uint16_t{}` and increment if `data_ptr != nullptr`;
otherwise no-op. -/
def sAssignRaw (st : SState) (w : Nat) (d : Option Nat) : SState :=
  match st.wrappers w with
  | none => st
  | some v =>
      if d = v.data then st
      else
        let st1 := sAdopt (decRefCount st w) d
        let c : Nat := match d with | some _ => 1 | none => 0
        { st1 with wrappers := Function.update st1.wrappers w (some ⟨d, some st1.nextB⟩)
                 , blocks := Function.update st1.blocks st1.nextB (some c)
                 , nextB := st1.nextB + 1 }

/-- `operator =(const S_ptr& other)` (lines 102–115): if `other != *this`
(address comparison) then `decrease_ref_count(); set_data(other.get());
_ref_count = other._ref_count` and increment if `other != nullptr`;
otherwise no-op.  When the guard passes, `other` is a distinct object whose
members are unaffected by this wrapper's `decrease_ref_count`. -/
def sAssignCopy (st : SState) (w s : Nat) : SState :=
  match st.wrappers w, st.wrappers s with
  | some v, some o =>
      if o.data = v.data then st
      else
        let st1 := decRefCount st w
        let st2 := { st1 with wrappers := Function.update st1.wrappers w (some ⟨o.data, o.ref⟩) }
        match o.data, o.ref with
        | some _, some b =>
            { st2 with blocks := Function.update st2.blocks b (some (u16inc ((st2.blocks b).getD 0))) }
        | _, _ => st2
  | _, _ => st

/-- `operator =(S_ptr&& other)` (lines 117–130): the body is the same as
the copy assignment's — the source is not cleared and the count is
incremented. -/
def sAssignMove (st : SState) (w s : Nat) : SState :=
  match st.wrappers w, st.wrappers s with
  | some v, some o =>
      if o.data = v.data then st
      else
        let st1 := decRefCount st w
        let st2 := { st1 with wrappers := Function.update st1.wrappers w (some ⟨o.data, o.ref⟩) }
        match o.data, o.ref with
        | some _, some b =>
            { st2 with blocks := Function.update st2.blocks b (some (u16inc ((st2.blocks b).getD 0))) }
        | _, _ => st2
  | _, _ => st

/-- `count()` (lines 82–85): returns `*_ref_count`. -/
def sCount (st : SState) (w : Nat) : Nat :=
  match st.wrappers w with
  | none => 0
  | some v =>
      match v.ref with
      | none => 0
      | some b => (st.blocks b).getD 0

/-! ## Traces of public `S_ptr` operations -/

inductive SOp where
  | ctor (d : Option Nat)
  | copyCtor (s : Nat)
  | moveCtor (s : Nat)
  | destroy (w : Nat)
  | assignRaw (w : Nat) (d : Option Nat)
  | assignCopy (w s : Nat)
  | assignMove (w s : Nat)
deriving DecidableEq

/-- One public operation. Constructors create the wrapper with the next
free identity. -/
def sStep (st : SState) : SOp → SState
  | .ctor d => sNew st d
  | .copyCtor s => sCopyCtor st s
  | .moveCtor s => sMoveCtor st s
  | .destroy w => sDestroy st w
  | .assignRaw w d => sAssignRaw st w d
  | .assignCopy w s => sAssignCopy st w s
  | .assignMove w s => sAssignMove st w s

def sRunFrom (st : SState) (l : List SOp) : SState := l.foldl sStep st

def sRun (l : List SOp) : SState := sRunFrom sInit l

/-- An address is fresh when the allocator can return it: it is not a live
object and was never destroyed (the model's allocator never reuses
addresses). -/
def sFresh (st : SState) (a : Nat) : Bool :=
  !st.objects a && decide (a ∉ st.destroyed)

def sLive (st : SState) (w : Nat) : Bool := (st.wrappers w).isSome

/-- The documented caller contract for each operation: operand wrappers are
live objects, and a raw address handed to a constructor or raw assignment
is a fresh allocation (wrapping an address already owned elsewhere is the
documented undefined-behavior contract violation), except that `w = w.get()`
— assigning a wrapper its own current address — is allowed. -/
def sLegal (st : SState) : SOp → Bool
  | .ctor d => match d with | none => true | some a => sFresh st a
  | .copyCtor s => sLive st s
  | .moveCtor s => sLive st s
  | .destroy w => sLive st w
  | .assignRaw w d =>
      match st.wrappers w with
      | none => false
      | some v => (match d with | none => true | some a => sFresh st a) || d == v.data
  | .assignCopy w s => sLive st w && sLive st s
  | .assignMove w s => sLive st w && sLive st s

def sLegalFrom (st : SState) : List SOp → Bool
  | [] => true
  | op :: l => sLegal st op && sLegalFrom (sStep st op) l

/-- Contribution of one wrapper slot to the holder count of block `b`. -/
def holdVal (b : Nat) : Option SPtrVal → Nat
  | some v => if v.data.isSome ∧ v.ref = some b then 1 else 0
  | none => 0

/-- Contribution of one wrapper slot to the holder count of address `a`. -/
def holdAddrVal (a : Nat) : Option SPtrVal → Nat
  | some v => if v.data = some a then 1 else 0
  | none => 0

/-- Number of live wrappers that hold a non-null address and reference
control block `b`. -/
def sHolders (st : SState) (b : Nat) : Nat :=
  ∑ w in Finset.range st.nextW, holdVal b (st.wrappers w)

/-- Number of live wrappers holding address `a`. -/
def sHoldersAddr (st : SState) (a : Nat) : Nat :=
  ∑ w in Finset.range st.nextW, holdAddrVal a (st.wrappers w)

/-- No control block is shared by more than 65535 wrappers: within this
bound the 16-bit reference count is exact. -/
def sBounded (st : SState) : Bool :=
  (List.range st.nextB).all (fun b => sHolders st b ≤ 65535)

/-- A trace is good when every step is legal and every reached state keeps
all control blocks within the 16-bit bound. -/
def sGoodFrom (st : SState) : List SOp → Bool
  | [] => true
  | op :: l => sLegal st op && sBounded (sStep st op) && sGoodFrom (sStep st op) l

def sGood (l : List SOp) : Bool := sGoodFrom sInit l

/-- All wrappers have been destroyed. -/
def sDead (st : SState) : Bool :=
  (List.range st.nextW).all (fun w => decide (st.wrappers w = none))

/-- The addresses an operation places under ownership. -/
def opIntro : SOp → Option Nat
  | .ctor (some a) => some a
  | .assignRaw _ (some a) => some a
  | _ => none

def sIntroduced (l : List SOp) : List Nat := l.filterMap opIntro

/-- The wrapper that an operation destroys or reassigns. -/
def opWrapper : SOp → Option Nat
  | .destroy w => some w
  | .assignRaw w _ => some w
  | .assignCopy w _ => some w
  | .assignMove w _ => some w
  | _ => none

/-! ## Traces of public `U_ptr` operations -/

inductive UOp where
  | ctor (d : Option Nat)
  | moveCtor (s : Nat)
  | destroy (w : Nat)
  | assignRaw (w : Nat) (d : Option Nat)
  | moveAssign (w s : Nat)
  | release (w : Nat)
deriving DecidableEq

def uStep (st : UState) : UOp → UState
  | .ctor d => uNew st d
  | .moveCtor s => uMoveCtor st s
  | .destroy w => uDestroy st w
  | .assignRaw w d => uAssignRaw st w d
  | .moveAssign w s => uMoveAssign st w s
  | .release w => (uRelease st w).2

def uRunFrom (st : UState) (l : List UOp) : UState := l.foldl uStep st

def uRun (l : List UOp) : UState := uRunFrom uInit l

def uLiveW (st : UState) (w : Nat) : Bool := (st.uwrappers w).isSome

/-- An address the caller may hand to a `U_ptr`: a fresh allocation, or one
previously returned by `release` and not yet re-adopted. -/
def uOkData (st : UState) (d : Option Nat) : Bool :=
  match d with
  | none => true
  | some a =>
      (!st.uobjects a && decide (a ∉ st.udestroyed)) || decide (a ∈ st.ureleased)

/-- The documented caller contract for `U_ptr` operations: operand wrappers
are live; a raw address given to a constructor or raw assignment is not
owned by any other wrapper (fresh or released), except that a wrapper may
be assigned its own current address. -/
def uLegal (st : UState) : UOp → Bool
  | .ctor d => uOkData st d
  | .moveCtor s => uLiveW st s
  | .destroy w => uLiveW st w
  | .assignRaw w d =>
      match st.uwrappers w with
      | none => false
      | some cur => uOkData st d || d == cur
  | .moveAssign w s => uLiveW st w && uLiveW st s
  | .release w => uLiveW st w

def uLegalFrom (st : UState) : List UOp → Bool
  | [] => true
  | op :: l => uLegal st op && uLegalFrom (uStep st op) l

def uDead (st : UState) : Bool :=
  (List.range st.unextW).all (fun w => decide (st.uwrappers w = none))

/-- The addresses an operation places under exclusive ownership. -/
def uOpIntro : UOp → Option Nat
  | .ctor (some a) => some a
  | .assignRaw _ (some a) => some a
  | _ => none

def uIntroduced (l : List UOp) : List Nat := l.filterMap uOpIntro

/-- The wrapper an operation destroys or reassigns. -/
def uOpWrapper : UOp → Option Nat
  | .destroy w => some w
  | .assignRaw w _ => some w
  | .moveAssign w _ => some w
  | _ => none

/-! ## The lowered reference-count update (`S_ptr.hpp` lines 58–64, 142)

The increment `(*_ref_count)++` and the decrement `*_ref_count -= 1` are
plain non-atomic read-modify-write statements; `S_ptr.hpp` contains no
interrupt masking and no atomic built-in, so an interrupt can preempt the
main flow between the read and the write.  The lowered model splits the
main flow's decrement into its read and its write. -/

/-- The read half of the unprotected `*_ref_count -= 1`. -/
def rmwRead (c : Nat) : Nat := c

/-- The write half of the unprotected `*_ref_count -= 1`: stores the
decremented stale register `r`, ignoring the current cell value. -/
def rmwWriteDec (_c r : Nat) : Nat := u16dec r

/-- Cell value after the main flow's decrement is preempted, between its
read and its write, by an interrupt handler that copy-constructs a sharing
`S_ptr` (performing `(*_ref_count)++`): the handler's update is overwritten
by the stale write. -/
def preemptedDec (c : Nat) : Nat :=
  let r := rmwRead c
  let cIsr := u16inc c
  rmwWriteDec cIsr r

/-! ## Invariants -/

/-- The state invariant maintained by every legal, bounded `S_ptr` trace. -/
structure SInv (st : SState) : Prop where
  wClosed : ∀ w, st.nextW ≤ w → st.wrappers w = none
  bClosed : ∀ b, st.nextB ≤ b → st.blocks b = none
  refSome : ∀ w v, st.wrappers w = some v → ∃ b, v.ref = some b ∧ (st.blocks b).isSome
  counts : ∀ b c, st.blocks b = some c → c = sHolders st b
  blockData : ∀ w₁ v₁ w₂ v₂, st.wrappers w₁ = some v₁ → st.wrappers w₂ = some v₂ →
    v₁.ref = v₂.ref → v₁.data = v₂.data
  addrBlock : ∀ w₁ v₁ w₂ v₂ a, st.wrappers w₁ = some v₁ → st.wrappers w₂ = some v₂ →
    v₁.data = some a → v₂.data = some a → v₁.ref = v₂.ref
  heldLive : ∀ w v a, st.wrappers w = some v → v.data = some a → st.objects a = true
  liveHeld : ∀ a, st.objects a = true → ∃ w v, st.wrappers w = some v ∧ v.data = some a
  deadGone : ∀ a, a ∈ st.destroyed → st.objects a = false
  destNodup : st.destroyed.Nodup

/-- The state invariant maintained by every legal `U_ptr` trace. -/
structure UInv (st : UState) : Prop where
  wClosed : ∀ w, st.unextW ≤ w → st.uwrappers w = none
  exclusive : ∀ w₁ w₂ a, st.uwrappers w₁ = some (some a) → st.uwrappers w₂ = some (some a) →
    w₁ = w₂
  heldLive : ∀ w a, st.uwrappers w = some (some a) → st.uobjects a = true
  liveHeld : ∀ a, st.uobjects a = true →
    (∃ w, st.uwrappers w = some (some a)) ∨ a ∈ st.ureleased
  relLive : ∀ a, a ∈ st.ureleased → st.uobjects a = true
  relNotHeld : ∀ a w, a ∈ st.ureleased → st.uwrappers w ≠ some (some a)
  deadGone : ∀ a, a ∈ st.udestroyed → st.uobjects a = false
  destNodup : st.udestroyed.Nodup
  relNodup : st.ureleased.Nodup

/-! ## Counterexample traces

`copyFan k` builds one owning wrapper for address 7 and then `k` copies of
it, so `k + 1` live wrappers share one control block whose stored 16-bit
count is `(k + 1) % 65536`. -/

def copyFan (k : Nat) : List SOp :=
  SOp.ctor (some 7) :: List.replicate k (SOp.copyCtor 0)

/-- The state reached by `copyFan k`, in closed form. -/
def fanState (k : Nat) : SState :=
  { wrappers := fun w => if w < k + 1 then some ⟨some 7, some 0⟩ else none
  , nextW := k + 1
  , blocks := fun b => if b = 0 then some ((k + 1) % u16size) else none
  , nextB := 1
  , objects := fun a => decide (a = 7)
  , destroyed := [] }

/-- Replacing every `S_ptr` move operation by the corresponding copy
operation. -/
def desugarMoves (l : List SOp) : List SOp :=
  l.map (fun op => match op with
    | .moveCtor s => .copyCtor s
    | .assignMove w s => .assignCopy w s
    | x => x)

/-! ## Arithmetic of the 16-bit counter -/

theorem u16inc_exact {c : Nat} (h : c ≤ 65534) : u16inc c = c + 1 := by
  unfold u16inc u16size; omega

theorem u16dec_exact {c : Nat} (h1 : 1 ≤ c) (h2 : c ≤ 65535) : u16dec c = c - 1 := by
  unfold u16dec u16size; omega

theorem u16dec_ne_zero {c : Nat} (h1 : 2 ≤ c) (h2 : c ≤ 65535) : u16dec c ≠ 0 := by
  unfold u16dec u16size; omega

/-! ## Sum bookkeeping helpers -/

theorem sum_update_out {α : Type} (n : Nat) (f : Nat → α) (x : α) (g : α → Nat) :
    (∑ w in Finset.range n, g (Function.update f n x w)) = ∑ w in Finset.range n, g (f w) :=
  Finset.sum_congr rfl fun w hw => by
    rw [Function.update_noteq (Nat.ne_of_lt (Finset.mem_range.mp hw))]

theorem sum_comp_update {α : Type} {n w₀ : Nat} (h : w₀ < n) (f : Nat → α) (x : α)
    (g : α → Nat) :
    (∑ w in Finset.range n, g (Function.update f w₀ x w)) + g (f w₀)
      = (∑ w in Finset.range n, g (f w)) + g x := by
  have hmem : w₀ ∈ Finset.range n := Finset.mem_range.mpr h
  rw [← Finset.sum_erase_add _ _ hmem, ← Finset.sum_erase_add _ (fun w => g (f w)) hmem]
  have he : ∑ w in (Finset.range n).erase w₀, g (Function.update f w₀ x w)
      = ∑ w in (Finset.range n).erase w₀, g (f w) :=
    Finset.sum_congr rfl fun w hw => by
      rw [Function.update_noteq (Finset.mem_erase.mp hw).1]
  rw [he, Function.update_same]
  omega

end DuinoMemory

namespace DuinoMemory

/-! ## Claim C10 — value comparison is total on empty wrappers -/

/-- C10: for every element value `v` and every wrapper holding a null
address, the value comparisons `sp == v` and `v == sp` return `false`
(and `sp != v`, `v != sp` return `true`) for every possible memory
contents — the null address is never dereferenced. -/
theorem c10_value_compare_total_on_empty :
    ∀ (V : Type) (_ : DecidableEq V) (mem : Nat → V) (v : V),
      sp_eq_value mem none v = false
      ∧ value_eq_sp mem v none = false
      ∧ sp_ne_value mem none v = true
      ∧ value_ne_sp mem v none = true :=
  fun _ _ _ _ => ⟨rfl, rfl, rfl, rfl⟩

/-! ## Claim C8 — the reference-count update is not interrupt-safe -/

/-- C8 (refuting theorem): the unprotected read-modify-write decrement in
`decrease_ref_count`, when preempted between its read and its write by an
interrupt handler performing the copy-constructor's increment, loses the
handler's update: starting from count 2 the cell ends at 1, while both
indivisible serializations of the decrement and the increment end at 2. -/
theorem c8_lost_update :
    preemptedDec 2 = 1
    ∧ u16dec (u16inc 2) = 2
    ∧ u16inc (u16dec 2) = 2
    ∧ preemptedDec 2 ≠ 2 := by decide

/-! ## Claim C7 — `release` empties the wrapper without destroying -/

/-- C7: `release()` on an Exclusive Wrapper holding address `a` returns
`a`, transitions the wrapper to Empty, and neither runs any destructor nor
touches any object: the object heap and the destruction log are unchanged,
so the released resource stays alive for its next owner. -/
theorem c7_release_no_destroy (st : UState) (w : Nat) (a : Nat)
    (h : st.uwrappers w = some (some a)) :
    (uRelease st w).1 = some a
    ∧ (uRelease st w).2.uwrappers w = some none
    ∧ (uRelease st w).2.uobjects = st.uobjects
    ∧ (uRelease st w).2.udestroyed = st.udestroyed := by
  refine ⟨?_, ?_, ?_, ?_⟩ <;> simp [uRelease, h, Function.update_same]

theorem c7_release_no_destroy_witness :
    (uRelease (uNew uInit (some 5)) 0).1 = some 5
    ∧ (uRelease (uNew uInit (some 5)) 0).2.uwrappers 0 = some none
    ∧ (uRelease (uNew uInit (some 5)) 0).2.uobjects = (uNew uInit (some 5)).uobjects
    ∧ (uRelease (uNew uInit (some 5)) 0).2.udestroyed = (uNew uInit (some 5)).udestroyed :=
  c7_release_no_destroy (uNew uInit (some 5)) 0 5 (by decide)

/-! ## Claim C6 — `U_ptr` move transfers, self-move is a no-op -/

/-- C6: moving a live Exclusive Wrapper `s` into a distinct live wrapper
`d` (by move assignment, or by move construction of a fresh wrapper) makes
the destination hold `s`'s previous address and leaves `s` Empty; a
self-move is a no-op that frees nothing (the whole state, including the
destruction log, is unchanged). -/
theorem c6_uptr_move_semantics (st : UState) (d s : Nat) (vd vs : Option Nat)
    (hne : d ≠ s) (hd : st.uwrappers d = some vd) (hs : st.uwrappers s = some vs)
    (hsn : s < st.unextW) :
    ((uMoveAssign st d s).uwrappers d = some vs
      ∧ (uMoveAssign st d s).uwrappers s = some none)
    ∧ ((uMoveCtor st s).uwrappers st.unextW = some vs
      ∧ (uMoveCtor st s).uwrappers s = some none)
    ∧ (∀ (st' : UState) (w : Nat), uMoveAssign st' w w = st') := by
  refine ⟨?_, ?_, fun st' w => by simp [uMoveAssign]⟩
  · constructor
    · simp only [uMoveAssign, if_neg hne, hd, hs]
      rw [Function.update_noteq hne, Function.update_same]
    · simp only [uMoveAssign, if_neg hne, hd, hs]
      rw [Function.update_same]
  · constructor
    · simp only [uMoveCtor, hs]
      rw [Function.update_noteq (Nat.ne_of_gt hsn), Function.update_same]
    · simp only [uMoveCtor, hs]
      rw [Function.update_same]

theorem c6_uptr_move_semantics_witness :
    ((uMoveAssign (uNew (uNew uInit (some 4)) (some 9)) 0 1).uwrappers 0 = some (some 9)
      ∧ (uMoveAssign (uNew (uNew uInit (some 4)) (some 9)) 0 1).uwrappers 1 = some none) :=
  (c6_uptr_move_semantics (uNew (uNew uInit (some 4)) (some 9)) 0 1 (some 4) (some 9)
    (by decide) (by decide) (by decide) (by decide)).1

/-! ## Basic facts about the `S_ptr` model -/

theorem sFresh_iff {st : SState} {a : Nat} :
    sFresh st a = true ↔ st.objects a = false ∧ a ∉ st.destroyed := by
  simp [sFresh]

theorem sBounded_iff {st : SState} :
    sBounded st = true ↔ ∀ b < st.nextB, sHolders st b ≤ 65535 := by
  simp [sBounded, List.all_eq_true, List.mem_range]

theorem sDead_iff {st : SState} (inv : SInv st) :
    sDead st = true ↔ ∀ w, st.wrappers w = none := by
  simp only [sDead, List.all_eq_true, List.mem_range, decide_eq_true_eq]
  constructor
  · intro h w
    rcases Nat.lt_or_ge w st.nextW with hw | hw
    · exact h w hw
    · exact inv.wClosed w hw
  · exact fun h w _ => h w

theorem holders_zero_of_unalloc {st : SState} (inv : SInv st) {b : Nat}
    (hb : st.blocks b = none) : sHolders st b = 0 := by
  unfold sHolders
  refine Finset.sum_eq_zero fun w _ => ?_
  cases hfw : st.wrappers w with
  | none => rfl
  | some v =>
      simp only [holdVal]
      split_ifs with h
      · obtain ⟨b', hb', halloc⟩ := inv.refSome w v hfw
        rw [h.2] at hb'
        cases hb'
        rw [hb] at halloc
        cases halloc
      · rfl

theorem lt_nextW_of_live {st : SState} (inv : SInv st) {w : Nat} {v : SPtrVal}
    (hw : st.wrappers w = some v) : w < st.nextW := by
  by_contra h
  rw [inv.wClosed w (Nat.le_of_not_lt h)] at hw
  cases hw

theorem lt_nextB_of_alloc {st : SState} (inv : SInv st) {b : Nat} {c : Nat}
    (hb : st.blocks b = some c) : b < st.nextB := by
  by_contra h
  rw [inv.bClosed b (Nat.le_of_not_lt h)] at hb
  cases hb

theorem one_le_holders {st : SState} (inv : SInv st) {w : Nat} {v : SPtrVal} {b : Nat}
    (hw : st.wrappers w = some v) (hd : v.data.isSome) (hr : v.ref = some b) :
    1 ≤ sHolders st b := by
  have hwn : w < st.nextW := lt_nextW_of_live inv hw
  have hle : holdVal b (st.wrappers w) ≤ sHolders st b :=
    @Finset.single_le_sum Nat Nat _ (fun w => holdVal b (st.wrappers w))
      (Finset.range st.nextW) (fun i _ => Nat.zero_le _) w (Finset.mem_range.mpr hwn)
  rwa [hw, holdVal, if_pos ⟨hd, hr⟩] at hle

theorem one_le_holdersAddr {st : SState} (inv : SInv st) {w : Nat} {v : SPtrVal} {a : Nat}
    (hw : st.wrappers w = some v) (hd : v.data = some a) :
    1 ≤ sHoldersAddr st a := by
  have hwn : w < st.nextW := lt_nextW_of_live inv hw
  have hle : holdAddrVal a (st.wrappers w) ≤ sHoldersAddr st a :=
    @Finset.single_le_sum Nat Nat _ (fun w => holdAddrVal a (st.wrappers w))
      (Finset.range st.nextW) (fun i _ => Nat.zero_le _) w (Finset.mem_range.mpr hwn)
  rwa [hw, holdAddrVal, if_pos hd] at hle

theorem exists_holder_of_pos {st : SState} {b : Nat} (h : 0 < sHolders st b) :
    ∃ w v, w < st.nextW ∧ st.wrappers w = some v ∧ v.data.isSome ∧ v.ref = some b := by
  obtain ⟨w, hwmem, hww⟩ := Finset.exists_ne_zero_of_sum_ne_zero (Nat.pos_iff_ne_zero.mp h)
  cases hfw : st.wrappers w with
  | none => rw [hfw] at hww; exact absurd rfl hww
  | some v =>
      rw [hfw] at hww
      simp only [holdVal] at hww
      by_cases hc : v.data.isSome ∧ v.ref = some b
      · exact ⟨w, v, Finset.mem_range.mp hwmem, hfw, hc.1, hc.2⟩
      · rw [if_neg hc] at hww; exact absurd rfl hww

theorem exists_other_holder {st : SState} {b : Nat} {w₀ : Nat}
    (h : 2 ≤ sHolders st b) :
    ∃ w v, w ≠ w₀ ∧ st.wrappers w = some v ∧ v.data.isSome ∧ v.ref = some b := by
  by_cases hw₀ : w₀ ∈ Finset.range st.nextW
  · have hsplit : sHolders st b
        = (∑ w in (Finset.range st.nextW).erase w₀, holdVal b (st.wrappers w))
          + holdVal b (st.wrappers w₀) := (Finset.sum_erase_add _ _ hw₀).symm
    have h1 : holdVal b (st.wrappers w₀) ≤ 1 := by
      cases st.wrappers w₀
      · exact Nat.zero_le 1
      · simp only [holdVal]
        split_ifs <;> omega
    have hpos : 0 < ∑ w in (Finset.range st.nextW).erase w₀, holdVal b (st.wrappers w) := by
      omega
    obtain ⟨w, hwmem, hww⟩ := Finset.exists_ne_zero_of_sum_ne_zero (Nat.pos_iff_ne_zero.mp hpos)
    have hwne : w ≠ w₀ := (Finset.mem_erase.mp hwmem).1
    cases hfw : st.wrappers w with
    | none => rw [hfw] at hww; exact absurd rfl hww
    | some v =>
        rw [hfw] at hww
        simp only [holdVal] at hww
        by_cases hc : v.data.isSome ∧ v.ref = some b
        · exact ⟨w, v, hwne, hfw, hc.1, hc.2⟩
        · rw [if_neg hc] at hww; exact absurd rfl hww
  · obtain ⟨w, v, hwn, hfw, hd, hr⟩ := @exists_holder_of_pos st b (by omega)
    have hge : st.nextW ≤ w₀ := Nat.le_of_not_lt (fun hc => hw₀ (Finset.mem_range.mpr hc))
    exact ⟨w, v, Nat.ne_of_lt (Nat.lt_of_lt_of_le hwn hge), hfw, hd, hr⟩

theorem sum_comp_extend {α : Type} (n : Nat) (f : Nat → α) (x : α) (g : α → Nat) :
    (∑ w in Finset.range (n + 1), g (Function.update f n x w))
      = (∑ w in Finset.range n, g (f w)) + g x := by
  rw [Finset.sum_range_succ, sum_update_out, Function.update_same]

/-! ## Invariant preservation, operation by operation -/

theorem sInv_new {st : SState} (inv : SInv st) {d : Option Nat}
    (hleg : sLegal st (SOp.ctor d) = true) : SInv (sNew st d) := by
  have hwrap : (sNew st d).wrappers
      = Function.update st.wrappers st.nextW (some ⟨d, some st.nextB⟩) := by
    cases d <;> rfl
  have hnw : (sNew st d).nextW = st.nextW + 1 := by cases d <;> rfl
  have hnb : (sNew st d).nextB = st.nextB + 1 := by cases d <;> rfl
  have hdest : (sNew st d).destroyed = st.destroyed := by cases d <;> rfl
  have hfreshd : ∀ a, d = some a → st.objects a = false ∧ a ∉ st.destroyed := by
    intro a ha
    subst ha
    exact sFresh_iff.mp hleg
  have hobj : ∀ a, (sNew st d).objects a = true ↔ (st.objects a = true ∨ d = some a) := by
    intro a
    cases d with
    | none => simp [sNew, sAdopt]
    | some a₀ =>
        show (Function.update st.objects a₀ true) a = true ↔ _
        rcases eq_or_ne a a₀ with h | h
        · subst h; simp [Function.update_same]
        · simp [Function.update_noteq h, h.symm]
  have hblkn : (sNew st d).blocks st.nextB = some (d.elim 0 fun _ => 1) := by
    cases d <;> simp [sNew, sAdopt, Function.update_same]
  have hblko : ∀ b, b ≠ st.nextB → (sNew st d).blocks b = st.blocks b := by
    intro b hb
    cases d <;> simp [sNew, sAdopt, Function.update_noteq hb]
  have hold : ∀ b, sHolders (sNew st d) b
      = sHolders st b + holdVal b (some ⟨d, some st.nextB⟩) := by
    intro b
    unfold sHolders
    rw [hnw, hwrap]
    exact sum_comp_extend st.nextW st.wrappers _ (holdVal b)
  refine ⟨?_, ?_, ?_, ?_, ?_, ?_, ?_, ?_, ?_, ?_⟩
  · -- wClosed
    intro w hw
    rw [hnw] at hw
    have hne : w ≠ st.nextW := by omega
    rw [hwrap, Function.update_noteq hne, inv.wClosed w (by omega)]
  · -- bClosed
    intro b hb
    rw [hnb] at hb
    rw [hblko b (by omega), inv.bClosed b (by omega)]
  · -- refSome
    intro w v hv
    rw [hwrap] at hv
    rcases eq_or_ne w st.nextW with hw | hw
    · subst hw
      rw [Function.update_same] at hv
      cases hv
      exact ⟨st.nextB, rfl, by rw [hblkn]; rfl⟩
    · rw [Function.update_noteq hw] at hv
      obtain ⟨b, hb, halloc⟩ := inv.refSome w v hv
      refine ⟨b, hb, ?_⟩
      have hbne : b ≠ st.nextB := by
        intro hcon
        rw [hcon, inv.bClosed st.nextB (Nat.le_refl _)] at halloc
        cases halloc
      rw [hblko b hbne]
      exact halloc
  · -- counts
    intro b c hb
    rcases eq_or_ne b st.nextB with hbe | hbe
    · subst hbe
      rw [hblkn] at hb
      cases hb
      rw [hold, holders_zero_of_unalloc inv (inv.bClosed st.nextB (Nat.le_refl _))]
      cases d with
      | none => simp [holdVal]
      | some a₀ => simp [holdVal]

    · rw [hblko b hbe] at hb
      rw [hold]
      have : holdVal b (some ⟨d, some st.nextB⟩) = 0 := by
        simp only [holdVal]
        rw [if_neg]
        rintro ⟨-, h2⟩
        exact hbe (Option.some_injective _ h2).symm
      rw [this, Nat.add_zero]
      exact inv.counts b c hb
  · -- blockData
    intro w₁ v₁ w₂ v₂ h1 h2 href
    rw [hwrap] at h1 h2
    rcases eq_or_ne w₁ st.nextW with hw1 | hw1 <;> rcases eq_or_ne w₂ st.nextW with hw2 | hw2
    · subst hw1; subst hw2
      rw [Function.update_same] at h1 h2
      cases h1; cases h2; rfl
    · subst hw1
      rw [Function.update_same] at h1
      rw [Function.update_noteq hw2] at h2
      cases h1
      obtain ⟨b, hb, halloc⟩ := inv.refSome w₂ v₂ h2
      rw [← href] at hb
      simp only at hb
      cases hb
      rw [inv.bClosed st.nextB (Nat.le_refl _)] at halloc
      cases halloc
    · subst hw2
      rw [Function.update_same] at h2
      rw [Function.update_noteq hw1] at h1
      cases h2
      obtain ⟨b, hb, halloc⟩ := inv.refSome w₁ v₁ h1
      rw [href] at hb
      simp only at hb
      cases hb
      rw [inv.bClosed st.nextB (Nat.le_refl _)] at halloc
      cases halloc
    · rw [Function.update_noteq hw1] at h1
      rw [Function.update_noteq hw2] at h2
      exact inv.blockData w₁ v₁ w₂ v₂ h1 h2 href
  · -- addrBlock
    intro w₁ v₁ w₂ v₂ a h1 h2 hd1 hd2
    rw [hwrap] at h1 h2
    rcases eq_or_ne w₁ st.nextW with hw1 | hw1 <;> rcases eq_or_ne w₂ st.nextW with hw2 | hw2
    · subst hw1; subst hw2
      rw [Function.update_same] at h1 h2
      cases h1; cases h2; rfl
    · subst hw1
      rw [Function.update_same] at h1
      rw [Function.update_noteq hw2] at h2
      cases h1
      have := (hfreshd a hd1).1
      rw [inv.heldLive w₂ v₂ a h2 hd2] at this
      cases this
    · subst hw2
      rw [Function.update_same] at h2
      rw [Function.update_noteq hw1] at h1
      cases h2
      have := (hfreshd a hd2).1
      rw [inv.heldLive w₁ v₁ a h1 hd1] at this
      cases this
    · rw [Function.update_noteq hw1] at h1
      rw [Function.update_noteq hw2] at h2
      exact inv.addrBlock w₁ v₁ w₂ v₂ a h1 h2 hd1 hd2
  · -- heldLive
    intro w v a hv hd
    rw [hwrap] at hv
    rcases eq_or_ne w st.nextW with hw | hw
    · subst hw
      rw [Function.update_same] at hv
      cases hv
      exact (hobj a).mpr (Or.inr hd)
    · rw [Function.update_noteq hw] at hv
      exact (hobj a).mpr (Or.inl (inv.heldLive w v a hv hd))
  · -- liveHeld
    intro a ha
    rcases (hobj a).mp ha with h | h
    · obtain ⟨w, v, hv, hd⟩ := inv.liveHeld a h
      refine ⟨w, v, ?_, hd⟩
      rw [hwrap, Function.update_noteq (Nat.ne_of_lt (lt_nextW_of_live inv hv))]
      exact hv
    · refine ⟨st.nextW, ⟨d, some st.nextB⟩, ?_, h⟩
      rw [hwrap, Function.update_same]
  · -- deadGone
    intro a ha
    rw [hdest] at ha
    have hobja : st.objects a = false := inv.deadGone a ha
    cases hd : d with
    | none => simpa [sNew, sAdopt] using hobja
    | some a₀ =>
        have hne : a ≠ a₀ := by
          intro hcon
          subst hcon
          exact (hfreshd a hd).2 ha
        show (Function.update st.objects a₀ true) a = false
        rw [Function.update_noteq hne]
        exact hobja
  · -- destNodup
    rw [hdest]
    exact inv.destNodup

theorem sMoveCtor_eq_sCopyCtor : sMoveCtor = sCopyCtor := rfl

theorem sAssignMove_eq_sAssignCopy : sAssignMove = sAssignCopy := rfl

theorem copy_extend_aux {st : SState} (inv : SInv st) {s : Nat} {o : SPtrVal}
    (hs : st.wrappers s = some o) {post : SState}
    (hwrap : post.wrappers = Function.update st.wrappers st.nextW (some ⟨o.data, o.ref⟩))
    (hnw : post.nextW = st.nextW + 1)
    (hobj : post.objects = st.objects)
    (hdest : post.destroyed = st.destroyed) :
    (∀ w, post.nextW ≤ w → post.wrappers w = none)
    ∧ (∀ w₁ v₁ w₂ v₂, post.wrappers w₁ = some v₁ → post.wrappers w₂ = some v₂ →
        v₁.ref = v₂.ref → v₁.data = v₂.data)
    ∧ (∀ w₁ v₁ w₂ v₂ a, post.wrappers w₁ = some v₁ → post.wrappers w₂ = some v₂ →
        v₁.data = some a → v₂.data = some a → v₁.ref = v₂.ref)
    ∧ (∀ w v a, post.wrappers w = some v → v.data = some a → post.objects a = true)
    ∧ (∀ a, post.objects a = true → ∃ w v, post.wrappers w = some v ∧ v.data = some a)
    ∧ (∀ a, a ∈ post.destroyed → post.objects a = false)
    ∧ post.destroyed.Nodup := by
  refine ⟨?_, ?_, ?_, ?_, ?_, ?_, ?_⟩
  · intro w hw
    rw [hnw] at hw
    have hne : w ≠ st.nextW := by omega
    rw [hwrap, Function.update_noteq hne]
    exact inv.wClosed w (by omega)
  · intro w₁ v₁ w₂ v₂ h1 h2 href
    rw [hwrap] at h1 h2
    rcases eq_or_ne w₁ st.nextW with hw1 | hw1 <;> rcases eq_or_ne w₂ st.nextW with hw2 | hw2
    · subst hw1; subst hw2
      rw [Function.update_same] at h1 h2
      cases h1; cases h2; rfl
    · subst hw1
      rw [Function.update_same] at h1
      rw [Function.update_noteq hw2] at h2
      cases h1
      exact inv.blockData s o w₂ v₂ hs h2 href
    · subst hw2
      rw [Function.update_same] at h2
      rw [Function.update_noteq hw1] at h1
      cases h2
      exact inv.blockData w₁ v₁ s o h1 hs href
    · rw [Function.update_noteq hw1] at h1
      rw [Function.update_noteq hw2] at h2
      exact inv.blockData w₁ v₁ w₂ v₂ h1 h2 href
  · intro w₁ v₁ w₂ v₂ a h1 h2 hd1 hd2
    rw [hwrap] at h1 h2
    rcases eq_or_ne w₁ st.nextW with hw1 | hw1 <;> rcases eq_or_ne w₂ st.nextW with hw2 | hw2
    · subst hw1; subst hw2
      rw [Function.update_same] at h1 h2
      cases h1; cases h2; rfl
    · subst hw1
      rw [Function.update_same] at h1
      rw [Function.update_noteq hw2] at h2
      cases h1
      exact inv.addrBlock s o w₂ v₂ a hs h2 hd1 hd2
    · subst hw2
      rw [Function.update_same] at h2
      rw [Function.update_noteq hw1] at h1
      cases h2
      exact inv.addrBlock w₁ v₁ s o a h1 hs hd1 hd2
    · rw [Function.update_noteq hw1] at h1
      rw [Function.update_noteq hw2] at h2
      exact inv.addrBlock w₁ v₁ w₂ v₂ a h1 h2 hd1 hd2
  · intro w v a hv hd
    rw [hwrap] at hv
    rw [hobj]
    rcases eq_or_ne w st.nextW with hw | hw
    · subst hw
      rw [Function.update_same] at hv
      cases hv
      exact inv.heldLive s o a hs hd
    · rw [Function.update_noteq hw] at hv
      exact inv.heldLive w v a hv hd
  · intro a ha
    rw [hobj] at ha
    obtain ⟨w, v, hv, hd⟩ := inv.liveHeld a ha
    refine ⟨w, v, ?_, hd⟩
    rw [hwrap, Function.update_noteq (Nat.ne_of_lt (lt_nextW_of_live inv hv))]
    exact hv
  · intro a ha
    rw [hdest] at ha
    rw [hobj]
    exact inv.deadGone a ha
  · rw [hdest]
    exact inv.destNodup

theorem sInv_copy {st : SState} (inv : SInv st) {s : Nat}
    (hleg : sLegal st (SOp.copyCtor s) = true)
    (hbnd : sBounded (sCopyCtor st s) = true) : SInv (sCopyCtor st s) := by
  have hs : ∃ o, st.wrappers s = some o := by
    simp only [sLegal, sLive] at hleg
    exact Option.isSome_iff_exists.mp hleg
  obtain ⟨o, hs⟩ := hs
  obtain ⟨b₁, hr₁, halloc₁⟩ := inv.refSome s o hs
  obtain ⟨c₁, hc₁⟩ := Option.isSome_iff_exists.mp halloc₁
  have hcount₁ : c₁ = sHolders st b₁ := inv.counts b₁ c₁ hc₁
  have hwrap : (sCopyCtor st s).wrappers
      = Function.update st.wrappers st.nextW (some ⟨o.data, o.ref⟩) := by
    cases hdo : o.data with
    | none => simp [sCopyCtor, hs, hdo, hr₁]
    | some a₀ => simp [sCopyCtor, hs, hdo, hr₁]
  have hnw : (sCopyCtor st s).nextW = st.nextW + 1 := by
    cases hdo : o.data with
    | none => simp [sCopyCtor, hs, hdo, hr₁]
    | some a₀ => simp [sCopyCtor, hs, hdo, hr₁]
  have hnb : (sCopyCtor st s).nextB = st.nextB := by
    cases hdo : o.data with
    | none => simp [sCopyCtor, hs, hdo, hr₁]
    | some a₀ => simp [sCopyCtor, hs, hdo, hr₁]
  have hobj : (sCopyCtor st s).objects = st.objects := by
    cases hdo : o.data with
    | none => simp [sCopyCtor, hs, hdo, hr₁]
    | some a₀ => simp [sCopyCtor, hs, hdo, hr₁]
  have hdest : (sCopyCtor st s).destroyed = st.destroyed := by
    cases hdo : o.data with
    | none => simp [sCopyCtor, hs, hdo, hr₁]
    | some a₀ => simp [sCopyCtor, hs, hdo, hr₁]
  have hold : ∀ b, sHolders (sCopyCtor st s) b
      = sHolders st b + holdVal b (some ⟨o.data, o.ref⟩) := by
    intro b
    unfold sHolders
    rw [hnw, hwrap]
    exact sum_comp_extend st.nextW st.wrappers _ (holdVal b)
  have hhvo : ∀ b, b ≠ b₁ → holdVal b (some ⟨o.data, o.ref⟩) = 0 := by
    intro b hb
    simp only [holdVal, hr₁]
    rw [if_neg]
    rintro ⟨-, h2⟩
    exact hb (Option.some_injective _ h2).symm
  have hblks : ((sCopyCtor st s).blocks = st.blocks
        ∧ holdVal b₁ (some ⟨o.data, o.ref⟩) = 0)
      ∨ ((sCopyCtor st s).blocks = Function.update st.blocks b₁ (some (u16inc c₁))
        ∧ holdVal b₁ (some ⟨o.data, o.ref⟩) = 1) := by
    cases hdo : o.data with
    | none =>
        left
        constructor
        · simp [sCopyCtor, hs, hdo, hr₁]
        · simp [holdVal, hdo]
    | some a₀ =>
        right
        constructor
        · simp [sCopyCtor, hs, hdo, hr₁, hc₁]
        · simp [holdVal, hdo, hr₁]
  obtain ⟨haux1, haux2, haux3, haux4, haux5, haux6, haux7⟩ :=
    copy_extend_aux inv hs hwrap hnw hobj hdest
  rcases hblks with ⟨hblk, hhv₁⟩ | ⟨hblk, hhv₁⟩
  · -- the source is empty: no block change, no holder change
    refine ⟨haux1, ?_, ?_, ?_, haux2, haux3, haux4, haux5, haux6, haux7⟩
    · intro b hb
      rw [hnb] at hb
      rw [hblk]
      exact inv.bClosed b hb
    · intro w v hv
      rw [hwrap] at hv
      rcases eq_or_ne w st.nextW with hw | hw
      · subst hw
        rw [Function.update_same] at hv
        cases hv
        refine ⟨b₁, hr₁, ?_⟩
        rw [hblk]
        exact halloc₁
      · rw [Function.update_noteq hw] at hv
        obtain ⟨b, hb, hall⟩ := inv.refSome w v hv
        refine ⟨b, hb, ?_⟩
        rw [hblk]
        exact hall
    · intro b c hb
      rw [hblk] at hb
      rw [hold]
      rcases eq_or_ne b b₁ with hbe | hbe
      · rw [hbe] at hb ⊢
        rw [hhv₁, Nat.add_zero]
        exact inv.counts b₁ c hb
      · rw [hhvo b hbe, Nat.add_zero]
        exact inv.counts b c hb
  · -- the source is owning: the shared block's count is incremented
    have hb₁lt : b₁ < st.nextB := lt_nextB_of_alloc inv hc₁
    have hexact : u16inc c₁ = c₁ + 1 := by
      have hble := sBounded_iff.mp hbnd b₁ (by rw [hnb]; exact hb₁lt)
      rw [hold b₁, hhv₁, ← hcount₁] at hble
      exact u16inc_exact (by omega)
    refine ⟨haux1, ?_, ?_, ?_, haux2, haux3, haux4, haux5, haux6, haux7⟩
    · intro b hb
      rw [hnb] at hb
      have hbne : b ≠ b₁ := by
        intro hcon
        rw [hcon] at hb
        exact absurd hb (Nat.not_le_of_lt hb₁lt)
      rw [hblk, Function.update_noteq hbne]
      exact inv.bClosed b hb
    · intro w v hv
      rw [hwrap] at hv
      have hall' : ∀ b, (st.blocks b).isSome → (((sCopyCtor st s).blocks) b).isSome := by
        intro b hb
        rw [hblk]
        rcases eq_or_ne b b₁ with hbe | hbe
        · subst hbe; rw [Function.update_same]; rfl
        · rw [Function.update_noteq hbe]; exact hb
      rcases eq_or_ne w st.nextW with hw | hw
      · subst hw
        rw [Function.update_same] at hv
        cases hv
        exact ⟨b₁, hr₁, hall' b₁ halloc₁⟩
      · rw [Function.update_noteq hw] at hv
        obtain ⟨b, hb, hall⟩ := inv.refSome w v hv
        exact ⟨b, hb, hall' b hall⟩
    · intro b c hb
      rw [hblk] at hb
      rw [hold]
      rcases eq_or_ne b b₁ with hbe | hbe
      · rw [hbe] at hb ⊢
        rw [Function.update_same] at hb
        cases hb
        rw [hhv₁, hexact, hcount₁]
      · rw [Function.update_noteq hbe] at hb
        rw [hhvo b hbe, Nat.add_zero]
        exact inv.counts b c hb

theorem two_le_holders {st : SState} (inv : SInv st) {w w' : Nat} {v v' : SPtrVal} {b : Nat}
    (hne : w ≠ w') (hw : st.wrappers w = some v) (hw' : st.wrappers w' = some v')
    (hd : v.data.isSome) (hd' : v'.data.isSome) (hr : v.ref = some b) (hr' : v'.ref = some b) :
    2 ≤ sHolders st b := by
  have hwn : w < st.nextW := lt_nextW_of_live inv hw
  have hwn' : w' < st.nextW := lt_nextW_of_live inv hw'
  have hmem : w ∈ Finset.range st.nextW := Finset.mem_range.mpr hwn
  have hmem' : w' ∈ (Finset.range st.nextW).erase w :=
    Finset.mem_erase.mpr ⟨Ne.symm hne, Finset.mem_range.mpr hwn'⟩
  have hsplit : holdVal b (st.wrappers w)
      + ∑ x in (Finset.range st.nextW).erase w, holdVal b (st.wrappers x)
      = ∑ x in Finset.range st.nextW, holdVal b (st.wrappers x) :=
    Finset.add_sum_erase _ (fun x => holdVal b (st.wrappers x)) hmem
  have h2 : holdVal b (st.wrappers w')
      ≤ ∑ x in (Finset.range st.nextW).erase w, holdVal b (st.wrappers x) :=
    @Finset.single_le_sum Nat Nat _ (fun x => holdVal b (st.wrappers x))
      ((Finset.range st.nextW).erase w) (fun i _ => Nat.zero_le _) w' hmem'
  have hw1 : holdVal b (st.wrappers w) = 1 := by
    rw [hw]
    simp only [holdVal]
    rw [if_pos ⟨hd, hr⟩]
  have hw2 : holdVal b (st.wrappers w') = 1 := by
    rw [hw']
    simp only [holdVal]
    rw [if_pos ⟨hd', hr'⟩]
  rw [hw1] at hsplit
  rw [hw2] at h2
  unfold sHolders
  omega

theorem sInv_destroy {st : SState} (inv : SInv st) (hbnd : sBounded st = true) {w : Nat}
    (hleg : sLegal st (SOp.destroy w) = true) : SInv (sDestroy st w) := by
  have hv : ∃ v, st.wrappers w = some v := by
    simp only [sLegal, sLive] at hleg
    exact Option.isSome_iff_exists.mp hleg
  obtain ⟨v, hv⟩ := hv
  have hwlt : w < st.nextW := lt_nextW_of_live inv hv
  obtain ⟨b₀, hr₀, halloc₀⟩ := inv.refSome w v hv
  obtain ⟨c₀, hc₀⟩ := Option.isSome_iff_exists.mp halloc₀
  have hcount₀ : c₀ = sHolders st b₀ := inv.counts b₀ c₀ hc₀
  have hble : sHolders st b₀ ≤ 65535 := sBounded_iff.mp hbnd b₀ (lt_nextB_of_alloc inv hc₀)
  have hshape :
      (v.data = none ∧ sDestroy st w
          = { st with wrappers := Function.update st.wrappers w none })
      ∨ (∃ a₀, v.data = some a₀ ∧ c₀ = 1 ∧ sDestroy st w
          = { st with wrappers := Function.update st.wrappers w none
                    , blocks := Function.update st.blocks b₀ none
                    , objects := Function.update st.objects a₀ false
                    , destroyed := a₀ :: st.destroyed })
      ∨ (∃ a₀, v.data = some a₀ ∧ 2 ≤ c₀ ∧ sDestroy st w
          = { st with wrappers := Function.update st.wrappers w none
                    , blocks := Function.update st.blocks b₀ (some (c₀ - 1)) }) := by
    cases hvd : v.data with
    | none =>
        left
        refine ⟨rfl, ?_⟩
        simp [sDestroy, decRefCount, hv, hvd]
    | some a₀ =>
        right
        have hc1 : 1 ≤ c₀ := by
          rw [hcount₀]
          exact one_le_holders inv hv (by rw [hvd]; rfl) hr₀
        rcases Nat.lt_or_ge c₀ 2 with hlt | hge
        · left
          have hceq : c₀ = 1 := by omega
          refine ⟨a₀, rfl, hceq, ?_⟩
          have hdz : u16dec ((st.blocks b₀).getD 0) = 0 := by
            rw [hc₀, Option.getD_some, hceq]
            decide
          simp only [sDestroy, decRefCount, hv, hvd, hr₀, hdz, if_pos]
          rw [Function.update_idem]
        · right
          refine ⟨a₀, rfl, hge, ?_⟩
          have hdnz : u16dec ((st.blocks b₀).getD 0) = c₀ - 1 := by
            rw [hc₀, Option.getD_some]
            exact u16dec_exact hc1 (by omega)
          have hcond : (c₀ - 1 = 0) = False := eq_false (by omega)
          simp only [sDestroy, decRefCount, hv, hvd, hr₀, hdnz, hcond, if_false]
  -- facts shared by every branch
  have hwrap : (sDestroy st w).wrappers = Function.update st.wrappers w none := by
    rcases hshape with ⟨-, hpost⟩ | ⟨a₀, -, -, hpost⟩ | ⟨a₀, -, -, hpost⟩ <;> rw [hpost]
  have hnw : (sDestroy st w).nextW = st.nextW := by
    rcases hshape with ⟨-, hpost⟩ | ⟨a₀, -, -, hpost⟩ | ⟨a₀, -, -, hpost⟩ <;> rw [hpost]
  have hnb : (sDestroy st w).nextB = st.nextB := by
    rcases hshape with ⟨-, hpost⟩ | ⟨a₀, -, -, hpost⟩ | ⟨a₀, -, -, hpost⟩ <;> rw [hpost]
  have hsurv : ∀ w' v', (sDestroy st w).wrappers w' = some v' →
      w' ≠ w ∧ st.wrappers w' = some v' := by
    intro w' v' h
    rw [hwrap] at h
    rcases eq_or_ne w' w with he | he
    · subst he
      rw [Function.update_same] at h
      cases h
    · rw [Function.update_noteq he] at h
      exact ⟨he, h⟩
  have hold : ∀ b, sHolders (sDestroy st w) b + holdVal b (some v) = sHolders st b := by
    intro b
    unfold sHolders
    rw [hnw, hwrap]
    have h := sum_comp_update hwlt st.wrappers none (holdVal b)
    rw [hv] at h
    simpa [holdVal] using h
  have hwcl : ∀ w', (sDestroy st w).nextW ≤ w' → (sDestroy st w).wrappers w' = none := by
    intro w' hw'
    rw [hnw] at hw'
    rw [hwrap]
    rcases eq_or_ne w' w with he | he
    · subst he
      exact Function.update_same _ _ _
    · rw [Function.update_noteq he]
      exact inv.wClosed w' hw'
  have hbd : ∀ w₁ v₁ w₂ v₂, (sDestroy st w).wrappers w₁ = some v₁ →
      (sDestroy st w).wrappers w₂ = some v₂ → v₁.ref = v₂.ref → v₁.data = v₂.data := by
    intro w₁ v₁ w₂ v₂ h1 h2 href
    obtain ⟨-, h1'⟩ := hsurv w₁ v₁ h1
    obtain ⟨-, h2'⟩ := hsurv w₂ v₂ h2
    exact inv.blockData w₁ v₁ w₂ v₂ h1' h2' href
  have hab : ∀ w₁ v₁ w₂ v₂ a, (sDestroy st w).wrappers w₁ = some v₁ →
      (sDestroy st w).wrappers w₂ = some v₂ → v₁.data = some a → v₂.data = some a →
      v₁.ref = v₂.ref := by
    intro w₁ v₁ w₂ v₂ a h1 h2 hd1 hd2
    obtain ⟨-, h1'⟩ := hsurv w₁ v₁ h1
    obtain ⟨-, h2'⟩ := hsurv w₂ v₂ h2
    exact inv.addrBlock w₁ v₁ w₂ v₂ a h1' h2' hd1 hd2
  rcases hshape with ⟨hvd, hpost⟩ | ⟨a₀, hvd, hceq, hpost⟩ | ⟨a₀, hvd, hge, hpost⟩
  · -- the wrapper was empty: nothing but the wrapper slot changes
    have hblk : (sDestroy st w).blocks = st.blocks := by rw [hpost]
    have hobj : (sDestroy st w).objects = st.objects := by rw [hpost]
    have hdest : (sDestroy st w).destroyed = st.destroyed := by rw [hpost]
    have hhv : ∀ b, holdVal b (some v) = 0 := by
      intro b
      simp [holdVal, hvd]
    refine ⟨hwcl, ?_, ?_, ?_, hbd, hab, ?_, ?_, ?_, ?_⟩
    · intro b hb
      rw [hnb] at hb
      rw [hblk]
      exact inv.bClosed b hb
    · intro w' v' h
      obtain ⟨-, h'⟩ := hsurv w' v' h
      obtain ⟨b, hb, hall⟩ := inv.refSome w' v' h'
      refine ⟨b, hb, ?_⟩
      rw [hblk]
      exact hall
    · intro b c hb
      rw [hblk] at hb
      have := hold b
      rw [hhv b, Nat.add_zero] at this
      rw [this]
      exact inv.counts b c hb
    · intro w' v' a h hd
      obtain ⟨-, h'⟩ := hsurv w' v' h
      rw [hobj]
      exact inv.heldLive w' v' a h' hd
    · intro a ha
      rw [hobj] at ha
      obtain ⟨w₁, v₁, hw₁, hd₁⟩ := inv.liveHeld a ha
      have hne : w₁ ≠ w := by
        intro hcon
        rw [hcon, hv] at hw₁
        cases hw₁
        rw [hvd] at hd₁
        cases hd₁
      refine ⟨w₁, v₁, ?_, hd₁⟩
      rw [hwrap, Function.update_noteq hne]
      exact hw₁
    · intro a ha
      rw [hdest] at ha
      rw [hobj]
      exact inv.deadGone a ha
    · rw [hdest]
      exact inv.destNodup
  · -- the wrapper was the last holder: block freed, object destroyed
    have hblk : (sDestroy st w).blocks = Function.update st.blocks b₀ none := by rw [hpost]
    have hobj : (sDestroy st w).objects = Function.update st.objects a₀ false := by rw [hpost]
    have hdest : (sDestroy st w).destroyed = a₀ :: st.destroyed := by rw [hpost]
    have hvds : v.data.isSome := by rw [hvd]; rfl
    have honly : sHolders st b₀ = 1 := by omega
    have hnoref : ∀ w' v', st.wrappers w' = some v' → w' ≠ w → v'.ref ≠ some b₀ := by
      intro w' v' h' hne hr'
      have hd' : v'.data = v.data := inv.blockData w' v' w v h' hv (hr'.trans hr₀.symm)
      have : 2 ≤ sHolders st b₀ :=
        two_le_holders inv hne h' hv (by rw [hd', hvd]; rfl) hvds hr' hr₀
      omega
    have hnoaddr : ∀ w' v', st.wrappers w' = some v' → w' ≠ w → v'.data ≠ some a₀ := by
      intro w' v' h' hne hd'
      exact hnoref w' v' h' hne ((inv.addrBlock w' v' w v a₀ h' hv hd' hvd).trans hr₀)
    refine ⟨hwcl, ?_, ?_, ?_, hbd, hab, ?_, ?_, ?_, ?_⟩
    · intro b hb
      rw [hnb] at hb
      rw [hblk]
      rcases eq_or_ne b b₀ with he | he
      · subst he
        exact Function.update_same _ _ _
      · rw [Function.update_noteq he]
        exact inv.bClosed b hb
    · intro w' v' h
      obtain ⟨hne, h'⟩ := hsurv w' v' h
      obtain ⟨b, hb, hall⟩ := inv.refSome w' v' h'
      refine ⟨b, hb, ?_⟩
      rw [hblk]
      have hbne : b ≠ b₀ := by
        intro hcon
        exact hnoref w' v' h' hne (by rw [hb, hcon])
      rw [Function.update_noteq hbne]
      exact hall
    · intro b c hb
      rw [hblk] at hb
      rcases eq_or_ne b b₀ with he | he
      · subst he
        rw [Function.update_same] at hb
        cases hb
      · rw [Function.update_noteq he] at hb
        have hhv : holdVal b (some v) = 0 := by
          simp only [holdVal, hr₀]
          rw [if_neg]
          rintro ⟨-, h2⟩
          exact he (Option.some_injective _ h2).symm
        have := hold b
        rw [hhv, Nat.add_zero] at this
        rw [this]
        exact inv.counts b c hb
    · intro w' v' a h hd
      obtain ⟨hne, h'⟩ := hsurv w' v' h
      rw [hobj]
      have hane : a ≠ a₀ := by
        intro hcon
        exact hnoaddr w' v' h' hne (by rw [← hcon]; exact hd)
      rw [Function.update_noteq hane]
      exact inv.heldLive w' v' a h' hd
    · intro a ha
      rw [hobj] at ha
      have hane : a ≠ a₀ := by
        intro hcon
        rw [hcon, Function.update_same] at ha
        cases ha
      rw [Function.update_noteq hane] at ha
      obtain ⟨w₁, v₁, hw₁, hd₁⟩ := inv.liveHeld a ha
      have hne : w₁ ≠ w := by
        intro hcon
        rw [hcon, hv] at hw₁
        cases hw₁
        rw [hvd] at hd₁
        cases hd₁
        exact hane rfl
      refine ⟨w₁, v₁, ?_, hd₁⟩
      rw [hwrap, Function.update_noteq hne]
      exact hw₁
    · intro a ha
      rw [hdest] at ha
      rw [hobj]
      rcases List.mem_cons.mp ha with he | hmem
      · subst he
        exact Function.update_same _ _ _
      · rcases eq_or_ne a a₀ with he | he
        · subst he
          exact Function.update_same _ _ _
        · rw [Function.update_noteq he]
          exact inv.deadGone a hmem
    · rw [hdest]
      refine List.Nodup.cons ?_ inv.destNodup
      intro hmem
      have := inv.deadGone a₀ hmem
      rw [inv.heldLive w v a₀ hv hvd] at this
      cases this
  · -- other holders remain: only the count decreases
    have hblk : (sDestroy st w).blocks = Function.update st.blocks b₀ (some (c₀ - 1)) := by
      rw [hpost]
    have hobj : (sDestroy st w).objects = st.objects := by rw [hpost]
    have hdest : (sDestroy st w).destroyed = st.destroyed := by rw [hpost]
    have hvds : v.data.isSome := by rw [hvd]; rfl
    obtain ⟨w₂, v₂, hw₂ne, hw₂, hd₂, hr₂⟩ :=
      @exists_other_holder st b₀ w (by omega)
    refine ⟨hwcl, ?_, ?_, ?_, hbd, hab, ?_, ?_, ?_, ?_⟩
    · intro b hb
      rw [hnb] at hb
      rw [hblk]
      have hbne : b ≠ b₀ := by
        intro hcon
        rw [hcon] at hb
        exact absurd hb (Nat.not_le_of_lt (lt_nextB_of_alloc inv hc₀))
      rw [Function.update_noteq hbne]
      exact inv.bClosed b hb
    · intro w' v' h
      obtain ⟨-, h'⟩ := hsurv w' v' h
      obtain ⟨b, hb, hall⟩ := inv.refSome w' v' h'
      refine ⟨b, hb, ?_⟩
      rw [hblk]
      rcases eq_or_ne b b₀ with he | he
      · subst he
        rw [Function.update_same]
        rfl
      · rw [Function.update_noteq he]
        exact hall
    · intro b c hb
      rw [hblk] at hb
      rcases eq_or_ne b b₀ with he | he
      · rw [he] at hb ⊢
        rw [Function.update_same] at hb
        cases hb
        have hhv : holdVal b₀ (some v) = 1 := by
          simp only [holdVal]
          rw [if_pos ⟨hvds, hr₀⟩]
        have := hold b₀
        omega
      · rw [Function.update_noteq he] at hb
        have hhv : holdVal b (some v) = 0 := by
          simp only [holdVal, hr₀]
          rw [if_neg]
          rintro ⟨-, h2⟩
          exact he (Option.some_injective _ h2).symm
        have := hold b
        rw [hhv, Nat.add_zero] at this
        rw [this]
        exact inv.counts b c hb
    · intro w' v' a h hd
      obtain ⟨-, h'⟩ := hsurv w' v' h
      rw [hobj]
      exact inv.heldLive w' v' a h' hd
    · intro a ha
      rw [hobj] at ha
      obtain ⟨w₁, v₁, hw₁, hd₁⟩ := inv.liveHeld a ha
      rcases eq_or_ne w₁ w with he | he
      · -- the destroyed wrapper held it, but another holder of the same block remains
        rw [he, hv] at hw₁
        cases hw₁
        rw [hvd] at hd₁
        have hd₂' : v₂.data = some a := by
          rw [inv.blockData w₂ v₂ w v hw₂ hv (hr₂.trans hr₀.symm), hvd]
          exact hd₁
        refine ⟨w₂, v₂, ?_, hd₂'⟩
        rw [hwrap, Function.update_noteq hw₂ne]
        exact hw₂
      · refine ⟨w₁, v₁, ?_, hd₁⟩
        rw [hwrap, Function.update_noteq he]
        exact hw₁
    · intro a ha
      rw [hdest] at ha
      rw [hobj]
      exact inv.deadGone a ha
    · rw [hdest]
      exact inv.destNodup

theorem sAdopt_objects (stY : SState) (d : Option Nat) (a : Nat) :
    (sAdopt stY d).objects a = if d = some a then true else stY.objects a := by
  cases d with
  | none => simp [sAdopt]
  | some a₁ =>
      rcases eq_or_ne a₁ a with he | he
      · subst he
        simp [sAdopt, Function.update_same]
      · have : ¬((some a₁ : Option Nat) = some a) := by
          intro hcon
          exact he (Option.some_injective _ hcon)
        rw [if_neg this]
        show (Function.update stY.objects a₁ true) a = stY.objects a
        rw [Function.update_noteq (Ne.symm he)]

theorem sAdopt_wrappers (stY : SState) (d : Option Nat) :
    (sAdopt stY d).wrappers = stY.wrappers := by cases d <;> rfl

theorem sAdopt_blocks (stY : SState) (d : Option Nat) :
    (sAdopt stY d).blocks = stY.blocks := by cases d <;> rfl

theorem sAdopt_nextW (stY : SState) (d : Option Nat) :
    (sAdopt stY d).nextW = stY.nextW := by cases d <;> rfl

theorem sAdopt_nextB (stY : SState) (d : Option Nat) :
    (sAdopt stY d).nextB = stY.nextB := by cases d <;> rfl

theorem sAdopt_destroyed (stY : SState) (d : Option Nat) :
    (sAdopt stY d).destroyed = stY.destroyed := by cases d <;> rfl

end DuinoMemory

namespace DuinoMemory

theorem sInv_assignRaw {st : SState} (inv : SInv st) (hbnd : sBounded st = true) {w : Nat}
    {d : Option Nat} (hleg : sLegal st (SOp.assignRaw w d) = true) :
    SInv (sAssignRaw st w d) := by
  have hv : ∃ v, st.wrappers w = some v := by
    simp only [sLegal] at hleg
    cases hw : st.wrappers w with
    | none => rw [hw] at hleg; cases hleg
    | some v => exact ⟨v, rfl⟩
  obtain ⟨v, hv⟩ := hv
  rcases eq_or_ne d v.data with hguard | hguard
  · have hid : sAssignRaw st w d = st := by
      simp [sAssignRaw, hv, hguard]
    rw [hid]
    exact inv
  have hfresh : ∀ a₁, d = some a₁ → st.objects a₁ = false ∧ a₁ ∉ st.destroyed := by
    intro a₁ hd
    simp only [sLegal, hv, Bool.or_eq_true, beq_iff_eq] at hleg
    rcases hleg with hok | heq
    · simp only [hd] at hok
      exact sFresh_iff.mp hok
    · exact absurd heq hguard
  have hwlt : w < st.nextW := lt_nextW_of_live inv hv
  obtain ⟨b₀, hr₀, halloc₀⟩ := inv.refSome w v hv
  obtain ⟨c₀, hc₀⟩ := Option.isSome_iff_exists.mp halloc₀
  have hcount₀ : c₀ = sHolders st b₀ := inv.counts b₀ c₀ hc₀
  have hb₀lt : b₀ < st.nextB := lt_nextB_of_alloc inv hc₀
  have hble : sHolders st b₀ ≤ 65535 := sBounded_iff.mp hbnd b₀ hb₀lt
  have hshape :
      (v.data = none ∧ sAssignRaw st w d
          = { sAdopt st d with
                wrappers := Function.update st.wrappers w (some ⟨d, some st.nextB⟩)
              , blocks := Function.update st.blocks st.nextB (some (d.elim 0 fun _ => 1))
              , nextB := st.nextB + 1 })
      ∨ (∃ a₀, v.data = some a₀ ∧ c₀ = 1 ∧ sAssignRaw st w d
          = { (sAdopt { st with
                  blocks := Function.update st.blocks b₀ none,
                  wrappers := Function.update st.wrappers w (some ⟨none, some b₀⟩),
                  objects := Function.update st.objects a₀ false,
                  destroyed := a₀ :: st.destroyed } d) with
                wrappers := Function.update st.wrappers w (some ⟨d, some st.nextB⟩)
              , blocks := Function.update (Function.update st.blocks b₀ none) st.nextB
                  (some (d.elim 0 fun _ => 1))
              , nextB := st.nextB + 1 })
      ∨ (∃ a₀, v.data = some a₀ ∧ 2 ≤ c₀ ∧ sAssignRaw st w d
          = { (sAdopt { st with blocks := Function.update st.blocks b₀ (some (c₀ - 1)) } d) with
                wrappers := Function.update st.wrappers w (some ⟨d, some st.nextB⟩)
              , blocks := Function.update (Function.update st.blocks b₀ (some (c₀ - 1)))
                  st.nextB (some (d.elim 0 fun _ => 1))
              , nextB := st.nextB + 1 })
      := by
    cases hvd : v.data with
    | none =>
        left
        refine ⟨rfl, ?_⟩
        have hdec : decRefCount st w = st := by
          simp [decRefCount, hv, hvd]
        simp only [sAssignRaw, hv, if_neg hguard, hdec]
        cases d <;> simp [sAdopt]
    | some a₀ =>
        right
        have hc1 : 1 ≤ c₀ := by
          rw [hcount₀]
          exact one_le_holders inv hv (by rw [hvd]; rfl) hr₀
        rcases Nat.lt_or_ge c₀ 2 with hlt | hge
        · left
          have hceq : c₀ = 1 := by omega
          refine ⟨a₀, rfl, hceq, ?_⟩
          have hdz : u16dec ((st.blocks b₀).getD 0) = 0 := by
            rw [hc₀, Option.getD_some, hceq]
            decide
          have hdec : decRefCount st w
              = { st with blocks := Function.update st.blocks b₀ none
                        , wrappers := Function.update st.wrappers w (some ⟨none, some b₀⟩)
                        , objects := Function.update st.objects a₀ false
                        , destroyed := a₀ :: st.destroyed } := by
            simp only [decRefCount, hv, hvd, hr₀, hdz, if_pos]
          simp only [sAssignRaw, hv, if_neg hguard, hdec]
          cases d <;> simp [sAdopt, Function.update_idem]
        · right
          refine ⟨a₀, rfl, hge, ?_⟩
          have hdnz : u16dec ((st.blocks b₀).getD 0) = c₀ - 1 := by
            rw [hc₀, Option.getD_some]
            exact u16dec_exact hc1 (by omega)
          have hcond : (c₀ - 1 = 0) = False := eq_false (by omega)
          have hdec : decRefCount st w
              = { st with blocks := Function.update st.blocks b₀ (some (c₀ - 1)) } := by
            simp only [decRefCount, hv, hvd, hr₀, hdnz, hcond, if_false]
          simp only [sAssignRaw, hv, if_neg hguard, hdec]
          cases d <;> simp [sAdopt]
  -- components shared by all three shapes
  have hwrap : (sAssignRaw st w d).wrappers
      = Function.update st.wrappers w (some ⟨d, some st.nextB⟩) := by
    rcases hshape with ⟨-, hpost⟩ | ⟨a₀, -, -, hpost⟩ | ⟨a₀, -, -, hpost⟩ <;> rw [hpost]
  have hnw : (sAssignRaw st w d).nextW = st.nextW := by
    rcases hshape with ⟨-, hpost⟩ | ⟨a₀, -, -, hpost⟩ | ⟨a₀, -, -, hpost⟩ <;>
      rw [hpost] <;> exact sAdopt_nextW _ d
  have hnb : (sAssignRaw st w d).nextB = st.nextB + 1 := by
    rcases hshape with ⟨-, hpost⟩ | ⟨a₀, -, -, hpost⟩ | ⟨a₀, -, -, hpost⟩ <;> rw [hpost]
  have hold : ∀ b, sHolders (sAssignRaw st w d) b + holdVal b (some v)
      = sHolders st b + holdVal b (some ⟨d, some st.nextB⟩) := by
    intro b
    unfold sHolders
    rw [hnw, hwrap]
    have h := sum_comp_update hwlt st.wrappers (some ⟨d, some st.nextB⟩) (holdVal b)
    rw [hv] at h
    exact h
  have hvnxt : holdVal st.nextB (some v) = 0 := by
    simp only [holdVal, hr₀]
    rw [if_neg]
    rintro ⟨-, h2⟩
    have := Option.some_injective _ h2
    omega
  have hhvnew : ∀ b, b ≠ st.nextB → holdVal b (some ⟨d, some st.nextB⟩) = 0 := by
    intro b hb
    simp only [holdVal]
    rw [if_neg]
    rintro ⟨-, h2⟩
    exact hb (Option.some_injective _ h2).symm
  have hhvnxt : holdVal st.nextB (some ⟨d, some st.nextB⟩) = d.elim 0 fun _ => 1 := by
    cases d <;> simp [holdVal]
  have hh0 : sHolders st st.nextB = 0 :=
    holders_zero_of_unalloc inv (inv.bClosed st.nextB (Nat.le_refl _))
  have hlook : ∀ w' v', (sAssignRaw st w d).wrappers w' = some v' →
      (w' = w ∧ v' = ⟨d, some st.nextB⟩) ∨ (w' ≠ w ∧ st.wrappers w' = some v') := by
    intro w' v' h
    rw [hwrap] at h
    rcases eq_or_ne w' w with he | he
    · subst he
      rw [Function.update_same] at h
      cases h
      exact Or.inl ⟨rfl, rfl⟩
    · rw [Function.update_noteq he] at h
      exact Or.inr ⟨he, h⟩
  have hwcl : ∀ w', (sAssignRaw st w d).nextW ≤ w' → (sAssignRaw st w d).wrappers w' = none := by
    intro w' hw'
    rw [hnw] at hw'
    rw [hwrap]
    have hne : w' ≠ w := by omega
    rw [Function.update_noteq hne]
    exact inv.wClosed w' hw'
  have hrefold : ∀ w' v', w' ≠ w → st.wrappers w' = some v' → ∀ b, v'.ref = some b →
      b ≠ st.nextB := by
    intro w' v' hne h' b hb hcon
    obtain ⟨b', hb', hall'⟩ := inv.refSome w' v' h'
    rw [hb] at hb'
    cases hb'
    rw [hcon, inv.bClosed st.nextB (Nat.le_refl _)] at hall'
    cases hall'
  have hbd : ∀ w₁ v₁ w₂ v₂, (sAssignRaw st w d).wrappers w₁ = some v₁ →
      (sAssignRaw st w d).wrappers w₂ = some v₂ → v₁.ref = v₂.ref → v₁.data = v₂.data := by
    intro w₁ v₁ w₂ v₂ h1 h2 href
    rcases hlook w₁ v₁ h1 with ⟨he1, hv1⟩ | ⟨hne1, hs1⟩ <;>
      rcases hlook w₂ v₂ h2 with ⟨he2, hv2⟩ | ⟨hne2, hs2⟩
    · rw [hv1, hv2]
    · exfalso
      subst hv1
      obtain ⟨b', hb', hall'⟩ := inv.refSome w₂ v₂ hs2
      exact hrefold w₂ v₂ hne2 hs2 b' hb' (by
        rw [← href] at hb'
        exact (Option.some_injective _ hb').symm)
    · exfalso
      subst hv2
      obtain ⟨b', hb', hall'⟩ := inv.refSome w₁ v₁ hs1
      exact hrefold w₁ v₁ hne1 hs1 b' hb' (by
        rw [href] at hb'
        exact (Option.some_injective _ hb').symm)
    · exact inv.blockData w₁ v₁ w₂ v₂ hs1 hs2 href
  have hab : ∀ w₁ v₁ w₂ v₂ a, (sAssignRaw st w d).wrappers w₁ = some v₁ →
      (sAssignRaw st w d).wrappers w₂ = some v₂ → v₁.data = some a → v₂.data = some a →
      v₁.ref = v₂.ref := by
    intro w₁ v₁ w₂ v₂ a h1 h2 hd1 hd2
    rcases hlook w₁ v₁ h1 with ⟨he1, hv1⟩ | ⟨hne1, hs1⟩ <;>
      rcases hlook w₂ v₂ h2 with ⟨he2, hv2⟩ | ⟨hne2, hs2⟩
    · rw [hv1, hv2]
    · exfalso
      subst hv1
      have hda : d = some a := hd1
      have := (hfresh a hda).1
      rw [inv.heldLive w₂ v₂ a hs2 hd2] at this
      cases this
    · exfalso
      subst hv2
      have hda : d = some a := hd2
      have := (hfresh a hda).1
      rw [inv.heldLive w₁ v₁ a hs1 hd1] at this
      cases this
    · exact inv.addrBlock w₁ v₁ w₂ v₂ a hs1 hs2 hd1 hd2
  -- now the branch-dependent components
  rcases hshape with ⟨hvd, hpost⟩ | ⟨a₀, hvd, hceq, hpost⟩ | ⟨a₀, hvd, hge, hpost⟩
  · -- the wrapper was empty
    have hblk : (sAssignRaw st w d).blocks
        = Function.update st.blocks st.nextB (some (d.elim 0 fun _ => 1)) := by
      rw [hpost]
    have hobja : ∀ a, (sAssignRaw st w d).objects a
        = if d = some a then true else st.objects a := by
      intro a
      rw [hpost]
      exact sAdopt_objects _ d a
    have hdest : (sAssignRaw st w d).destroyed = st.destroyed := by
      rw [hpost]
      exact sAdopt_destroyed _ d
    have hhvv : ∀ b, holdVal b (some v) = 0 := by
      intro b
      simp [holdVal, hvd]
    refine ⟨hwcl, ?_, ?_, ?_, hbd, hab, ?_, ?_, ?_, ?_⟩
    · intro b hb
      rw [hnb] at hb
      have hne : b ≠ st.nextB := by omega
      rw [hblk, Function.update_noteq hne]
      exact inv.bClosed b (by omega)
    · intro w' v' h
      rcases hlook w' v' h with ⟨he, hveq⟩ | ⟨hne, hs'⟩
      · subst hveq
        refine ⟨st.nextB, rfl, ?_⟩
        rw [hblk, Function.update_same]
        rfl
      · obtain ⟨b, hb, hall⟩ := inv.refSome w' v' hs'
        refine ⟨b, hb, ?_⟩
        rw [hblk, Function.update_noteq (hrefold w' v' hne hs' b hb)]
        exact hall
    · intro b c hb
      rw [hblk] at hb
      rcases eq_or_ne b st.nextB with he | he
      · rw [he] at hb ⊢
        rw [Function.update_same] at hb
        cases hb
        have := hold st.nextB
        rw [hhvv, hhvnxt, hh0] at this
        omega
      · rw [Function.update_noteq he] at hb
        have := hold b
        rw [hhvv, hhvnew b he] at this
        have hcb := inv.counts b c hb
        omega
    · intro w' v' a h hd
      rcases hlook w' v' h with ⟨he, hveq⟩ | ⟨hne, hs'⟩
      · subst hveq
        rw [hobja a, if_pos hd]
      · rw [hobja a]
        rcases eq_or_ne d (some a) with hda | hda
        · rw [if_pos hda]
        · rw [if_neg hda]
          exact inv.heldLive w' v' a hs' hd
    · intro a ha
      rw [hobja a] at ha
      rcases eq_or_ne d (some a) with hda | hda
      · refine ⟨w, ⟨d, some st.nextB⟩, ?_, hda⟩
        rw [hwrap, Function.update_same]
      · rw [if_neg hda] at ha
        obtain ⟨w₁, v₁, hw₁, hd₁⟩ := inv.liveHeld a ha
        have hne : w₁ ≠ w := by
          intro hcon
          rw [hcon, hv] at hw₁
          cases hw₁
          rw [hvd] at hd₁
          cases hd₁
        refine ⟨w₁, v₁, ?_, hd₁⟩
        rw [hwrap, Function.update_noteq hne]
        exact hw₁
    · intro a ha
      rw [hdest] at ha
      rw [hobja a]
      have hda : d ≠ some a := by
        intro hcon
        exact (hfresh a hcon).2 ha
      rw [if_neg hda]
      exact inv.deadGone a ha
    · rw [hdest]
      exact inv.destNodup
  · -- the wrapper was the last holder of its block
    have hblk : (sAssignRaw st w d).blocks
        = Function.update (Function.update st.blocks b₀ none) st.nextB
            (some (d.elim 0 fun _ => 1)) := by
      rw [hpost]
    have hobja : ∀ a, (sAssignRaw st w d).objects a
        = if d = some a then true else (Function.update st.objects a₀ false) a := by
      intro a
      rw [hpost]
      exact sAdopt_objects _ d a
    have hdest : (sAssignRaw st w d).destroyed = a₀ :: st.destroyed := by
      rw [hpost]
      exact sAdopt_destroyed _ d
    have hvds : v.data.isSome := by rw [hvd]; rfl
    have honly : sHolders st b₀ = 1 := by omega
    have hnoref : ∀ w' v', st.wrappers w' = some v' → w' ≠ w → v'.ref ≠ some b₀ := by
      intro w' v' h' hne hr'
      have hd' : v'.data = v.data := inv.blockData w' v' w v h' hv (hr'.trans hr₀.symm)
      have : 2 ≤ sHolders st b₀ :=
        two_le_holders inv hne h' hv (by rw [hd', hvd]; rfl) hvds hr' hr₀
      omega
    have hnoaddr : ∀ w' v', st.wrappers w' = some v' → w' ≠ w → v'.data ≠ some a₀ := by
      intro w' v' h' hne hd'
      exact hnoref w' v' h' hne ((inv.addrBlock w' v' w v a₀ h' hv hd' hvd).trans hr₀)
    have hdna : d ≠ some a₀ := by
      intro hcon
      have := (hfresh a₀ hcon).1
      rw [inv.heldLive w v a₀ hv hvd] at this
      cases this
    refine ⟨hwcl, ?_, ?_, ?_, hbd, hab, ?_, ?_, ?_, ?_⟩
    · intro b hb
      rw [hnb] at hb
      have hne : b ≠ st.nextB := by omega
      have hne₀ : b ≠ b₀ := by omega
      rw [hblk, Function.update_noteq hne, Function.update_noteq hne₀]
      exact inv.bClosed b (by omega)
    · intro w' v' h
      rcases hlook w' v' h with ⟨he, hveq⟩ | ⟨hne, hs'⟩
      · subst hveq
        refine ⟨st.nextB, rfl, ?_⟩
        rw [hblk, Function.update_same]
        rfl
      · obtain ⟨b, hb, hall⟩ := inv.refSome w' v' hs'
        refine ⟨b, hb, ?_⟩
        have hbne₀ : b ≠ b₀ := by
          intro hcon
          exact hnoref w' v' hs' hne (by rw [hb, hcon])
        rw [hblk, Function.update_noteq (hrefold w' v' hne hs' b hb),
          Function.update_noteq hbne₀]
        exact hall
    · intro b c hb
      rw [hblk] at hb
      rcases eq_or_ne b st.nextB with he | he
      · rw [he] at hb ⊢
        rw [Function.update_same] at hb
        cases hb
        have := hold st.nextB
        rw [hhvnxt, hh0, hvnxt] at this
        omega
      · rw [Function.update_noteq he] at hb
        rcases eq_or_ne b b₀ with he₀ | he₀
        · rw [he₀, Function.update_same] at hb
          cases hb
        · rw [Function.update_noteq he₀] at hb
          have hhvv : holdVal b (some v) = 0 := by
            simp only [holdVal, hr₀]
            rw [if_neg]
            rintro ⟨-, h2⟩
            exact he₀ (Option.some_injective _ h2).symm
          have := hold b
          rw [hhvv, hhvnew b he] at this
          have hcb := inv.counts b c hb
          omega
    · intro w' v' a h hd
      rcases hlook w' v' h with ⟨he, hveq⟩ | ⟨hne, hs'⟩
      · subst hveq
        rw [hobja a, if_pos hd]
      · rw [hobja a]
        rcases eq_or_ne d (some a) with hda | hda
        · rw [if_pos hda]
        · rw [if_neg hda]
          have hane : a ≠ a₀ := by
            intro hcon
            exact hnoaddr w' v' hs' hne (by rw [← hcon]; exact hd)
          rw [Function.update_noteq hane]
          exact inv.heldLive w' v' a hs' hd
    · intro a ha
      rw [hobja a] at ha
      rcases eq_or_ne d (some a) with hda | hda
      · refine ⟨w, ⟨d, some st.nextB⟩, ?_, hda⟩
        rw [hwrap, Function.update_same]
      · rw [if_neg hda] at ha
        have hane : a ≠ a₀ := by
          intro hcon
          rw [hcon, Function.update_same] at ha
          cases ha
        rw [Function.update_noteq hane] at ha
        obtain ⟨w₁, v₁, hw₁, hd₁⟩ := inv.liveHeld a ha
        have hne : w₁ ≠ w := by
          intro hcon
          rw [hcon, hv] at hw₁
          cases hw₁
          rw [hvd] at hd₁
          cases hd₁
          exact hane rfl
        refine ⟨w₁, v₁, ?_, hd₁⟩
        rw [hwrap, Function.update_noteq hne]
        exact hw₁
    · intro a ha
      rw [hdest] at ha
      rw [hobja a]
      rcases List.mem_cons.mp ha with he | hmem
      · rw [he]
        rw [if_neg hdna, Function.update_same]
      · have hda : d ≠ some a := by
          intro hcon
          exact (hfresh a hcon).2 hmem
        rw [if_neg hda]
        rcases eq_or_ne a a₀ with he₀ | he₀
        · rw [he₀, Function.update_same]
        · rw [Function.update_noteq he₀]
          exact inv.deadGone a hmem
    · rw [hdest]
      refine List.Nodup.cons ?_ inv.destNodup
      intro hmem
      have := inv.deadGone a₀ hmem
      rw [inv.heldLive w v a₀ hv hvd] at this
      cases this
  · -- other holders of the block remain
    have hblk : (sAssignRaw st w d).blocks
        = Function.update (Function.update st.blocks b₀ (some (c₀ - 1))) st.nextB
            (some (d.elim 0 fun _ => 1)) := by
      rw [hpost]
    have hobja : ∀ a, (sAssignRaw st w d).objects a
        = if d = some a then true else st.objects a := by
      intro a
      rw [hpost]
      exact sAdopt_objects _ d a
    have hdest : (sAssignRaw st w d).destroyed = st.destroyed := by
      rw [hpost]
      exact sAdopt_destroyed _ d
    have hvds : v.data.isSome := by rw [hvd]; rfl
    obtain ⟨w₂, v₂, hw₂ne, hw₂, hd₂, hr₂⟩ :=
      @exists_other_holder st b₀ w (by omega)
    refine ⟨hwcl, ?_, ?_, ?_, hbd, hab, ?_, ?_, ?_, ?_⟩
    · intro b hb
      rw [hnb] at hb
      have hne : b ≠ st.nextB := by omega
      have hne₀ : b ≠ b₀ := by omega
      rw [hblk, Function.update_noteq hne, Function.update_noteq hne₀]
      exact inv.bClosed b (by omega)
    · intro w' v' h
      rcases hlook w' v' h with ⟨he, hveq⟩ | ⟨hne, hs'⟩
      · subst hveq
        refine ⟨st.nextB, rfl, ?_⟩
        rw [hblk, Function.update_same]
        rfl
      · obtain ⟨b, hb, hall⟩ := inv.refSome w' v' hs'
        refine ⟨b, hb, ?_⟩
        rw [hblk, Function.update_noteq (hrefold w' v' hne hs' b hb)]
        rcases eq_or_ne b b₀ with he₀ | he₀
        · rw [he₀, Function.update_same]
          rfl
        · rw [Function.update_noteq he₀]
          exact hall
    · intro b c hb
      rw [hblk] at hb
      rcases eq_or_ne b st.nextB with he | he
      · rw [he] at hb ⊢
        rw [Function.update_same] at hb
        cases hb
        have := hold st.nextB
        rw [hhvnxt, hh0, hvnxt] at this
        omega
      · rw [Function.update_noteq he] at hb
        rcases eq_or_ne b b₀ with he₀ | he₀
        · rw [he₀] at hb ⊢
          rw [Function.update_same] at hb
          cases hb
          have hhvv : holdVal b₀ (some v) = 1 := by
            simp only [holdVal]
            rw [if_pos ⟨hvds, hr₀⟩]
          have := hold b₀
          rw [hhvv, hhvnew b₀ (by omega)] at this
          omega
        · rw [Function.update_noteq he₀] at hb
          have hhvv : holdVal b (some v) = 0 := by
            simp only [holdVal, hr₀]
            rw [if_neg]
            rintro ⟨-, h2⟩
            exact he₀ (Option.some_injective _ h2).symm
          have := hold b
          rw [hhvv, hhvnew b he] at this
          have hcb := inv.counts b c hb
          omega
    · intro w' v' a h hd
      rcases hlook w' v' h with ⟨he, hveq⟩ | ⟨hne, hs'⟩
      · subst hveq
        rw [hobja a, if_pos hd]
      · rw [hobja a]
        rcases eq_or_ne d (some a) with hda | hda
        · rw [if_pos hda]
        · rw [if_neg hda]
          exact inv.heldLive w' v' a hs' hd
    · intro a ha
      rw [hobja a] at ha
      rcases eq_or_ne d (some a) with hda | hda
      · refine ⟨w, ⟨d, some st.nextB⟩, ?_, hda⟩
        rw [hwrap, Function.update_same]
      · rw [if_neg hda] at ha
        obtain ⟨w₁, v₁, hw₁, hd₁⟩ := inv.liveHeld a ha
        rcases eq_or_ne w₁ w with he | he
        · rw [he, hv] at hw₁
          cases hw₁
          rw [hvd] at hd₁
          have hd₂' : v₂.data = some a := by
            rw [inv.blockData w₂ v₂ w v hw₂ hv (hr₂.trans hr₀.symm), hvd]
            exact hd₁
          refine ⟨w₂, v₂, ?_, hd₂'⟩
          rw [hwrap, Function.update_noteq hw₂ne]
          exact hw₂
        · refine ⟨w₁, v₁, ?_, hd₁⟩
          rw [hwrap, Function.update_noteq he]
          exact hw₁
    · intro a ha
      rw [hdest] at ha
      rw [hobja a]
      have hda : d ≠ some a := by
        intro hcon
        exact (hfresh a hcon).2 ha
      rw [if_neg hda]
      exact inv.deadGone a ha
    · rw [hdest]
      exact inv.destNodup

theorem sInv_assignCopy {st : SState} (inv : SInv st) (hbndPre : sBounded st = true)
    {w s : Nat} (hleg : sLegal st (SOp.assignCopy w s) = true)
    (hbndPost : sBounded (sAssignCopy st w s) = true) : SInv (sAssignCopy st w s) := by
  have hv : ∃ v, st.wrappers w = some v := by
    simp only [sLegal, sLive, Bool.and_eq_true] at hleg
    exact Option.isSome_iff_exists.mp hleg.1
  have ho : ∃ o, st.wrappers s = some o := by
    simp only [sLegal, sLive, Bool.and_eq_true] at hleg
    exact Option.isSome_iff_exists.mp hleg.2
  obtain ⟨v, hv⟩ := hv
  obtain ⟨o, ho⟩ := ho
  rcases eq_or_ne o.data v.data with hguard | hguard
  · have hid : sAssignCopy st w s = st := by
      simp [sAssignCopy, hv, ho, hguard]
    rw [hid]
    exact inv
  have hne_sw : s ≠ w := by
    intro hcon
    rw [hcon, hv] at ho
    cases ho
    exact hguard rfl
  have hwlt : w < st.nextW := lt_nextW_of_live inv hv
  obtain ⟨b₀, hr₀, halloc₀⟩ := inv.refSome w v hv
  obtain ⟨c₀, hc₀⟩ := Option.isSome_iff_exists.mp halloc₀
  have hcount₀ : c₀ = sHolders st b₀ := inv.counts b₀ c₀ hc₀
  have hb₀lt : b₀ < st.nextB := lt_nextB_of_alloc inv hc₀
  have hble : sHolders st b₀ ≤ 65535 := sBounded_iff.mp hbndPre b₀ hb₀lt
  obtain ⟨b₁, hro, halloc₁⟩ := inv.refSome s o ho
  obtain ⟨c₁, hc₁⟩ := Option.isSome_iff_exists.mp halloc₁
  have hcount₁ : c₁ = sHolders st b₁ := inv.counts b₁ c₁ hc₁
  have hb₁lt : b₁ < st.nextB := lt_nextB_of_alloc inv hc₁
  have hshape :
      (∃ a₁, v.data = none ∧ o.data = some a₁ ∧ sAssignCopy st w s
          = { st with wrappers := Function.update st.wrappers w (some ⟨o.data, o.ref⟩)
                    , blocks := Function.update st.blocks b₁ (some (u16inc c₁)) })
      ∨ (∃ a₀, v.data = some a₀ ∧ c₀ = 1 ∧ o.data = none ∧ sAssignCopy st w s
          = { st with wrappers := Function.update st.wrappers w (some ⟨o.data, o.ref⟩)
                    , blocks := Function.update st.blocks b₀ none
                    , objects := Function.update st.objects a₀ false
                    , destroyed := a₀ :: st.destroyed })
      ∨ (∃ a₀ a₁ , v.data = some a₀ ∧ c₀ = 1 ∧ o.data = some a₁ ∧ b₁ ≠ b₀
          ∧ sAssignCopy st w s
          = { st with wrappers := Function.update st.wrappers w (some ⟨o.data, o.ref⟩)
                    , blocks := Function.update (Function.update st.blocks b₀ none) b₁
                        (some (u16inc c₁))
                    , objects := Function.update st.objects a₀ false
                    , destroyed := a₀ :: st.destroyed })
      ∨ (∃ a₀, v.data = some a₀ ∧ 2 ≤ c₀ ∧ o.data = none ∧ sAssignCopy st w s
          = { st with wrappers := Function.update st.wrappers w (some ⟨o.data, o.ref⟩)
                    , blocks := Function.update st.blocks b₀ (some (c₀ - 1)) })
      ∨ (∃ a₀ a₁, v.data = some a₀ ∧ 2 ≤ c₀ ∧ o.data = some a₁ ∧ b₁ ≠ b₀
          ∧ sAssignCopy st w s
          = { st with wrappers := Function.update st.wrappers w (some ⟨o.data, o.ref⟩)
                    , blocks := Function.update (Function.update st.blocks b₀ (some (c₀ - 1)))
                        b₁ (some (u16inc c₁)) }) := by
    have hb₁₀ : ∀ a₀, v.data = some a₀ → b₁ ≠ b₀ := by
      intro a₀ hvd hcon
      exact hguard (inv.blockData s o w v ho hv (by rw [hro, hr₀, hcon]))
    cases hvd : v.data with
    | none =>
        left
        cases hod : o.data with
        | none => exact absurd (hod.trans hvd.symm) hguard
        | some a₁ =>
            refine ⟨a₁, rfl, rfl, ?_⟩
            have hdec : decRefCount st w = st := by
              simp [decRefCount, hv, hvd]
            simp [sAssignCopy, hv, ho, hdec, hod, hro, hvd, hc₁]
    | some a₀ =>
        right
        have hc1 : 1 ≤ c₀ := by
          rw [hcount₀]
          exact one_le_holders inv hv (by rw [hvd]; rfl) hr₀
        have hbne : b₁ ≠ b₀ := hb₁₀ a₀ hvd
        rcases Nat.lt_or_ge c₀ 2 with hlt | hge
        · have hceq : c₀ = 1 := by omega
          have hdz : u16dec ((st.blocks b₀).getD 0) = 0 := by
            rw [hc₀, Option.getD_some, hceq]
            decide
          have hdec : decRefCount st w
              = { st with blocks := Function.update st.blocks b₀ none
                        , wrappers := Function.update st.wrappers w (some ⟨none, some b₀⟩)
                        , objects := Function.update st.objects a₀ false
                        , destroyed := a₀ :: st.destroyed } := by
            simp only [decRefCount, hv, hvd, hr₀, hdz, if_pos]
          cases hod : o.data with
          | none =>
              left
              refine ⟨a₀, rfl, hceq, rfl, ?_⟩
              simp [sAssignCopy, hv, ho, hdec, hod, hvd, Function.update_idem]
          | some a₁ =>
              right; left
              refine ⟨a₀, a₁, rfl, hceq, rfl, hbne, ?_⟩
              have hblk₁ : (Function.update st.blocks b₀ (none : Option Nat)) b₁ = some c₁ := by
                rw [Function.update_noteq hbne]
                exact hc₁
              have hne_a : ¬(a₁ = a₀) := by
                intro hcon
                apply hguard
                rw [hod, hvd, hcon]
              simp [sAssignCopy, hv, ho, hdec, hod, hro, hvd, hblk₁, hne_a,
                Function.update_idem]
        · have hdnz : u16dec ((st.blocks b₀).getD 0) = c₀ - 1 := by
            rw [hc₀, Option.getD_some]
            exact u16dec_exact hc1 (by omega)
          have hcond : (c₀ - 1 = 0) = False := eq_false (by omega)
          have hdec : decRefCount st w
              = { st with blocks := Function.update st.blocks b₀ (some (c₀ - 1)) } := by
            simp only [decRefCount, hv, hvd, hr₀, hdnz, hcond, if_false]
          cases hod : o.data with
          | none =>
              right; right; left
              refine ⟨a₀, rfl, hge, rfl, ?_⟩
              simp [sAssignCopy, hv, ho, hdec, hod, hvd]
          | some a₁ =>
              right; right; right
              refine ⟨a₀, a₁, rfl, hge, rfl, hbne, ?_⟩
              have hblk₁ : (Function.update st.blocks b₀ (some (c₀ - 1))) b₁ = some c₁ := by
                rw [Function.update_noteq hbne]
                exact hc₁
              have hne_a : ¬(a₁ = a₀) := by
                intro hcon
                apply hguard
                rw [hod, hvd, hcon]
              simp [sAssignCopy, hv, ho, hdec, hod, hro, hvd, hblk₁, hne_a]
  -- components shared by every shape
  have hwrap : (sAssignCopy st w s).wrappers
      = Function.update st.wrappers w (some ⟨o.data, o.ref⟩) := by
    rcases hshape with ⟨a₁, -, -, hpost⟩ | ⟨a₀, -, -, -, hpost⟩ | ⟨a₀, a₁, -, -, -, -, hpost⟩ |
      ⟨a₀, -, -, -, hpost⟩ | ⟨a₀, a₁, -, -, -, -, hpost⟩ <;> rw [hpost]
  have hnw : (sAssignCopy st w s).nextW = st.nextW := by
    rcases hshape with ⟨a₁, -, -, hpost⟩ | ⟨a₀, -, -, -, hpost⟩ | ⟨a₀, a₁, -, -, -, -, hpost⟩ |
      ⟨a₀, -, -, -, hpost⟩ | ⟨a₀, a₁, -, -, -, -, hpost⟩ <;> rw [hpost]
  have hnb : (sAssignCopy st w s).nextB = st.nextB := by
    rcases hshape with ⟨a₁, -, -, hpost⟩ | ⟨a₀, -, -, -, hpost⟩ | ⟨a₀, a₁, -, -, -, -, hpost⟩ |
      ⟨a₀, -, -, -, hpost⟩ | ⟨a₀, a₁, -, -, -, -, hpost⟩ <;> rw [hpost]
  have hold : ∀ b, sHolders (sAssignCopy st w s) b + holdVal b (some v)
      = sHolders st b + holdVal b (some ⟨o.data, o.ref⟩) := by
    intro b
    unfold sHolders
    rw [hnw, hwrap]
    have h := sum_comp_update hwlt st.wrappers (some ⟨o.data, o.ref⟩) (holdVal b)
    rw [hv] at h
    exact h
  have hhvo : ∀ b, b ≠ b₁ → holdVal b (some ⟨o.data, o.ref⟩) = 0 := by
    intro b hb
    simp only [holdVal, hro]
    rw [if_neg]
    rintro ⟨-, h2⟩
    exact hb (Option.some_injective _ h2).symm
  have hhvv : ∀ b, b ≠ b₀ → holdVal b (some v) = 0 := by
    intro b hb
    simp only [holdVal, hr₀]
    rw [if_neg]
    rintro ⟨-, h2⟩
    exact hb (Option.some_injective _ h2).symm
  have hlook : ∀ w' v', (sAssignCopy st w s).wrappers w' = some v' →
      (w' = w ∧ v' = ⟨o.data, o.ref⟩) ∨ (w' ≠ w ∧ st.wrappers w' = some v') := by
    intro w' v' h
    rw [hwrap] at h
    rcases eq_or_ne w' w with he | he
    · subst he
      rw [Function.update_same] at h
      cases h
      exact Or.inl ⟨rfl, rfl⟩
    · rw [Function.update_noteq he] at h
      exact Or.inr ⟨he, h⟩
  have hwcl : ∀ w', (sAssignCopy st w s).nextW ≤ w' →
      (sAssignCopy st w s).wrappers w' = none := by
    intro w' hw'
    rw [hnw] at hw'
    rw [hwrap]
    have hne : w' ≠ w := by omega
    rw [Function.update_noteq hne]
    exact inv.wClosed w' hw'
  have hbd : ∀ w₁ v₁ w₂ v₂, (sAssignCopy st w s).wrappers w₁ = some v₁ →
      (sAssignCopy st w s).wrappers w₂ = some v₂ → v₁.ref = v₂.ref → v₁.data = v₂.data := by
    intro w₁ v₁ w₂ v₂ h1 h2 href
    rcases hlook w₁ v₁ h1 with ⟨he1, hv1⟩ | ⟨hne1, hs1⟩ <;>
      rcases hlook w₂ v₂ h2 with ⟨he2, hv2⟩ | ⟨hne2, hs2⟩
    · rw [hv1, hv2]
    · subst hv1
      exact inv.blockData s o w₂ v₂ ho hs2 href
    · subst hv2
      exact inv.blockData w₁ v₁ s o hs1 ho href
    · exact inv.blockData w₁ v₁ w₂ v₂ hs1 hs2 href
  have hab : ∀ w₁ v₁ w₂ v₂ a, (sAssignCopy st w s).wrappers w₁ = some v₁ →
      (sAssignCopy st w s).wrappers w₂ = some v₂ → v₁.data = some a → v₂.data = some a →
      v₁.ref = v₂.ref := by
    intro w₁ v₁ w₂ v₂ a h1 h2 hd1 hd2
    rcases hlook w₁ v₁ h1 with ⟨he1, hv1⟩ | ⟨hne1, hs1⟩ <;>
      rcases hlook w₂ v₂ h2 with ⟨he2, hv2⟩ | ⟨hne2, hs2⟩
    · rw [hv1, hv2]
    · subst hv1
      exact inv.addrBlock s o w₂ v₂ a ho hs2 hd1 hd2
    · subst hv2
      exact inv.addrBlock w₁ v₁ s o a hs1 ho hd1 hd2
    · exact inv.addrBlock w₁ v₁ w₂ v₂ a hs1 hs2 hd1 hd2
  have hhv₁inc : o.data.isSome → holdVal b₁ (some ⟨o.data, o.ref⟩) = 1 := by
    intro hsome
    simp [holdVal, hro, hsome]
  have hvb₁z : holdVal b₁ (some v) = 0 := by
    simp only [holdVal, hr₀]
    rw [if_neg]
    rintro ⟨hds, h2⟩
    have hbeq : b₀ = b₁ := Option.some_injective _ h2
    exact hguard (inv.blockData s o w v ho hv (by rw [hro, hr₀, hbeq]))
  have hexact : o.data.isSome → u16inc c₁ = c₁ + 1 := by
    intro hsome
    have hpb := sBounded_iff.mp hbndPost b₁ (by rw [hnb]; exact hb₁lt)
    have h := hold b₁
    rw [hhv₁inc hsome, hvb₁z, ← hcount₁] at h
    apply u16inc_exact
    omega
  rcases hshape with ⟨a₁, hvd, hod, hpost⟩ | ⟨a₀, hvd, hceq, hod, hpost⟩ |
    ⟨a₀, a₁, hvd, hceq, hod, hbne, hpost⟩ | ⟨a₀, hvd, hge, hod, hpost⟩ |
    ⟨a₀, a₁, hvd, hge, hod, hbne, hpost⟩
  · -- empty wrapper adopts an owning wrapper's block
    have hblk : (sAssignCopy st w s).blocks
        = Function.update st.blocks b₁ (some (u16inc c₁)) := by rw [hpost]
    have hobj : (sAssignCopy st w s).objects = st.objects := by rw [hpost]
    have hdest : (sAssignCopy st w s).destroyed = st.destroyed := by rw [hpost]
    have hvz : ∀ b, holdVal b (some v) = 0 := by
      intro b
      simp [holdVal, hvd]
    have hosome : o.data.isSome := by rw [hod]; rfl
    refine ⟨hwcl, ?_, ?_, ?_, hbd, hab, ?_, ?_, ?_, ?_⟩
    · intro b hb
      rw [hnb] at hb
      have hne : b ≠ b₁ := by omega
      rw [hblk, Function.update_noteq hne]
      exact inv.bClosed b hb
    · intro w' v' h
      rcases hlook w' v' h with ⟨he, hveq⟩ | ⟨hne, hs'⟩
      · subst hveq
        refine ⟨b₁, hro, ?_⟩
        rw [hblk, Function.update_same]
        rfl
      · obtain ⟨b, hb, hall⟩ := inv.refSome w' v' hs'
        refine ⟨b, hb, ?_⟩
        rw [hblk]
        rcases eq_or_ne b b₁ with he₁ | he₁
        · rw [he₁, Function.update_same]
          rfl
        · rw [Function.update_noteq he₁]
          exact hall
    · intro b c hb
      rw [hblk] at hb
      rcases eq_or_ne b b₁ with he | he
      · rw [he] at hb ⊢
        rw [Function.update_same] at hb
        cases hb
        have h := hold b₁
        rw [hvz, hhv₁inc hosome] at h
        have he2 := hexact hosome
        omega
      · rw [Function.update_noteq he] at hb
        have h := hold b
        rw [hvz, hhvo b he] at h
        have hcb := inv.counts b c hb
        omega
    · intro w' v' a h hd
      rw [hobj]
      rcases hlook w' v' h with ⟨he, hveq⟩ | ⟨hne, hs'⟩
      · subst hveq
        exact inv.heldLive s o a ho hd
      · exact inv.heldLive w' v' a hs' hd
    · intro a ha
      rw [hobj] at ha
      obtain ⟨w₁, v₁, hw₁, hd₁⟩ := inv.liveHeld a ha
      rcases eq_or_ne w₁ w with he | he
      · rw [he, hv] at hw₁
        cases hw₁
        rw [hvd] at hd₁
        cases hd₁
      · refine ⟨w₁, v₁, ?_, hd₁⟩
        rw [hwrap, Function.update_noteq he]
        exact hw₁
    · intro a ha
      rw [hdest] at ha
      rw [hobj]
      exact inv.deadGone a ha
    · rw [hdest]
      exact inv.destNodup
  · -- last holder releases; adopts an empty wrapper's block
    have hblk : (sAssignCopy st w s).blocks = Function.update st.blocks b₀ none := by
      rw [hpost]
    have hobja : (sAssignCopy st w s).objects = Function.update st.objects a₀ false := by
      rw [hpost]
    have hdest : (sAssignCopy st w s).destroyed = a₀ :: st.destroyed := by rw [hpost]
    have hvds : v.data.isSome := by rw [hvd]; rfl
    have honly : sHolders st b₀ = 1 := by omega
    have hnoref : ∀ w' v', st.wrappers w' = some v' → w' ≠ w → v'.ref ≠ some b₀ := by
      intro w' v' h' hne hr'
      have hd' : v'.data = v.data := inv.blockData w' v' w v h' hv (hr'.trans hr₀.symm)
      have : 2 ≤ sHolders st b₀ :=
        two_le_holders inv hne h' hv (by rw [hd', hvd]; rfl) hvds hr' hr₀
      omega
    have hnoaddr : ∀ w' v', st.wrappers w' = some v' → w' ≠ w → v'.data ≠ some a₀ := by
      intro w' v' h' hne hd'
      exact hnoref w' v' h' hne ((inv.addrBlock w' v' w v a₀ h' hv hd' hvd).trans hr₀)
    have hoz : ∀ b, holdVal b (some ⟨o.data, o.ref⟩) = 0 := by
      intro b
      simp [holdVal, hod]
    refine ⟨hwcl, ?_, ?_, ?_, hbd, hab, ?_, ?_, ?_, ?_⟩
    · intro b hb
      rw [hnb] at hb
      rw [hblk]
      rcases eq_or_ne b b₀ with he | he
      · rw [he]
        exact Function.update_same _ _ _
      · rw [Function.update_noteq he]
        exact inv.bClosed b hb
    · intro w' v' h
      rcases hlook w' v' h with ⟨he, hveq⟩ | ⟨hne, hs'⟩
      · subst hveq
        refine ⟨b₁, hro, ?_⟩
        rw [hblk]
        have hb₁ne : b₁ ≠ b₀ := by
          intro hcon
          exact hnoref s o ho hne_sw (by rw [hro, hcon])
        rw [Function.update_noteq hb₁ne]
        exact halloc₁
      · obtain ⟨b, hb, hall⟩ := inv.refSome w' v' hs'
        refine ⟨b, hb, ?_⟩
        have hbne₀ : b ≠ b₀ := by
          intro hcon
          exact hnoref w' v' hs' hne (by rw [hb, hcon])
        rw [hblk, Function.update_noteq hbne₀]
        exact hall
    · intro b c hb
      rw [hblk] at hb
      rcases eq_or_ne b b₀ with he | he
      · rw [he, Function.update_same] at hb
        cases hb
      · rw [Function.update_noteq he] at hb
        have h := hold b
        rw [hhvv b he, hoz] at h
        have hcb := inv.counts b c hb
        omega
    · intro w' v' a h hd
      rw [hobja]
      rcases hlook w' v' h with ⟨he, hveq⟩ | ⟨hne, hs'⟩
      · subst hveq
        rw [hod] at hd
        cases hd
      · have hane : a ≠ a₀ := by
          intro hcon
          exact hnoaddr w' v' hs' hne (by rw [← hcon]; exact hd)
        rw [Function.update_noteq hane]
        exact inv.heldLive w' v' a hs' hd
    · intro a ha
      rw [hobja] at ha
      have hane : a ≠ a₀ := by
        intro hcon
        rw [hcon, Function.update_same] at ha
        cases ha
      rw [Function.update_noteq hane] at ha
      obtain ⟨w₁, v₁, hw₁, hd₁⟩ := inv.liveHeld a ha
      have hne : w₁ ≠ w := by
        intro hcon
        rw [hcon, hv] at hw₁
        cases hw₁
        rw [hvd] at hd₁
        cases hd₁
        exact hane rfl
      refine ⟨w₁, v₁, ?_, hd₁⟩
      rw [hwrap, Function.update_noteq hne]
      exact hw₁
    · intro a ha
      rw [hdest] at ha
      rw [hobja]
      rcases List.mem_cons.mp ha with he | hmem
      · rw [he]
        exact Function.update_same _ _ _
      · rcases eq_or_ne a a₀ with he₀ | he₀
        · rw [he₀]
          exact Function.update_same _ _ _
        · rw [Function.update_noteq he₀]
          exact inv.deadGone a hmem
    · rw [hdest]
      refine List.Nodup.cons ?_ inv.destNodup
      intro hmem
      have := inv.deadGone a₀ hmem
      rw [inv.heldLive w v a₀ hv hvd] at this
      cases this
  · -- last holder releases; adopts another owning wrapper's block
    have hblk : (sAssignCopy st w s).blocks
        = Function.update (Function.update st.blocks b₀ none) b₁ (some (u16inc c₁)) := by
      rw [hpost]
    have hobja : (sAssignCopy st w s).objects = Function.update st.objects a₀ false := by
      rw [hpost]
    have hdest : (sAssignCopy st w s).destroyed = a₀ :: st.destroyed := by rw [hpost]
    have hvds : v.data.isSome := by rw [hvd]; rfl
    have hosome : o.data.isSome := by rw [hod]; rfl
    have honly : sHolders st b₀ = 1 := by omega
    have hnoref : ∀ w' v', st.wrappers w' = some v' → w' ≠ w → v'.ref ≠ some b₀ := by
      intro w' v' h' hne hr'
      have hd' : v'.data = v.data := inv.blockData w' v' w v h' hv (hr'.trans hr₀.symm)
      have : 2 ≤ sHolders st b₀ :=
        two_le_holders inv hne h' hv (by rw [hd', hvd]; rfl) hvds hr' hr₀
      omega
    have hnoaddr : ∀ w' v', st.wrappers w' = some v' → w' ≠ w → v'.data ≠ some a₀ := by
      intro w' v' h' hne hd'
      exact hnoref w' v' h' hne ((inv.addrBlock w' v' w v a₀ h' hv hd' hvd).trans hr₀)
    refine ⟨hwcl, ?_, ?_, ?_, hbd, hab, ?_, ?_, ?_, ?_⟩
    · intro b hb
      rw [hnb] at hb
      have hne₁ : b ≠ b₁ := by omega
      rw [hblk, Function.update_noteq hne₁]
      rcases eq_or_ne b b₀ with he | he
      · rw [he]
        exact Function.update_same _ _ _
      · rw [Function.update_noteq he]
        exact inv.bClosed b hb
    · intro w' v' h
      rcases hlook w' v' h with ⟨he, hveq⟩ | ⟨hne, hs'⟩
      · subst hveq
        refine ⟨b₁, hro, ?_⟩
        rw [hblk, Function.update_same]
        rfl
      · obtain ⟨b, hb, hall⟩ := inv.refSome w' v' hs'
        refine ⟨b, hb, ?_⟩
        rw [hblk]
        rcases eq_or_ne b b₁ with he₁ | he₁
        · rw [he₁, Function.update_same]
          rfl
        · have hbne₀ : b ≠ b₀ := by
            intro hcon
            exact hnoref w' v' hs' hne (by rw [hb, hcon])
          rw [Function.update_noteq he₁, Function.update_noteq hbne₀]
          exact hall
    · intro b c hb
      rw [hblk] at hb
      rcases eq_or_ne b b₁ with he | he
      · rw [he] at hb ⊢
        rw [Function.update_same] at hb
        cases hb
        have h := hold b₁
        rw [hhvv b₁ hbne, hhv₁inc hosome] at h
        have he2 := hexact hosome
        omega
      · rw [Function.update_noteq he] at hb
        rcases eq_or_ne b b₀ with he₀ | he₀
        · rw [he₀, Function.update_same] at hb
          cases hb
        · rw [Function.update_noteq he₀] at hb
          have h := hold b
          rw [hhvv b he₀, hhvo b he] at h
          have hcb := inv.counts b c hb
          omega
    · intro w' v' a h hd
      rw [hobja]
      rcases hlook w' v' h with ⟨he, hveq⟩ | ⟨hne, hs'⟩
      · subst hveq
        have hane : a ≠ a₀ := by
          intro hcon
          exact hnoaddr s o ho hne_sw (by rw [← hcon]; exact hd)
        rw [Function.update_noteq hane]
        exact inv.heldLive s o a ho hd
      · have hane : a ≠ a₀ := by
          intro hcon
          exact hnoaddr w' v' hs' hne (by rw [← hcon]; exact hd)
        rw [Function.update_noteq hane]
        exact inv.heldLive w' v' a hs' hd
    · intro a ha
      rw [hobja] at ha
      have hane : a ≠ a₀ := by
        intro hcon
        rw [hcon, Function.update_same] at ha
        cases ha
      rw [Function.update_noteq hane] at ha
      obtain ⟨w₁, v₁, hw₁, hd₁⟩ := inv.liveHeld a ha
      have hne : w₁ ≠ w := by
        intro hcon
        rw [hcon, hv] at hw₁
        cases hw₁
        rw [hvd] at hd₁
        cases hd₁
        exact hane rfl
      refine ⟨w₁, v₁, ?_, hd₁⟩
      rw [hwrap, Function.update_noteq hne]
      exact hw₁
    · intro a ha
      rw [hdest] at ha
      rw [hobja]
      rcases List.mem_cons.mp ha with he | hmem
      · rw [he]
        exact Function.update_same _ _ _
      · rcases eq_or_ne a a₀ with he₀ | he₀
        · rw [he₀]
          exact Function.update_same _ _ _
        · rw [Function.update_noteq he₀]
          exact inv.deadGone a hmem
    · rw [hdest]
      refine List.Nodup.cons ?_ inv.destNodup
      intro hmem
      have := inv.deadGone a₀ hmem
      rw [inv.heldLive w v a₀ hv hvd] at this
      cases this
  · -- co-holders remain; adopts an empty wrapper's block
    have hblk : (sAssignCopy st w s).blocks
        = Function.update st.blocks b₀ (some (c₀ - 1)) := by rw [hpost]
    have hobj : (sAssignCopy st w s).objects = st.objects := by rw [hpost]
    have hdest : (sAssignCopy st w s).destroyed = st.destroyed := by rw [hpost]
    have hvds : v.data.isSome := by rw [hvd]; rfl
    have hoz : ∀ b, holdVal b (some ⟨o.data, o.ref⟩) = 0 := by
      intro b
      simp [holdVal, hod]
    obtain ⟨w₂, v₂, hw₂ne, hw₂, hd₂, hr₂⟩ :=
      @exists_other_holder st b₀ w (by omega)
    refine ⟨hwcl, ?_, ?_, ?_, hbd, hab, ?_, ?_, ?_, ?_⟩
    · intro b hb
      rw [hnb] at hb
      have hne₀ : b ≠ b₀ := by omega
      rw [hblk, Function.update_noteq hne₀]
      exact inv.bClosed b hb
    · intro w' v' h
      rcases hlook w' v' h with ⟨he, hveq⟩ | ⟨hne, hs'⟩
      · subst hveq
        refine ⟨b₁, hro, ?_⟩
        rw [hblk]
        rcases eq_or_ne b₁ b₀ with he₁ | he₁
        · rw [he₁, Function.update_same]
          rfl
        · rw [Function.update_noteq he₁]
          exact halloc₁
      · obtain ⟨b, hb, hall⟩ := inv.refSome w' v' hs'
        refine ⟨b, hb, ?_⟩
        rw [hblk]
        rcases eq_or_ne b b₀ with he₀ | he₀
        · rw [he₀, Function.update_same]
          rfl
        · rw [Function.update_noteq he₀]
          exact hall
    · intro b c hb
      rw [hblk] at hb
      rcases eq_or_ne b b₀ with he | he
      · rw [he] at hb ⊢
        rw [Function.update_same] at hb
        cases hb
        have h := hold b₀
        have hvb : holdVal b₀ (some v) = 1 := by
          simp only [holdVal]
          rw [if_pos ⟨hvds, hr₀⟩]
        rw [hvb, hoz] at h
        omega
      · rw [Function.update_noteq he] at hb
        have h := hold b
        rw [hhvv b he, hoz] at h
        have hcb := inv.counts b c hb
        omega
    · intro w' v' a h hd
      rw [hobj]
      rcases hlook w' v' h with ⟨he, hveq⟩ | ⟨hne, hs'⟩
      · subst hveq
        exact inv.heldLive s o a ho hd
      · exact inv.heldLive w' v' a hs' hd
    · intro a ha
      rw [hobj] at ha
      obtain ⟨w₁, v₁, hw₁, hd₁⟩ := inv.liveHeld a ha
      rcases eq_or_ne w₁ w with he | he
      · rw [he, hv] at hw₁
        cases hw₁
        rw [hvd] at hd₁
        have hd₂' : v₂.data = some a := by
          rw [inv.blockData w₂ v₂ w v hw₂ hv (hr₂.trans hr₀.symm), hvd]
          exact hd₁
        refine ⟨w₂, v₂, ?_, hd₂'⟩
        rw [hwrap, Function.update_noteq hw₂ne]
        exact hw₂
      · refine ⟨w₁, v₁, ?_, hd₁⟩
        rw [hwrap, Function.update_noteq he]
        exact hw₁
    · intro a ha
      rw [hdest] at ha
      rw [hobj]
      exact inv.deadGone a ha
    · rw [hdest]
      exact inv.destNodup
  · -- co-holders remain; adopts another owning wrapper's block
    have hblk : (sAssignCopy st w s).blocks
        = Function.update (Function.update st.blocks b₀ (some (c₀ - 1))) b₁
            (some (u16inc c₁)) := by rw [hpost]
    have hobj : (sAssignCopy st w s).objects = st.objects := by rw [hpost]
    have hdest : (sAssignCopy st w s).destroyed = st.destroyed := by rw [hpost]
    have hvds : v.data.isSome := by rw [hvd]; rfl
    have hosome : o.data.isSome := by rw [hod]; rfl
    obtain ⟨w₂, v₂, hw₂ne, hw₂, hd₂, hr₂⟩ :=
      @exists_other_holder st b₀ w (by omega)
    refine ⟨hwcl, ?_, ?_, ?_, hbd, hab, ?_, ?_, ?_, ?_⟩
    · intro b hb
      rw [hnb] at hb
      have hne₁ : b ≠ b₁ := by omega
      have hne₀ : b ≠ b₀ := by omega
      rw [hblk, Function.update_noteq hne₁, Function.update_noteq hne₀]
      exact inv.bClosed b hb
    · intro w' v' h
      rcases hlook w' v' h with ⟨he, hveq⟩ | ⟨hne, hs'⟩
      · subst hveq
        refine ⟨b₁, hro, ?_⟩
        rw [hblk, Function.update_same]
        rfl
      · obtain ⟨b, hb, hall⟩ := inv.refSome w' v' hs'
        refine ⟨b, hb, ?_⟩
        rw [hblk]
        rcases eq_or_ne b b₁ with he₁ | he₁
        · rw [he₁, Function.update_same]
          rfl
        · rw [Function.update_noteq he₁]
          rcases eq_or_ne b b₀ with he₀ | he₀
          · rw [he₀, Function.update_same]
            rfl
          · rw [Function.update_noteq he₀]
            exact hall
    · intro b c hb
      rw [hblk] at hb
      rcases eq_or_ne b b₁ with he | he
      · rw [he] at hb ⊢
        rw [Function.update_same] at hb
        cases hb
        have h := hold b₁
        rw [hhvv b₁ hbne, hhv₁inc hosome] at h
        have he2 := hexact hosome
        omega
      · rw [Function.update_noteq he] at hb
        rcases eq_or_ne b b₀ with he₀ | he₀
        · rw [he₀] at hb ⊢
          rw [Function.update_same] at hb
          cases hb
          have h := hold b₀
          have hvb : holdVal b₀ (some v) = 1 := by
            simp only [holdVal]
            rw [if_pos ⟨hvds, hr₀⟩]
          rw [hvb, hhvo b₀ (Ne.symm hbne)] at h
          omega
        · rw [Function.update_noteq he₀] at hb
          have h := hold b
          rw [hhvv b he₀, hhvo b he] at h
          have hcb := inv.counts b c hb
          omega
    · intro w' v' a h hd
      rw [hobj]
      rcases hlook w' v' h with ⟨he, hveq⟩ | ⟨hne, hs'⟩
      · subst hveq
        exact inv.heldLive s o a ho hd
      · exact inv.heldLive w' v' a hs' hd
    · intro a ha
      rw [hobj] at ha
      obtain ⟨w₁, v₁, hw₁, hd₁⟩ := inv.liveHeld a ha
      rcases eq_or_ne w₁ w with he | he
      · rw [he, hv] at hw₁
        cases hw₁
        rw [hvd] at hd₁
        have hd₂' : v₂.data = some a := by
          rw [inv.blockData w₂ v₂ w v hw₂ hv (hr₂.trans hr₀.symm), hvd]
          exact hd₁
        refine ⟨w₂, v₂, ?_, hd₂'⟩
        rw [hwrap, Function.update_noteq hw₂ne]
        exact hw₂
      · refine ⟨w₁, v₁, ?_, hd₁⟩
        rw [hwrap, Function.update_noteq he]
        exact hw₁
    · intro a ha
      rw [hdest] at ha
      rw [hobj]
      exact inv.deadGone a ha
    · rw [hdest]
      exact inv.destNodup

theorem sInv_init : SInv sInit := by
  refine ⟨?_, ?_, ?_, ?_, ?_, ?_, ?_, ?_, ?_, ?_⟩ <;>
    simp [sInit, sHolders, Finset.range_zero]

theorem sInv_step {st : SState} {op : SOp} (inv : SInv st) (hbndPre : sBounded st = true)
    (hleg : sLegal st op = true) (hbndPost : sBounded (sStep st op) = true) :
    SInv (sStep st op) := by
  cases op with
  | ctor d => exact sInv_new inv hleg
  | copyCtor s => exact sInv_copy inv hleg hbndPost
  | moveCtor s =>
      show SInv (sMoveCtor st s)
      rw [sMoveCtor_eq_sCopyCtor]
      exact sInv_copy inv hleg (by
        have : sStep st (SOp.moveCtor s) = sCopyCtor st s := by
          show sMoveCtor st s = sCopyCtor st s
          rw [sMoveCtor_eq_sCopyCtor]
        rw [this] at hbndPost
        exact hbndPost)
  | destroy w => exact sInv_destroy inv hbndPre hleg
  | assignRaw w d => exact sInv_assignRaw inv hbndPre hleg
  | assignCopy w s => exact sInv_assignCopy inv hbndPre hleg hbndPost
  | assignMove w s =>
      show SInv (sAssignMove st w s)
      rw [sAssignMove_eq_sAssignCopy]
      exact sInv_assignCopy inv hbndPre hleg (by
        have : sStep st (SOp.assignMove w s) = sAssignCopy st w s := by
          show sAssignMove st w s = sAssignCopy st w s
          rw [sAssignMove_eq_sAssignCopy]
        rw [this] at hbndPost
        exact hbndPost)

theorem sGood_run {l : List SOp} : ∀ {st : SState}, SInv st → sBounded st = true →
    sGoodFrom st l = true → SInv (sRunFrom st l) ∧ sBounded (sRunFrom st l) = true := by
  induction l with
  | nil => exact fun inv hbnd _ => ⟨inv, hbnd⟩
  | cons op l ih =>
      intro st inv hbnd hgood
      simp only [sGoodFrom, Bool.and_eq_true] at hgood
      obtain ⟨⟨hleg, hbp⟩, hrest⟩ := hgood
      exact ih (sInv_step inv hbnd hleg hbp) hbp hrest

theorem sGood_inv {l : List SOp} (h : sGood l = true) : SInv (sRun l) :=
  (sGood_run sInv_init (by decide) h).1

theorem sGood_bounded {l : List SOp} (h : sGood l = true) : sBounded (sRun l) = true :=
  (sGood_run sInv_init (by decide) h).2

theorem holdersAddr_le_holders {st : SState} (inv : SInv st) {w : Nat} {v : SPtrVal}
    {a b : Nat} (hw : st.wrappers w = some v) (hd : v.data = some a) (hr : v.ref = some b) :
    sHoldersAddr st a ≤ sHolders st b := by
  unfold sHoldersAddr sHolders
  refine Finset.sum_le_sum fun w' _ => ?_
  cases hfw : st.wrappers w' with
  | none => exact Nat.le_refl 0
  | some v' =>
      simp only [holdAddrVal, holdVal]
      split_ifs with h1 h2
      · exact Nat.le_refl 1
      · exfalso
        apply h2
        refine ⟨by rw [h1]; rfl, ?_⟩
        rw [inv.addrBlock w' v' w v a hfw hw h1 hd]
        exact hr
      · exact Nat.zero_le _
      · exact Nat.zero_le _

theorem holders_le_holdersAddr {st : SState} (inv : SInv st) {w : Nat} {v : SPtrVal}
    {a b : Nat} (hw : st.wrappers w = some v) (hd : v.data = some a) (hr : v.ref = some b) :
    sHolders st b ≤ sHoldersAddr st a := by
  unfold sHoldersAddr sHolders
  refine Finset.sum_le_sum fun w' _ => ?_
  cases hfw : st.wrappers w' with
  | none => exact Nat.le_refl 0
  | some v' =>
      simp only [holdAddrVal, holdVal]
      split_ifs with h1 h2
      · exact Nat.le_refl 1
      · exfalso
        apply h2
        rw [inv.blockData w' v' w v hfw hw (h1.2.trans hr.symm)]
        exact hd
      · exact Nat.zero_le _
      · exact Nat.zero_le _

theorem count_eq_holdersAddr {st : SState} (inv : SInv st) {w : Nat} {v : SPtrVal} {a : Nat}
    (hw : st.wrappers w = some v) (hd : v.data = some a) :
    sCount st w = sHoldersAddr st a := by
  obtain ⟨b, hr, halloc⟩ := inv.refSome w v hw
  obtain ⟨c, hc⟩ := Option.isSome_iff_exists.mp halloc
  have h1 : sCount st w = c := by
    simp [sCount, hw, hr, hc]
  rw [h1, inv.counts b c hc]
  exact Nat.le_antisymm (holders_le_holdersAddr inv hw hd hr)
    (holdersAddr_le_holders inv hw hd hr)

theorem count_zero_of_empty {st : SState} (inv : SInv st) {w : Nat} {v : SPtrVal}
    (hw : st.wrappers w = some v) (hd : v.data = none) : sCount st w = 0 := by
  obtain ⟨b, hr, halloc⟩ := inv.refSome w v hw
  obtain ⟨c, hc⟩ := Option.isSome_iff_exists.mp halloc
  have h1 : sCount st w = c := by
    simp [sCount, hw, hr, hc]
  rw [h1, inv.counts b c hc]
  unfold sHolders
  refine Finset.sum_eq_zero fun w' _ => ?_
  cases hfw : st.wrappers w' with
  | none => rfl
  | some v' =>
      simp only [holdVal]
      rw [if_neg]
      rintro ⟨hds, hrr⟩
      have := inv.blockData w' v' w v hfw hw (hrr.trans hr.symm)
      rw [this, hd] at hds
      cases hds

theorem decRef_nextW (st : SState) (w : Nat) : (decRefCount st w).nextW = st.nextW := by
  unfold decRefCount
  cases hw : st.wrappers w with
  | none => rfl
  | some v =>
      obtain ⟨vd, vr⟩ := v
      cases vd with
      | none => rfl
      | some a =>
          cases vr with
          | none => rfl
          | some b =>
              by_cases hz : u16dec ((st.blocks b).getD 0) = 0
              · simp [hz]
              · simp [hz]

theorem decRef_nextB (st : SState) (w : Nat) : (decRefCount st w).nextB = st.nextB := by
  unfold decRefCount
  cases hw : st.wrappers w with
  | none => rfl
  | some v =>
      obtain ⟨vd, vr⟩ := v
      cases vd with
      | none => rfl
      | some a =>
          cases vr with
          | none => rfl
          | some b =>
              by_cases hz : u16dec ((st.blocks b).getD 0) = 0
              · simp [hz]
              · simp [hz]

theorem decRef_wrappers_or (st : SState) (w : Nat) :
    (decRefCount st w).wrappers = st.wrappers
    ∨ ∃ x, (decRefCount st w).wrappers = Function.update st.wrappers w x := by
  unfold decRefCount
  cases hw : st.wrappers w with
  | none => exact Or.inl rfl
  | some v =>
      obtain ⟨vd, vr⟩ := v
      cases vd with
      | none => exact Or.inl rfl
      | some a =>
          cases vr with
          | none => exact Or.inl rfl
          | some b =>
              by_cases hz : u16dec ((st.blocks b).getD 0) = 0
              · exact Or.inr ⟨some ⟨none, some b⟩, by simp [hz]⟩
              · exact Or.inl (by simp [hz])

theorem decRef_destroyed_cases (st : SState) (w : Nat) :
    (decRefCount st w).destroyed = st.destroyed
    ∨ ∃ v a b, st.wrappers w = some v ∧ v.data = some a ∧ v.ref = some b
        ∧ u16dec ((st.blocks b).getD 0) = 0
        ∧ (decRefCount st w).destroyed = a :: st.destroyed := by
  unfold decRefCount
  cases hw : st.wrappers w with
  | none => exact Or.inl rfl
  | some v =>
      obtain ⟨vd, vr⟩ := v
      cases vd with
      | none => exact Or.inl rfl
      | some a =>
          cases vr with
          | none => exact Or.inl rfl
          | some b =>
              by_cases hz : u16dec ((st.blocks b).getD 0) = 0
              · exact Or.inr ⟨⟨some a, some b⟩, a, b, rfl, rfl, rfl, hz, by simp [hz]⟩
              · exact Or.inl (by simp [hz])

theorem decRef_objects_persist (st : SState) (w : Nat) {a : Nat}
    (h : st.objects a = true) :
    (decRefCount st w).objects a = true ∨ a ∈ (decRefCount st w).destroyed := by
  unfold decRefCount
  cases hw : st.wrappers w with
  | none => exact Or.inl h
  | some v =>
      obtain ⟨vd, vr⟩ := v
      cases vd with
      | none => exact Or.inl h
      | some a₀ =>
          cases vr with
          | none => exact Or.inl h
          | some b =>
              by_cases hz : u16dec ((st.blocks b).getD 0) = 0
              · rcases eq_or_ne a a₀ with he | he
                · refine Or.inr ?_
                  simp only [hz]
                  simp [he]
                · refine Or.inl ?_
                  simp only [hz]
                  simp [Function.update_noteq he, h]
              · refine Or.inl ?_
                simp only []
                simp [hz, h]

theorem sNew_destroyed (st : SState) (d : Option Nat) :
    (sNew st d).destroyed = st.destroyed := by
  cases d <;> rfl

theorem sCopyCtor_destroyed (st : SState) (s : Nat) :
    (sCopyCtor st s).destroyed = st.destroyed := by
  unfold sCopyCtor
  cases ho : st.wrappers s with
  | none => rfl
  | some o =>
      obtain ⟨od, orr⟩ := o
      cases od <;> cases orr <;> rfl

theorem sCopyCtor_objects (st : SState) (s : Nat) :
    (sCopyCtor st s).objects = st.objects := by
  unfold sCopyCtor
  cases ho : st.wrappers s with
  | none => rfl
  | some o =>
      obtain ⟨od, orr⟩ := o
      cases od <;> cases orr <;> rfl

theorem sDestroy_destroyed (st : SState) (w : Nat) :
    (sDestroy st w).destroyed = (decRefCount st w).destroyed := by
  unfold sDestroy
  cases hw : st.wrappers w with
  | none =>
      have : decRefCount st w = st := by
        unfold decRefCount
        rw [hw]
      rw [this]
  | some v => rfl

theorem sDestroy_objects (st : SState) (w : Nat) :
    (sDestroy st w).objects = (decRefCount st w).objects := by
  unfold sDestroy
  cases hw : st.wrappers w with
  | none =>
      have : decRefCount st w = st := by
        unfold decRefCount
        rw [hw]
      rw [this]
  | some v => rfl

theorem sAssignRaw_exec_destroyed {st : SState} {w : Nat} {d : Option Nat} {v : SPtrVal}
    (hw : st.wrappers w = some v) (hg : d ≠ v.data) :
    (sAssignRaw st w d).destroyed = (decRefCount st w).destroyed := by
  have h := sAdopt_destroyed (decRefCount st w) d
  simp [sAssignRaw, hw, hg, h]

theorem sAssignRaw_exec_objects {st : SState} {w : Nat} {d : Option Nat} {v : SPtrVal}
    (hw : st.wrappers w = some v) (hg : d ≠ v.data) :
    (sAssignRaw st w d).objects = (sAdopt (decRefCount st w) d).objects := by
  simp [sAssignRaw, hw, hg]

theorem sAssignRaw_destroyed (st : SState) (w : Nat) (d : Option Nat) :
    (sAssignRaw st w d).destroyed = st.destroyed
    ∨ (sAssignRaw st w d).destroyed = (decRefCount st w).destroyed := by
  cases hw : st.wrappers w with
  | none => exact Or.inl (by simp [sAssignRaw, hw])
  | some v =>
      by_cases hg : d = v.data
      · exact Or.inl (by simp [sAssignRaw, hw, hg])
      · exact Or.inr (sAssignRaw_exec_destroyed hw hg)

theorem sAssignCopy_exec_destroyed {st : SState} {w s : Nat} {v o : SPtrVal}
    (hw : st.wrappers w = some v) (ho : st.wrappers s = some o) (hg : o.data ≠ v.data) :
    (sAssignCopy st w s).destroyed = (decRefCount st w).destroyed := by
  obtain ⟨od, orr⟩ := o
  cases od <;> cases orr <;> simp [sAssignCopy, hw, ho, hg]

theorem sAssignCopy_exec_objects {st : SState} {w s : Nat} {v o : SPtrVal}
    (hw : st.wrappers w = some v) (ho : st.wrappers s = some o) (hg : o.data ≠ v.data) :
    (sAssignCopy st w s).objects = (decRefCount st w).objects := by
  obtain ⟨od, orr⟩ := o
  cases od <;> cases orr <;> simp [sAssignCopy, hw, ho, hg]

theorem sAssignCopy_destroyed (st : SState) (w s : Nat) :
    (sAssignCopy st w s).destroyed = st.destroyed
    ∨ (sAssignCopy st w s).destroyed = (decRefCount st w).destroyed := by
  cases hw : st.wrappers w with
  | none => exact Or.inl (by simp [sAssignCopy, hw])
  | some v =>
      cases ho : st.wrappers s with
      | none => exact Or.inl (by simp [sAssignCopy, hw, ho])
      | some o =>
          by_cases hg : o.data = v.data
          · exact Or.inl (by simp [sAssignCopy, hw, ho, hg])
          · exact Or.inr (sAssignCopy_exec_destroyed hw ho hg)

theorem step_destroyed_cases (st : SState) (op : SOp) :
    (sStep st op).destroyed = st.destroyed
    ∨ ∃ w' v a b, opWrapper op = some w' ∧ st.wrappers w' = some v ∧ v.data = some a
        ∧ v.ref = some b ∧ u16dec ((st.blocks b).getD 0) = 0
        ∧ (sStep st op).destroyed = a :: st.destroyed := by
  have hdec : ∀ w', (sStep st op).destroyed = (decRefCount st w').destroyed →
      opWrapper op = some w' →
      ((sStep st op).destroyed = st.destroyed
       ∨ ∃ w'' v a b, opWrapper op = some w'' ∧ st.wrappers w'' = some v ∧ v.data = some a
          ∧ v.ref = some b ∧ u16dec ((st.blocks b).getD 0) = 0
          ∧ (sStep st op).destroyed = a :: st.destroyed) := by
    intro w' heq hop
    rcases decRef_destroyed_cases st w' with hcase | ⟨v, a, b, hv, hd, hr, hz, hcase⟩
    · exact Or.inl (heq.trans hcase)
    · exact Or.inr ⟨w', v, a, b, hop, hv, hd, hr, hz, heq.trans hcase⟩
  cases op with
  | ctor d => exact Or.inl (sNew_destroyed st d)
  | copyCtor s => exact Or.inl (sCopyCtor_destroyed st s)
  | moveCtor s =>
      left
      show (sMoveCtor st s).destroyed = st.destroyed
      rw [sMoveCtor_eq_sCopyCtor]
      exact sCopyCtor_destroyed st s
  | destroy w => exact hdec w (sDestroy_destroyed st w) rfl
  | assignRaw w d =>
      rcases sAssignRaw_destroyed st w d with h | h
      · exact Or.inl h
      · exact hdec w h rfl
  | assignCopy w s =>
      rcases sAssignCopy_destroyed st w s with h | h
      · exact Or.inl h
      · exact hdec w h rfl
  | assignMove w s =>
      have hmv : sStep st (SOp.assignMove w s) = sAssignCopy st w s := by
        show sAssignMove st w s = sAssignCopy st w s
        rw [sAssignMove_eq_sAssignCopy]
      rcases sAssignCopy_destroyed st w s with h | h
      · exact Or.inl (by rw [hmv]; exact h)
      · exact hdec w (by rw [hmv]; exact h) rfl

theorem step_destroyed_mono (st : SState) (op : SOp) {a : Nat}
    (h : a ∈ st.destroyed) : a ∈ (sStep st op).destroyed := by
  rcases step_destroyed_cases st op with hc | ⟨w', v, a', b, -, -, -, -, -, hc⟩
  · rw [hc]; exact h
  · rw [hc]; exact List.mem_cons_of_mem _ h

theorem sAdopt_objects_persist (stY : SState) (d : Option Nat) {a : Nat}
    (h : stY.objects a = true) : (sAdopt stY d).objects a = true := by
  rw [sAdopt_objects]
  split_ifs with hd
  · rfl
  · exact h

theorem step_objects_persist (st : SState) (op : SOp) {a : Nat}
    (h : st.objects a = true) :
    (sStep st op).objects a = true ∨ a ∈ (sStep st op).destroyed := by
  have hac : ∀ w s, (sAssignCopy st w s).objects a = true
      ∨ a ∈ (sAssignCopy st w s).destroyed := by
    intro w s
    cases hw : st.wrappers w with
    | none => exact Or.inl (by simp [sAssignCopy, hw, h])
    | some v =>
        cases ho : st.wrappers s with
        | none => exact Or.inl (by simp [sAssignCopy, hw, ho, h])
        | some o =>
            by_cases hg : o.data = v.data
            · exact Or.inl (by simp [sAssignCopy, hw, ho, hg, h])
            · rcases decRef_objects_persist st w h with h1 | h1
              · left
                rw [sAssignCopy_exec_objects hw ho hg]
                exact h1
              · right
                rw [sAssignCopy_exec_destroyed hw ho hg]
                exact h1
  cases op with
  | ctor d =>
      left
      show (sNew st d).objects a = true
      have heq : (sNew st d).objects = (sAdopt st d).objects := by cases d <;> rfl
      rw [heq]
      exact sAdopt_objects_persist st d h
  | copyCtor s =>
      left
      show (sCopyCtor st s).objects a = true
      rw [sCopyCtor_objects]
      exact h
  | moveCtor s =>
      left
      show (sMoveCtor st s).objects a = true
      rw [sMoveCtor_eq_sCopyCtor, sCopyCtor_objects]
      exact h
  | destroy w =>
      rw [show (sStep st (SOp.destroy w)) = sDestroy st w from rfl, sDestroy_objects,
        sDestroy_destroyed st w]
      exact decRef_objects_persist st w h
  | assignRaw w d =>
      cases hw : st.wrappers w with
      | none =>
          exact Or.inl (show (sAssignRaw st w d).objects a = true by
            simp [sAssignRaw, hw, h])
      | some v =>
          by_cases hg : d = v.data
          · exact Or.inl (show (sAssignRaw st w d).objects a = true by
              simp [sAssignRaw, hw, hg, h])
          · rcases decRef_objects_persist st w h with h1 | h1
            · left
              show (sAssignRaw st w d).objects a = true
              rw [sAssignRaw_exec_objects hw hg]
              exact sAdopt_objects_persist _ d h1
            · right
              show a ∈ (sAssignRaw st w d).destroyed
              rw [sAssignRaw_exec_destroyed hw hg]
              exact h1
  | assignCopy w s => exact hac w s
  | assignMove w s =>
      have hmv : sStep st (SOp.assignMove w s) = sAssignCopy st w s := by
        show sAssignMove st w s = sAssignCopy st w s
        rw [sAssignMove_eq_sAssignCopy]
      rw [hmv]
      exact hac w s


/-! ## Decomposing runs into a prefix and a suffix -/

theorem SState_ext {s t : SState} (h1 : s.wrappers = t.wrappers) (h2 : s.nextW = t.nextW)
    (h3 : s.blocks = t.blocks) (h4 : s.nextB = t.nextB) (h5 : s.objects = t.objects)
    (h6 : s.destroyed = t.destroyed) : s = t := by
  cases s
  cases t
  simp_all

theorem UState_ext {s t : UState} (h1 : s.uwrappers = t.uwrappers) (h2 : s.unextW = t.unextW)
    (h3 : s.uobjects = t.uobjects) (h4 : s.udestroyed = t.udestroyed)
    (h5 : s.ureleased = t.ureleased) : s = t := by
  cases s
  cases t
  simp_all

theorem sRunFrom_append (st : SState) (l1 l2 : List SOp) :
    sRunFrom st (l1 ++ l2) = sRunFrom (sRunFrom st l1) l2 := by
  simp [sRunFrom, List.foldl_append]

theorem sLegalFrom_append (l1 : List SOp) : ∀ (st : SState) (l2 : List SOp),
    sLegalFrom st (l1 ++ l2)
      = (sLegalFrom st l1 && sLegalFrom (sRunFrom st l1) l2) := by
  induction l1 with
  | nil =>
      intro st l2
      simp [sLegalFrom, sRunFrom]
  | cons op l ih =>
      intro st l2
      simp [sLegalFrom, sRunFrom, ih (sStep st op) l2, Bool.and_assoc]

theorem sGoodFrom_append (l1 : List SOp) : ∀ (st : SState) (l2 : List SOp),
    sGoodFrom st (l1 ++ l2)
      = (sGoodFrom st l1 && sGoodFrom (sRunFrom st l1) l2) := by
  induction l1 with
  | nil =>
      intro st l2
      simp [sGoodFrom, sRunFrom]
  | cons op l ih =>
      intro st l2
      simp [sGoodFrom, sRunFrom, ih (sStep st op) l2, Bool.and_assoc]

theorem uRunFrom_append (st : UState) (l1 l2 : List UOp) :
    uRunFrom st (l1 ++ l2) = uRunFrom (uRunFrom st l1) l2 := by
  simp [uRunFrom, List.foldl_append]

theorem uLegalFrom_append (l1 : List UOp) : ∀ (st : UState) (l2 : List UOp),
    uLegalFrom st (l1 ++ l2)
      = (uLegalFrom st l1 && uLegalFrom (uRunFrom st l1) l2) := by
  induction l1 with
  | nil =>
      intro st l2
      simp [uLegalFrom, uRunFrom]
  | cons op l ih =>
      intro st l2
      simp [uLegalFrom, uRunFrom, ih (uStep st op) l2, Bool.and_assoc]

/-! ## The destructor fires only when the last holder of a block goes away -/

theorem destroy_precise {st : SState} (inv : SInv st) (hbnd : sBounded st = true)
    (op : SOp) {a : Nat} (hnot : a ∉ st.destroyed)
    (hin : a ∈ (sStep st op).destroyed) :
    ∃ w v b, opWrapper op = some w ∧ st.wrappers w = some v ∧ v.data = some a
      ∧ v.ref = some b ∧ sHolders st b = 1 := by
  rcases step_destroyed_cases st op with hc | ⟨w, v, a', b, hop, hw, hd, hr, hz, hc⟩
  · rw [hc] at hin
    exact absurd hin hnot
  · rw [hc] at hin
    rcases List.mem_cons.mp hin with he | he
    · subst he
      obtain ⟨b', hr', halloc⟩ := inv.refSome w v hw
      rw [hr] at hr'
      cases hr'
      obtain ⟨c, hcblk⟩ := Option.isSome_iff_exists.mp halloc
      have hcount : c = sHolders st b := inv.counts b c hcblk
      have h1 : 1 ≤ sHolders st b := one_le_holders inv hw (by rw [hd]; rfl) hr
      have hble : sHolders st b ≤ 65535 :=
        (sBounded_iff.mp hbnd) b (lt_nextB_of_alloc inv hcblk)
      rw [hcblk] at hz
      have hz' : u16dec c = 0 := hz
      have hc1 : sHolders st b = 1 := by
        unfold u16dec u16size at hz'
        omega
      exact ⟨w, v, b, hop, hw, hd, hr, hc1⟩
    · exact absurd he hnot

/-! ## An introduced address is alive right after its introducing step -/

theorem intro_sets_live {st : SState} (inv : SInv st) {op : SOp} {a : Nat}
    (hleg : sLegal st op = true) (ha : opIntro op = some a) :
    (sStep st op).objects a = true := by
  cases op with
  | ctor d =>
      cases d with
      | none => cases ha
      | some a' =>
          injection ha with ha'
          subst ha'
          show (sNew st (some a')).objects a' = true
          have hobj : (sNew st (some a')).objects = (sAdopt st (some a')).objects := rfl
          rw [hobj, sAdopt_objects]
          simp
  | copyCtor s => cases ha
  | moveCtor s => cases ha
  | destroy w => cases ha
  | assignRaw w d =>
      cases d with
      | none => cases ha
      | some a' =>
          injection ha with ha'
          subst ha'
          show (sAssignRaw st w (some a')).objects a' = true
          simp only [sLegal] at hleg
          cases hw : st.wrappers w with
          | none => rw [hw] at hleg; cases hleg
          | some v =>
              by_cases hg : (some a' : Option Nat) = v.data
              · have hnoop : sAssignRaw st w (some a') = st := by
                  simp [sAssignRaw, hw, hg]
                rw [hnoop]
                exact inv.heldLive w v a' hw hg.symm
              · rw [sAssignRaw_exec_objects hw hg, sAdopt_objects]
                simp
  | assignCopy w s => cases ha
  | assignMove w s => cases ha

/-! ## Liveness of owned objects persists along a run, up to destruction -/

theorem run_objects_persist (l : List SOp) : ∀ {st : SState} {a : Nat},
    (st.objects a = true ∨ a ∈ st.destroyed) →
    ((sRunFrom st l).objects a = true ∨ a ∈ (sRunFrom st l).destroyed) := by
  induction l with
  | nil => exact fun h => h
  | cons op l ih =>
      intro st a h
      refine ih ?_
      rcases h with h | h
      · exact step_objects_persist st op h
      · exact Or.inr (step_destroyed_mono st op h)

theorem run_destroyed_mono (l : List SOp) : ∀ {st : SState} {a : Nat},
    a ∈ st.destroyed → a ∈ (sRunFrom st l).destroyed := by
  induction l with
  | nil => exact fun h => h
  | cons op l ih =>
      intro st a h
      exact ih (step_destroyed_mono st op h)

theorem s_introduced_alive (l : List SOp) : ∀ {st : SState},
    SInv st → sBounded st = true → sGoodFrom st l = true → ∀ a, a ∈ sIntroduced l →
    ((sRunFrom st l).objects a = true ∨ a ∈ (sRunFrom st l).destroyed) := by
  induction l with
  | nil =>
      intro st _ _ _ a ha
      cases ha
  | cons op l ih =>
      intro st inv hbnd hgood a ha
      simp only [sGoodFrom, Bool.and_eq_true] at hgood
      obtain ⟨⟨hleg, hbp⟩, hrest⟩ := hgood
      have hinv' := sInv_step inv hbnd hleg hbp
      cases hio : opIntro op with
      | none =>
          have ha' : a ∈ sIntroduced l := by
            simpa [sIntroduced, List.filterMap_cons, hio] using ha
          exact ih hinv' hbp hrest a ha'
      | some a₀ =>
          have ha' : a = a₀ ∨ a ∈ sIntroduced l := by
            simpa [sIntroduced, List.filterMap_cons, hio] using ha
          rcases ha' with rfl | ha'
          · exact run_objects_persist l (Or.inl (intro_sets_live inv hleg hio))
          · exact ih hinv' hbp hrest a ha'

theorem no_objects_of_dead {st : SState} (inv : SInv st) (hdead : sDead st = true)
    (a : Nat) : st.objects a = false := by
  cases hcase : st.objects a with
  | false => rfl
  | true =>
      obtain ⟨w, v, hw, hd⟩ := inv.liveHeld a hcase
      rw [(sDead_iff inv).mp hdead w] at hw
      cases hw

theorem s_exactly_once {l : List SOp} (hgood : sGood l = true)
    (hdead : sDead (sRun l) = true) {a : Nat} (ha : a ∈ sIntroduced l) :
    (sRun l).destroyed.count a = 1 := by
  have hinv := sGood_inv hgood
  have hend := s_introduced_alive l sInv_init (by decide) hgood a ha
  rcases hend with h | h
  · have hfalse : (sRun l).objects a = false := no_objects_of_dead hinv hdead a
    rw [show sRunFrom sInit l = sRun l from rfl, hfalse] at h
    cases h
  · exact List.count_eq_one_of_mem hinv.destNodup h

theorem s_precise {l1 l2 : List SOp} {op : SOp}
    (hgood : sGood (l1 ++ op :: l2) = true) {a : Nat}
    (hnot : a ∉ (sRun l1).destroyed) (hin : a ∈ (sStep (sRun l1) op).destroyed) :
    ∃ w v b, opWrapper op = some w ∧ (sRun l1).wrappers w = some v ∧ v.data = some a
      ∧ v.ref = some b ∧ sHolders (sRun l1) b = 1 := by
  rw [sGood, sGoodFrom_append] at hgood
  simp only [Bool.and_eq_true] at hgood
  obtain ⟨hinv, hbnd⟩ := sGood_run sInv_init (by decide) hgood.1
  exact destroy_precise hinv hbnd op hnot hin


/-! ## Claim C2 — the control block exists even for an empty wrapper -/

/-- C2 (amended with the 16-bit sharing bound): in every state reached by a
legal trace that keeps each control block within 65535 sharing wrappers,
every live wrapper's control-block reference is non-null and points at an
allocated block — regardless of whether the held address is null — and
whenever the held address is non-null the referenced block's count is at
least 1, counting this instance.  Beyond that bound even this repaired
property fails: a legal trace can free a block still referenced by live
wrappers. -/
theorem c2_control_block_always_allocated {l : List SOp} (hgood : sGood l = true)
    {w : Nat} {v : SPtrVal} (hw : (sRun l).wrappers w = some v) :
    ∃ b, v.ref = some b ∧ ((sRun l).blocks b).isSome = true ∧
      ∀ a, v.data = some a → ∃ c, (sRun l).blocks b = some c ∧ 1 ≤ c := by
  have inv := sGood_inv hgood
  obtain ⟨b, hr, halloc⟩ := inv.refSome w v hw
  refine ⟨b, hr, halloc, ?_⟩
  intro a hd
  obtain ⟨c, hc⟩ := Option.isSome_iff_exists.mp halloc
  refine ⟨c, hc, ?_⟩
  rw [inv.counts b c hc]
  exact one_le_holders inv hw (by rw [hd]; rfl) hr

/-- C2 witness: the wrapper built by `S_ptr(T*)` on address 7 has an
allocated control block of count 1. -/
theorem c2_control_block_always_allocated_witness :
    ∃ b, (⟨some 7, some 0⟩ : SPtrVal).ref = some b
      ∧ ((sRun [SOp.ctor (some 7)]).blocks b).isSome = true
      ∧ ∀ a, (⟨some 7, some 0⟩ : SPtrVal).data = some a →
          ∃ c, (sRun [SOp.ctor (some 7)]).blocks b = some c ∧ 1 ≤ c :=
  @c2_control_block_always_allocated [SOp.ctor (some 7)] (by decide)
    0 ⟨some 7, some 0⟩ (by decide)

/-- C2 counterexample: a default-constructed (`Empty`) wrapper holds a null
address yet a non-null control-block reference, and its control block is
allocated while no wrapper references any resource — refuting both the
claimed `iff` and the claimed `{null, null}` shape of an empty wrapper. -/
theorem c2_counterexample :
    sGood [SOp.ctor none] = true
    ∧ (sRun [SOp.ctor none]).wrappers 0 = some ⟨none, some 0⟩
    ∧ (sRun [SOp.ctor none]).blocks 0 = some 0
    ∧ (sRun [SOp.ctor none]).nextB = 1 := by decide

/-! ## Claim C5 — `count()` reads the stored count, 0 when empty -/

/-- C5: in every reachable `S_ptr` state, `count()` on a live wrapper
returns the value stored in its control block, and returns 0 whenever the
wrapper is Empty (null held address) — as after default construction,
construction from null, or null assignment. -/
theorem c5_count_stored_or_zero {st : SState} (inv : SInv st) {w : Nat}
    {v : SPtrVal} (hw : st.wrappers w = some v) :
    (v.data = none → sCount st w = 0)
    ∧ (∀ b, v.ref = some b → sCount st w = (st.blocks b).getD 0) := by
  constructor
  · exact fun hd => count_zero_of_empty inv hw hd
  · intro b hr
    simp [sCount, hw, hr]

/-- C5 witness: the default-constructed wrapper reports `count() = 0` and
reads its (count-0) control block. -/
theorem c5_count_stored_or_zero_witness :
    ((⟨none, some 0⟩ : SPtrVal).data = none → sCount (sRun [SOp.ctor none]) 0 = 0)
    ∧ (∀ b, (⟨none, some 0⟩ : SPtrVal).ref = some b →
        sCount (sRun [SOp.ctor none]) 0 = ((sRun [SOp.ctor none]).blocks b).getD 0) :=
  @c5_count_stored_or_zero (sRun [SOp.ctor none]) (sGood_inv (by decide))
    0 ⟨none, some 0⟩ (by decide)

/-! ## Claim C4 — self-assignment is a no-op -/

/-- C4: assigning a shared wrapper to itself, assigning it the raw address
it currently holds, or assigning it another wrapper that shares its control
block, leaves the whole state unchanged (hence the held address, `count()`,
and the destruction log); likewise an exclusive wrapper assigned its own
current raw address, or move-assigned to itself, is a no-op. -/
theorem c4_self_assignment_noop {st : SState} {ust : UState} (inv : SInv st) :
    (∀ w, sAssignCopy st w w = st)
    ∧ (∀ w v, st.wrappers w = some v → sAssignRaw st w v.data = st)
    ∧ (∀ w s v o, st.wrappers w = some v → st.wrappers s = some o → o.ref = v.ref →
        sAssignCopy st w s = st)
    ∧ (∀ w cur, ust.uwrappers w = some cur → uAssignRaw ust w cur = ust)
    ∧ (∀ w, uMoveAssign ust w w = ust) := by
  refine ⟨?_, ?_, ?_, ?_, ?_⟩
  · intro w
    cases hw : st.wrappers w with
    | none => simp [sAssignCopy, hw]
    | some v => simp [sAssignCopy, hw]
  · intro w v hw
    simp [sAssignRaw, hw]
  · intro w s v o hw ho href
    have hdata : o.data = v.data := inv.blockData s o w v ho hw href
    simp [sAssignCopy, hw, ho, hdata]
  · intro w cur hw
    simp [uAssignRaw, hw]
  · intro w
    simp [uMoveAssign]

/-- C4 witness: self-assignments on a two-wrapper shared state and on an
exclusive wrapper, all no-ops. -/
theorem c4_self_assignment_noop_witness :
    (∀ w, sAssignCopy (sRun [SOp.ctor (some 7), SOp.copyCtor 0]) w w
        = sRun [SOp.ctor (some 7), SOp.copyCtor 0])
    ∧ (∀ w v, (sRun [SOp.ctor (some 7), SOp.copyCtor 0]).wrappers w = some v →
        sAssignRaw (sRun [SOp.ctor (some 7), SOp.copyCtor 0]) w v.data
          = sRun [SOp.ctor (some 7), SOp.copyCtor 0])
    ∧ (∀ w s v o, (sRun [SOp.ctor (some 7), SOp.copyCtor 0]).wrappers w = some v →
        (sRun [SOp.ctor (some 7), SOp.copyCtor 0]).wrappers s = some o → o.ref = v.ref →
        sAssignCopy (sRun [SOp.ctor (some 7), SOp.copyCtor 0]) w s
          = sRun [SOp.ctor (some 7), SOp.copyCtor 0])
    ∧ (∀ w cur, (uNew uInit (some 5)).uwrappers w = some cur →
        uAssignRaw (uNew uInit (some 5)) w cur = uNew uInit (some 5))
    ∧ (∀ w, uMoveAssign (uNew uInit (some 5)) w w = uNew uInit (some 5)) :=
  c4_self_assignment_noop (sGood_inv (by decide))


/-! ## Execution shapes of the removal operations -/

theorem decRef_exec_dec {st : SState} {w : Nat} {v : SPtrVal} {a b c : Nat}
    (hw : st.wrappers w = some v) (hd : v.data = some a) (hr : v.ref = some b)
    (hc : st.blocks b = some c) (hnz : u16dec c ≠ 0) :
    decRefCount st w = { st with blocks := Function.update st.blocks b (some (u16dec c)) } := by
  obtain ⟨vd, vr⟩ := v
  have hd' : vd = some a := hd
  have hr' : vr = some b := hr
  subst hd'
  subst hr'
  simp [decRefCount, hw, hc, hnz]

theorem decRef_wrappers_other (st : SState) (w w' : Nat) (hne : w' ≠ w) :
    (decRefCount st w).wrappers w' = st.wrappers w' := by
  rcases decRef_wrappers_or st w with h | ⟨x, h⟩
  · rw [h]
  · rw [h, Function.update_noteq hne]

theorem sDestroy_exec {st : SState} {w : Nat} {v : SPtrVal}
    (hw : st.wrappers w = some v) :
    sDestroy st w
      = { decRefCount st w with
          wrappers := Function.update (decRefCount st w).wrappers w none } := by
  simp [sDestroy, hw]

theorem sAssignRaw_wrappers_at {st : SState} {w : Nat} {d : Option Nat} {v : SPtrVal}
    {w' : Nat} (hw : st.wrappers w = some v) (hg : d ≠ v.data) (hne : w' ≠ w) :
    (sAssignRaw st w d).wrappers w' = st.wrappers w' := by
  have h1 : (sAssignRaw st w d).wrappers w'
      = (sAdopt (decRefCount st w) d).wrappers w' := by
    cases d with
    | none => simp [sAssignRaw, hw, hg, Function.update_noteq hne]
    | some a₂ => simp [sAssignRaw, hw, hg, Function.update_noteq hne]
  rw [h1, sAdopt_wrappers]
  exact decRef_wrappers_other st w w' hne

theorem sAssignRaw_blocks_at {st : SState} {w : Nat} {d : Option Nat} {v : SPtrVal}
    {b : Nat} (hw : st.wrappers w = some v) (hg : d ≠ v.data)
    (hb : b ≠ (sAdopt (decRefCount st w) d).nextB) :
    (sAssignRaw st w d).blocks b = (decRefCount st w).blocks b := by
  have h1 : (sAssignRaw st w d).blocks b
      = (sAdopt (decRefCount st w) d).blocks b := by
    cases d with
    | none => simp [sAssignRaw, hw, hg, Function.update_noteq hb]
    | some a₂ => simp [sAssignRaw, hw, hg, Function.update_noteq hb]
  rw [h1, sAdopt_blocks]

theorem sAssignCopy_exec_wrappers {st : SState} {w s : Nat} {v o : SPtrVal}
    (hw : st.wrappers w = some v) (ho : st.wrappers s = some o)
    (hg : o.data ≠ v.data) :
    (sAssignCopy st w s).wrappers
      = Function.update (decRefCount st w).wrappers w (some ⟨o.data, o.ref⟩) := by
  obtain ⟨od, orr⟩ := o
  have hg' : od ≠ v.data := hg
  cases od <;> cases orr <;> simp [sAssignCopy, hw, ho, hg']

theorem sAssignCopy_exec_blocks_none {st : SState} {w s : Nat} {v o : SPtrVal}
    (hw : st.wrappers w = some v) (ho : st.wrappers s = some o)
    (hg : o.data ≠ v.data) (hod : o.data = none) :
    (sAssignCopy st w s).blocks = (decRefCount st w).blocks := by
  obtain ⟨od, orr⟩ := o
  have hg' : od ≠ v.data := hg
  have hod' : od = none := hod
  subst hod'
  cases orr <;> simp [sAssignCopy, hw, ho, hg']

theorem sAssignCopy_exec_blocks_some {st : SState} {w s : Nat} {v o : SPtrVal}
    {a₂ b₂ : Nat} (hw : st.wrappers w = some v) (ho : st.wrappers s = some o)
    (hg : o.data ≠ v.data) (hod : o.data = some a₂) (hor : o.ref = some b₂) :
    (sAssignCopy st w s).blocks
      = Function.update (decRefCount st w).blocks b₂
          (some (u16inc (((decRefCount st w).blocks b₂).getD 0))) := by
  obtain ⟨od, orr⟩ := o
  have hg' : od ≠ v.data := hg
  have hod' : od = some a₂ := hod
  have hor' : orr = some b₂ := hor
  subst hod'
  subst hor'
  simp [sAssignCopy, hw, ho, hg']

/-! ## Claim C3 — `count()` equals the number of live sharing instances -/

/-- C3 (amended to at most 65535 sharing instances, the 16-bit counter's
range): in every reachable bounded `S_ptr` state, `count()` on a live
owning wrapper equals the number of live wrappers holding the same
address; and destroying one sharing instance, or reassigning it away (to a
different raw address, or to a wrapper holding a different address),
decreases `count()` read through any remaining sharing instance by exactly
one. -/
theorem c3_count_tracks_sharers {st : SState} (inv : SInv st) (hbnd : sBounded st = true)
    {w : Nat} {v : SPtrVal} {a b : Nat}
    (hw : st.wrappers w = some v) (hd : v.data = some a) (hr : v.ref = some b) :
    sCount st w = sHoldersAddr st a
    ∧ (∀ w' v', w' ≠ w → st.wrappers w' = some v' → v'.ref = some b →
        (sCount (sDestroy st w) w' + 1 = sCount st w')
        ∧ (∀ d, d ≠ v.data → sCount (sAssignRaw st w d) w' + 1 = sCount st w')
        ∧ (∀ s o, st.wrappers s = some o → o.data ≠ v.data →
            sCount (sAssignCopy st w s) w' + 1 = sCount st w')) := by
  obtain ⟨b', hr'', halloc⟩ := inv.refSome w v hw
  rw [hr] at hr''
  cases hr''
  obtain ⟨c, hc⟩ := Option.isSome_iff_exists.mp halloc
  have hcount : c = sHolders st b := inv.counts b c hc
  have hble : sHolders st b ≤ 65535 :=
    (sBounded_iff.mp hbnd) b (lt_nextB_of_alloc inv hc)
  refine ⟨count_eq_holdersAddr inv hw hd, ?_⟩
  intro w' v' hne hw' hr'
  have hd' : v'.data = some a := by
    have h1 := inv.blockData w' v' w v hw' hw (hr'.trans hr.symm)
    rw [h1, hd]
  have h2 : 2 ≤ sHolders st b :=
    two_le_holders inv (Ne.symm hne) hw hw' (by rw [hd]; rfl) (by rw [hd']; rfl) hr hr'
  have hnz : u16dec c ≠ 0 := u16dec_ne_zero (by omega) (by omega)
  have hdecx : u16dec c = c - 1 := u16dec_exact (by omega) (by omega)
  have hdr : decRefCount st w
      = { st with blocks := Function.update st.blocks b (some (u16dec c)) } :=
    decRef_exec_dec hw hd hr hc hnz
  have hcold : sCount st w' = c := by
    simp [sCount, hw', hr', hc]
  have hcdec : ∀ st₂ : SState, st₂.wrappers w' = some v'
      → st₂.blocks b = some (u16dec c) → sCount st₂ w' = c - 1 := by
    intro st₂ hw₂ hb₂
    simp [sCount, hw₂, hr', hb₂, hdecx]
  refine ⟨?_, ?_, ?_⟩
  · have hwd : (sDestroy st w).wrappers w' = some v' := by
      rw [sDestroy_exec hw]
      show (Function.update (decRefCount st w).wrappers w none) w' = some v'
      rw [Function.update_noteq hne, decRef_wrappers_other st w w' hne]
      exact hw'
    have hbd : (sDestroy st w).blocks b = some (u16dec c) := by
      rw [sDestroy_exec hw]
      show (decRefCount st w).blocks b = some (u16dec c)
      rw [hdr]
      simp [Function.update_same]
    rw [hcdec _ hwd hbd, hcold]
    omega
  · intro d hg
    have hwd : (sAssignRaw st w d).wrappers w' = some v' := by
      rw [sAssignRaw_wrappers_at hw hg hne]
      exact hw'
    have hbne : b ≠ (sAdopt (decRefCount st w) d).nextB := by
      rw [sAdopt_nextB, decRef_nextB]
      exact Nat.ne_of_lt (lt_nextB_of_alloc inv hc)
    have hbd : (sAssignRaw st w d).blocks b = some (u16dec c) := by
      rw [sAssignRaw_blocks_at hw hg hbne, hdr]
      simp [Function.update_same]
    rw [hcdec _ hwd hbd, hcold]
    omega
  · intro s o ho hgc
    have hwd : (sAssignCopy st w s).wrappers w' = some v' := by
      rw [sAssignCopy_exec_wrappers hw ho hgc]
      rw [Function.update_noteq hne, decRef_wrappers_other st w w' hne]
      exact hw'
    have hbd : (sAssignCopy st w s).blocks b = some (u16dec c) := by
      cases hod : o.data with
      | none =>
          rw [sAssignCopy_exec_blocks_none hw ho hgc hod, hdr]
          simp [Function.update_same]
      | some a₂ =>
          obtain ⟨b₂, hor, _⟩ := inv.refSome s o ho
          have hb₂ : b₂ ≠ b := by
            intro hcon
            subst hcon
            exact hgc (inv.blockData s o w v ho hw (hor.trans hr.symm))
          rw [sAssignCopy_exec_blocks_some hw ho hgc hod hor,
            Function.update_noteq (Ne.symm hb₂), hdr]
          simp [Function.update_same]
    rw [hcdec _ hwd hbd, hcold]
    omega

/-- C3 witness: with two sharing instances (count 2), destroying or
reassigning one leaves `count()` read through the other at 1. -/
theorem c3_count_tracks_sharers_witness :
    sCount (sRun [SOp.ctor (some 7), SOp.copyCtor 0]) 0
        = sHoldersAddr (sRun [SOp.ctor (some 7), SOp.copyCtor 0]) 7
    ∧ (∀ w' v', w' ≠ 0 → (sRun [SOp.ctor (some 7), SOp.copyCtor 0]).wrappers w' = some v' →
        v'.ref = some 0 →
        (sCount (sDestroy (sRun [SOp.ctor (some 7), SOp.copyCtor 0]) 0) w' + 1
            = sCount (sRun [SOp.ctor (some 7), SOp.copyCtor 0]) w')
        ∧ (∀ d, d ≠ (⟨some 7, some 0⟩ : SPtrVal).data →
            sCount (sAssignRaw (sRun [SOp.ctor (some 7), SOp.copyCtor 0]) 0 d) w' + 1
              = sCount (sRun [SOp.ctor (some 7), SOp.copyCtor 0]) w')
        ∧ (∀ s o, (sRun [SOp.ctor (some 7), SOp.copyCtor 0]).wrappers s = some o →
            o.data ≠ (⟨some 7, some 0⟩ : SPtrVal).data →
            sCount (sAssignCopy (sRun [SOp.ctor (some 7), SOp.copyCtor 0]) 0 s) w' + 1
              = sCount (sRun [SOp.ctor (some 7), SOp.copyCtor 0]) w')) :=
  c3_count_tracks_sharers (sGood_inv (by decide)) (sGood_bounded (by decide))
    (by decide) (by decide) (by decide)


/-! ## The copy-fan trace in closed form -/

theorem fanState_zero : sStep sInit (SOp.ctor (some 7)) = fanState 0 := by
  show sNew sInit (some 7) = fanState 0
  refine SState_ext ?_ rfl ?_ rfl ?_ rfl
  · funext w
    rcases eq_or_ne w 0 with rfl | hne
    · show Function.update (sAdopt sInit (some 7)).wrappers 0 (some ⟨some 7, some 0⟩) 0
          = (fanState 0).wrappers 0
      rw [Function.update_same]
      simp [fanState]
    · show Function.update (sAdopt sInit (some 7)).wrappers 0 (some ⟨some 7, some 0⟩) w
          = (fanState 0).wrappers w
      rw [Function.update_noteq hne, sAdopt_wrappers]
      have hlt : ¬ w < 1 := by omega
      simp [fanState, sInit, hlt, hne]
  · funext bb
    rcases eq_or_ne bb 0 with rfl | hne
    · show Function.update (sAdopt sInit (some 7)).blocks 0 (some 1) 0
          = (fanState 0).blocks 0
      rw [Function.update_same]
      simp [fanState, u16size]
    · show Function.update (sAdopt sInit (some 7)).blocks 0 (some 1) bb
          = (fanState 0).blocks bb
      rw [Function.update_noteq hne, sAdopt_blocks]
      simp [fanState, sInit, hne]
  · funext aa
    show Function.update sInit.objects 7 true aa = (fanState 0).objects aa
    rcases eq_or_ne aa 7 with rfl | hne
    · rw [Function.update_same]
      simp [fanState]
    · rw [Function.update_noteq hne]
      simp [fanState, sInit, hne]

theorem fanState_succ (k : Nat) :
    sStep (fanState k) (SOp.copyCtor 0) = fanState (k + 1) := by
  show sCopyCtor (fanState k) 0 = fanState (k + 1)
  have h0 : (fanState k).wrappers 0 = some ⟨some 7, some 0⟩ := by
    simp [fanState]
  have hred : sCopyCtor (fanState k) 0
      = { fanState k with
          wrappers := Function.update (fanState k).wrappers (fanState k).nextW
              (some ⟨some 7, some 0⟩)
          , nextW := (fanState k).nextW + 1
          , blocks := Function.update (fanState k).blocks 0
              (some (u16inc (((fanState k).blocks 0).getD 0))) } := by
    simp [sCopyCtor, h0]
  rw [hred]
  refine SState_ext ?_ ?_ ?_ rfl rfl rfl
  · funext w
    show Function.update (fanState k).wrappers (fanState k).nextW
        (some ⟨some 7, some 0⟩) w = (fanState (k + 1)).wrappers w
    have hnw : (fanState k).nextW = k + 1 := rfl
    rw [hnw]
    rcases eq_or_ne w (k + 1) with rfl | hne
    · rw [Function.update_same]
      simp [fanState]
    · rw [Function.update_noteq hne]
      rcases Nat.lt_or_ge w (k + 1) with hlt | hge
      · have hlt2 : w < k + 2 := by omega
        simp [fanState, hlt, hlt2]
      · have hn1 : ¬ w < k + 1 := by omega
        have hn2 : ¬ w < k + 2 := by omega
        simp [fanState, hn1, hn2]
  · rfl
  · funext bb
    show Function.update (fanState k).blocks 0
        (some (u16inc (((fanState k).blocks 0).getD 0))) bb = (fanState (k + 1)).blocks bb
    rcases eq_or_ne bb 0 with rfl | hne
    · rw [Function.update_same]
      have hb : (fanState k).blocks 0 = some ((k + 1) % u16size) := by
        simp [fanState]
      rw [hb]
      show some (u16inc ((k + 1) % u16size)) = (fanState (k + 1)).blocks 0
      have harith : u16inc ((k + 1) % u16size) = (k + 2) % u16size := by
        unfold u16inc u16size
        omega
      rw [harith]
      simp [fanState]
    · rw [Function.update_noteq hne]
      simp [fanState, hne]

theorem fan_run (k : Nat) :
    sRunFrom sInit (copyFan k) = fanState k
      ∧ sLegalFrom sInit (copyFan k) = true := by
  induction k with
  | zero =>
      constructor
      · exact fanState_zero
      · decide
  | succ k ih =>
      have hsplit : copyFan (k + 1) = copyFan k ++ [SOp.copyCtor 0] := by
        simp [copyFan, List.replicate_succ']
      constructor
      · rw [hsplit, sRunFrom_append, ih.1]
        exact fanState_succ k
      · rw [hsplit, sLegalFrom_append, ih.1, ih.2]
        simp [sLegalFrom, sLegal, sLive, fanState]

/-- C3 counterexample: after one owning construction and 65535 copy
constructions — 65536 live sharing instances, a legal trace per the
documented contract — the 16-bit counter has wrapped and `count()` returns
0, not the number of live instances. -/
theorem c3_counterexample :
    sLegalFrom sInit (copyFan 65535) = true
    ∧ (∀ w, w < 65536 → (sRun (copyFan 65535)).wrappers w = some ⟨some 7, some 0⟩)
    ∧ sHoldersAddr (sRun (copyFan 65535)) 7 = 65536
    ∧ sCount (sRun (copyFan 65535)) 0 = 0 := by
  obtain ⟨hrun, hleg⟩ := fan_run 65535
  have hrun' : sRun (copyFan 65535) = fanState 65535 := hrun
  refine ⟨hleg, ?_, ?_, ?_⟩
  · intro w hw
    rw [hrun']
    simp [fanState, hw]
  · rw [hrun']
    unfold sHoldersAddr
    have hval : ∀ w ∈ Finset.range (fanState 65535).nextW,
        holdAddrVal 7 ((fanState 65535).wrappers w) = 1 := by
      intro w hw
      have hlt : w < 65536 := Finset.mem_range.mp hw
      simp [fanState, hlt, holdAddrVal]
    rw [Finset.sum_congr rfl hval]
    simp [fanState]
  · rw [hrun']
    simp [sCount, fanState, u16size]

/-- C1 counterexample: with 65537 live sharing instances (one owning
construction, 65536 legal copy constructions) the wrapped counter stores 1,
so destroying a single instance runs the owned object's destructor while
65536 live wrappers still reference it — the destructor does not run at the
removal of the last referencing wrapper. -/
theorem c1_counterexample :
    sLegalFrom sInit (copyFan 65536 ++ [SOp.destroy 0]) = true
    ∧ (sRun (copyFan 65536 ++ [SOp.destroy 0])).destroyed = [7]
    ∧ (sRun (copyFan 65536 ++ [SOp.destroy 0])).wrappers 1 = some ⟨some 7, some 0⟩ := by
  obtain ⟨hrun, hleg⟩ := fan_run 65536
  have hw0 : (fanState 65536).wrappers 0 = some ⟨some 7, some 0⟩ := by
    simp [fanState]
  have hb0 : (fanState 65536).blocks 0 = some 1 := by
    simp [fanState, u16size]
  have hdz : u16dec 1 = 0 := by decide
  have hstep : sRun (copyFan 65536 ++ [SOp.destroy 0])
      = sDestroy (fanState 65536) 0 := by
    show sRunFrom sInit (copyFan 65536 ++ [SOp.destroy 0]) = sDestroy (fanState 65536) 0
    rw [sRunFrom_append, hrun]
    rfl
  have hdec : decRefCount (fanState 65536) 0
      = { fanState 65536 with
          blocks := Function.update (fanState 65536).blocks 0 none
          , wrappers := Function.update (fanState 65536).wrappers 0 (some ⟨none, some 0⟩)
          , objects := Function.update (fanState 65536).objects 7 false
          , destroyed := 7 :: (fanState 65536).destroyed } := by
    simp [decRefCount, hw0, hb0, hdz]
  refine ⟨?_, ?_, ?_⟩
  · rw [sLegalFrom_append, hrun, hleg]
    simp [sLegalFrom, sLegal, sLive, hw0]
  · rw [hstep, sDestroy_destroyed, hdec]
    simp [fanState]
  · rw [hstep, sDestroy_exec hw0]
    show Function.update (decRefCount (fanState 65536) 0).wrappers 0 none 1
        = some ⟨some 7, some 0⟩
    rw [Function.update_noteq (by decide), hdec]
    show Function.update (fanState 65536).wrappers 0 (some ⟨none, some 0⟩) 1
        = some ⟨some 7, some 0⟩
    rw [Function.update_noteq (by decide)]
    simp [fanState]


/-! ## Claim C9 — `S_ptr` move operations behave exactly like copies -/

theorem sRun_desugarMoves (l : List SOp) : ∀ st : SState,
    sRunFrom st (desugarMoves l) = sRunFrom st l := by
  induction l with
  | nil => intro st; rfl
  | cons op l ih =>
      intro st
      have h1 : sRunFrom st (desugarMoves (op :: l))
          = sRunFrom (sStep st op) (desugarMoves l) := by
        cases op <;> rfl
      rw [h1, ih (sStep st op)]
      rfl

theorem sCopyCtor_wrappers {st : SState} {s : Nat} {o : SPtrVal}
    (ho : st.wrappers s = some o) :
    (sCopyCtor st s).wrappers
      = Function.update st.wrappers st.nextW (some ⟨o.data, o.ref⟩) := by
  obtain ⟨od, orr⟩ := o
  cases od <;> cases orr <;> simp [sCopyCtor, ho]

/-- C9: `S_ptr` move construction and move assignment are literally the
same state transformers as copy construction and copy assignment (the
source is left intact and the shared count incremented), so desugaring
every move of a trace to the corresponding copy reaches the identical
state — in particular the aggregate reference count always equals the one
pure copy semantics would produce — and after a move the destination and
the still-live source reference the same control block. -/
theorem c9_move_equals_copy {st : SState} (inv : SInv st) :
    sMoveCtor = sCopyCtor
    ∧ sAssignMove = sAssignCopy
    ∧ (∀ l, sRun (desugarMoves l) = sRun l)
    ∧ (∀ s o, st.wrappers s = some o →
        (sMoveCtor st s).wrappers st.nextW = some ⟨o.data, o.ref⟩
        ∧ (sMoveCtor st s).wrappers s = some o) := by
  refine ⟨sMoveCtor_eq_sCopyCtor, sAssignMove_eq_sAssignCopy, ?_, ?_⟩
  · intro l
    exact sRun_desugarMoves l sInit
  · intro s o ho
    have hs : s < st.nextW := lt_nextW_of_live inv ho
    rw [sMoveCtor_eq_sCopyCtor]
    constructor
    · rw [sCopyCtor_wrappers ho, Function.update_same]
    · rw [sCopyCtor_wrappers ho, Function.update_noteq (Nat.ne_of_lt hs)]
      exact ho

/-- C9 witness: the move operations on a concrete owning wrapper coincide
with the copies, and the moved-from wrapper still shares the block. -/
theorem c9_move_equals_copy_witness :
    sMoveCtor = sCopyCtor
    ∧ sAssignMove = sAssignCopy
    ∧ (∀ l, sRun (desugarMoves l) = sRun l)
    ∧ (∀ s o, (sRun [SOp.ctor (some 7)]).wrappers s = some o →
        (sMoveCtor (sRun [SOp.ctor (some 7)]) s).wrappers (sRun [SOp.ctor (some 7)]).nextW
            = some ⟨o.data, o.ref⟩
        ∧ (sMoveCtor (sRun [SOp.ctor (some 7)]) s).wrappers s = some o) :=
  c9_move_equals_copy (sGood_inv (by decide))


/-! ## Component equations for the `U_ptr` primitives -/

theorem uDelete_uwrappers (st : UState) (d : Option Nat) :
    (uDelete st d).uwrappers = st.uwrappers := by cases d <;> rfl

theorem uDelete_unextW (st : UState) (d : Option Nat) :
    (uDelete st d).unextW = st.unextW := by cases d <;> rfl

theorem uDelete_ureleased (st : UState) (d : Option Nat) :
    (uDelete st d).ureleased = st.ureleased := by cases d <;> rfl

theorem uDelete_uobjects (st : UState) (d : Option Nat) (a : Nat) :
    (uDelete st d).uobjects a = if d = some a then false else st.uobjects a := by
  cases d with
  | none => simp [uDelete]
  | some a₁ =>
      rcases eq_or_ne a₁ a with rfl | hne
      · simp [uDelete, Function.update_same]
      · have hne' : ¬((some a₁ : Option Nat) = some a) := by
          intro hcon
          exact hne (Option.some_injective _ hcon)
        rw [if_neg hne']
        show (Function.update st.uobjects a₁ false) a = st.uobjects a
        rw [Function.update_noteq (Ne.symm hne)]

theorem uAdopt_uwrappers (st : UState) (d : Option Nat) :
    (uAdopt st d).uwrappers = st.uwrappers := by cases d <;> rfl

theorem uAdopt_unextW (st : UState) (d : Option Nat) :
    (uAdopt st d).unextW = st.unextW := by cases d <;> rfl

theorem uAdopt_udestroyed (st : UState) (d : Option Nat) :
    (uAdopt st d).udestroyed = st.udestroyed := by cases d <;> rfl

theorem uAdopt_uobjects (st : UState) (d : Option Nat) (a : Nat) :
    (uAdopt st d).uobjects a = if d = some a then true else st.uobjects a := by
  cases d with
  | none => simp [uAdopt]
  | some a₁ =>
      rcases eq_or_ne a₁ a with rfl | hne
      · simp [uAdopt, Function.update_same]
      · have hne' : ¬((some a₁ : Option Nat) = some a) := by
          intro hcon
          exact hne (Option.some_injective _ hcon)
        rw [if_neg hne']
        show (Function.update st.uobjects a₁ true) a = st.uobjects a
        rw [Function.update_noteq (Ne.symm hne)]

theorem uDelete_udestroyed_some (st : UState) (a : Nat) :
    (uDelete st (some a)).udestroyed = a :: st.udestroyed := rfl

theorem uAdopt_ureleased_some (st : UState) (a : Nat) :
    (uAdopt st (some a)).ureleased = st.ureleased.erase a := rfl

/-! ## The caller contract for raw addresses handed to a `U_ptr` -/

theorem uOkData_some_iff {st : UState} {a : Nat} :
    uOkData st (some a) = true
      ↔ (st.uobjects a = false ∧ a ∉ st.udestroyed) ∨ a ∈ st.ureleased := by
  simp [uOkData, Bool.or_eq_true, Bool.and_eq_true]

theorem uOk_not_held {st : UState} (inv : UInv st) {a : Nat}
    (hok : (st.uobjects a = false ∧ a ∉ st.udestroyed) ∨ a ∈ st.ureleased) :
    ∀ w, st.uwrappers w ≠ some (some a) := by
  intro w hw
  rcases hok with ⟨hobj, _⟩ | hrel
  · rw [inv.heldLive w a hw] at hobj
    cases hobj
  · exact inv.relNotHeld a w hrel hw

theorem uOk_not_dead {st : UState} (inv : UInv st) {a : Nat}
    (hok : (st.uobjects a = false ∧ a ∉ st.udestroyed) ∨ a ∈ st.ureleased) :
    a ∉ st.udestroyed := by
  rcases hok with ⟨_, hd⟩ | hrel
  · exact hd
  · intro hcon
    have h1 := inv.deadGone a hcon
    have h2 := inv.relLive a hrel
    rw [h1] at h2
    cases h2

/-! ## `UInv` preservation, operation by operation -/

theorem uInv_init : UInv uInit := by
  refine ⟨?_, ?_, ?_, ?_, ?_, ?_, ?_, ?_, ?_⟩ <;> simp [uInit]

theorem uInv_new {st : UState} (inv : UInv st) {d : Option Nat}
    (hleg : uOkData st d = true) : UInv (uNew st d) := by
  cases d with
  | none =>
      have hwrap : (uNew st none).uwrappers
          = Function.update st.uwrappers st.unextW (some none) := rfl
      have hnw : (uNew st none).unextW = st.unextW + 1 := rfl
      have hobj : (uNew st none).uobjects = st.uobjects := rfl
      have hdest : (uNew st none).udestroyed = st.udestroyed := rfl
      have hrel : (uNew st none).ureleased = st.ureleased := rfl
      refine ⟨?_, ?_, ?_, ?_, ?_, ?_, ?_, ?_, ?_⟩
      · intro w hge
        rw [hnw] at hge
        rw [hwrap, Function.update_noteq (by omega)]
        exact inv.wClosed w (by omega)
      · intro w₁ w₂ a h1 h2
        rw [hwrap] at h1 h2
        rcases eq_or_ne w₁ st.unextW with rfl | hne1
        · rw [Function.update_same] at h1
          simp at h1
        · rw [Function.update_noteq hne1] at h1
          rcases eq_or_ne w₂ st.unextW with rfl | hne2
          · rw [Function.update_same] at h2
            simp at h2
          · rw [Function.update_noteq hne2] at h2
            exact inv.exclusive w₁ w₂ a h1 h2
      · intro w a h1
        rw [hwrap] at h1
        rw [hobj]
        rcases eq_or_ne w st.unextW with rfl | hne
        · rw [Function.update_same] at h1
          simp at h1
        · rw [Function.update_noteq hne] at h1
          exact inv.heldLive w a h1
      · intro a ha
        rw [hobj] at ha
        rw [hrel]
        rcases inv.liveHeld a ha with ⟨w, hw⟩ | hr
        · refine Or.inl ⟨w, ?_⟩
          rw [hwrap, Function.update_noteq ?_]
          · exact hw
          · intro hcon
            rw [hcon, inv.wClosed st.unextW (Nat.le_refl _)] at hw
            cases hw
        · exact Or.inr hr
      · intro a ha
        rw [hrel] at ha
        rw [hobj]
        exact inv.relLive a ha
      · intro a w ha
        rw [hrel] at ha
        rw [hwrap]
        rcases eq_or_ne w st.unextW with rfl | hne
        · rw [Function.update_same]
          simp
        · rw [Function.update_noteq hne]
          exact inv.relNotHeld a w ha
      · intro a ha
        rw [hdest] at ha
        rw [hobj]
        exact inv.deadGone a ha
      · rw [hdest]
        exact inv.destNodup
      · rw [hrel]
        exact inv.relNodup
  | some a₀ =>
      have hok := uOkData_some_iff.mp hleg
      have hnotheld := uOk_not_held inv hok
      have hnotdead := uOk_not_dead inv hok
      have hwrap : (uNew st (some a₀)).uwrappers
          = Function.update st.uwrappers st.unextW (some (some a₀)) := rfl
      have hnw : (uNew st (some a₀)).unextW = st.unextW + 1 := rfl
      have hobj : (uNew st (some a₀)).uobjects
          = Function.update st.uobjects a₀ true := rfl
      have hdest : (uNew st (some a₀)).udestroyed = st.udestroyed := rfl
      have hrel : (uNew st (some a₀)).ureleased = st.ureleased.erase a₀ := rfl
      refine ⟨?_, ?_, ?_, ?_, ?_, ?_, ?_, ?_, ?_⟩
      · intro w hge
        rw [hnw] at hge
        rw [hwrap, Function.update_noteq (by omega)]
        exact inv.wClosed w (by omega)
      · intro w₁ w₂ a h1 h2
        rw [hwrap] at h1 h2
        rcases eq_or_ne w₁ st.unextW with rfl | hne1
        · rcases eq_or_ne w₂ st.unextW with rfl | hne2
          · rfl
          · rw [Function.update_same] at h1
            rw [Function.update_noteq hne2] at h2
            injection h1 with h1'
            injection h1' with h1''
            subst h1''
            exact absurd h2 (hnotheld w₂)
        · rw [Function.update_noteq hne1] at h1
          rcases eq_or_ne w₂ st.unextW with rfl | hne2
          · rw [Function.update_same] at h2
            injection h2 with h2'
            injection h2' with h2''
            subst h2''
            exact absurd h1 (hnotheld w₁)
          · rw [Function.update_noteq hne2] at h2
            exact inv.exclusive w₁ w₂ a h1 h2
      · intro w a h1
        rw [hwrap] at h1
        rw [hobj]
        rcases eq_or_ne w st.unextW with rfl | hne
        · rw [Function.update_same] at h1
          injection h1 with h1'
          injection h1' with h1''
          subst h1''
          rw [Function.update_same]
        · rw [Function.update_noteq hne] at h1
          have h2 := inv.heldLive w a h1
          rcases eq_or_ne a a₀ with rfl | hne2
          · rw [Function.update_same]
          · rw [Function.update_noteq hne2]
            exact h2
      · intro a ha
        rw [hobj] at ha
        rw [hrel, hwrap]
        rcases eq_or_ne a a₀ with rfl | hne
        · refine Or.inl ⟨st.unextW, ?_⟩
          rw [Function.update_same]
        · rw [Function.update_noteq hne] at ha
          rcases inv.liveHeld a ha with ⟨w, hw⟩ | hr
          · refine Or.inl ⟨w, ?_⟩
            rw [Function.update_noteq ?_]
            · exact hw
            · intro hcon
              rw [hcon, inv.wClosed st.unextW (Nat.le_refl _)] at hw
              cases hw
          · exact Or.inr ((List.mem_erase_of_ne hne).mpr hr)
      · intro a ha
        rw [hrel] at ha
        rw [hobj]
        have har : a ∈ st.ureleased := List.mem_of_mem_erase ha
        have h1 := inv.relLive a har
        rcases eq_or_ne a a₀ with rfl | hne
        · rw [Function.update_same]
        · rw [Function.update_noteq hne]
          exact h1
      · intro a w ha
        rw [hrel] at ha
        rw [hwrap]
        have hane : a ≠ a₀ := (inv.relNodup.mem_erase_iff.mp ha).1
        have har : a ∈ st.ureleased := (inv.relNodup.mem_erase_iff.mp ha).2
        rcases eq_or_ne w st.unextW with rfl | hne
        · rw [Function.update_same]
          intro hcon
          injection hcon with h1
          injection h1 with h2
          exact hane h2.symm
        · rw [Function.update_noteq hne]
          exact inv.relNotHeld a w har
      · intro a ha
        rw [hdest] at ha
        rw [hobj]
        rcases eq_or_ne a a₀ with rfl | hne
        · exact absurd ha hnotdead
        · rw [Function.update_noteq hne]
          exact inv.deadGone a ha
      · rw [hdest]
        exact inv.destNodup
      · rw [hrel]
        exact inv.relNodup.erase a₀

theorem uInv_moveCtor {st : UState} (inv : UInv st) {s : Nat} {vs : Option Nat}
    (hs : st.uwrappers s = some vs) : UInv (uMoveCtor st s) := by
  have hslt : s < st.unextW := by
    by_contra h
    rw [inv.wClosed s (Nat.le_of_not_lt h)] at hs
    cases hs
  have hsne : s ≠ st.unextW := Nat.ne_of_lt hslt
  have hnw : (uMoveCtor st s).unextW = st.unextW + 1 := by
    simp [uMoveCtor, hs]
  have hobj : (uMoveCtor st s).uobjects = st.uobjects := by
    simp [uMoveCtor, hs]
  have hdest : (uMoveCtor st s).udestroyed = st.udestroyed := by
    simp [uMoveCtor, hs]
  have hrel : (uMoveCtor st s).ureleased = st.ureleased := by
    simp [uMoveCtor, hs]
  have hlook : ∀ w, (uMoveCtor st s).uwrappers w
      = if w = s then some none
        else if w = st.unextW then some vs else st.uwrappers w := by
    intro w
    have hwrap : (uMoveCtor st s).uwrappers
        = Function.update (Function.update st.uwrappers st.unextW (some vs)) s
            (some none) := by
      simp [uMoveCtor, hs]
    rw [hwrap]
    rcases eq_or_ne w s with rfl | h1
    · rw [Function.update_same, if_pos rfl]
    · rw [Function.update_noteq h1, if_neg h1]
      rcases eq_or_ne w st.unextW with rfl | h2
      · rw [Function.update_same, if_pos rfl]
      · rw [Function.update_noteq h2, if_neg h2]
  refine ⟨?_, ?_, ?_, ?_, ?_, ?_, ?_, ?_, ?_⟩
  · intro w hge
    rw [hnw] at hge
    rw [hlook w, if_neg (by omega), if_neg (by omega)]
    exact inv.wClosed w (by omega)
  · intro w₁ w₂ a h1 h2
    rw [hlook w₁] at h1
    rw [hlook w₂] at h2
    by_cases e1s : w₁ = s
    · rw [if_pos e1s] at h1
      simp at h1
    · rw [if_neg e1s] at h1
      by_cases e2s : w₂ = s
      · rw [if_pos e2s] at h2
        simp at h2
      · rw [if_neg e2s] at h2
        by_cases e1n : w₁ = st.unextW
        · rw [if_pos e1n] at h1
          by_cases e2n : w₂ = st.unextW
          · rw [e1n, e2n]
          · rw [if_neg e2n] at h2
            injection h1 with h1'
            have hsa : st.uwrappers s = some (some a) := by rw [hs, h1']
            exact absurd (inv.exclusive w₂ s a h2 hsa) e2s
        · rw [if_neg e1n] at h1
          by_cases e2n : w₂ = st.unextW
          · rw [if_pos e2n] at h2
            injection h2 with h2'
            have hsa : st.uwrappers s = some (some a) := by rw [hs, h2']
            exact absurd (inv.exclusive w₁ s a h1 hsa) e1s
          · rw [if_neg e2n] at h2
            exact inv.exclusive w₁ w₂ a h1 h2
  · intro w a h1
    rw [hlook w] at h1
    rw [hobj]
    by_cases e1 : w = s
    · rw [if_pos e1] at h1
      simp at h1
    · rw [if_neg e1] at h1
      by_cases e2 : w = st.unextW
      · rw [if_pos e2] at h1
        injection h1 with h1'
        exact inv.heldLive s a (by rw [hs, h1'])
      · rw [if_neg e2] at h1
        exact inv.heldLive w a h1
  · intro a ha
    rw [hobj] at ha
    rw [hrel]
    rcases inv.liveHeld a ha with ⟨w, hw⟩ | hr
    · rcases eq_or_ne w s with rfl | hne
      · refine Or.inl ⟨st.unextW, ?_⟩
        rw [hlook st.unextW, if_neg (Ne.symm hsne), if_pos rfl]
        rw [hs] at hw
        injection hw with hw'
        rw [hw']
      · refine Or.inl ⟨w, ?_⟩
        rw [hlook w, if_neg hne]
        by_cases e2 : w = st.unextW
        · rw [e2, inv.wClosed st.unextW (Nat.le_refl _)] at hw
          cases hw
        · rw [if_neg e2]
          exact hw
    · exact Or.inr hr
  · intro a ha
    rw [hrel] at ha
    rw [hobj]
    exact inv.relLive a ha
  · intro a w ha
    rw [hrel] at ha
    rw [hlook w]
    by_cases e1 : w = s
    · rw [if_pos e1]
      simp
    · rw [if_neg e1]
      by_cases e2 : w = st.unextW
      · rw [if_pos e2]
        intro hcon
        injection hcon with h'
        exact inv.relNotHeld a s ha (by rw [hs, h'])
      · rw [if_neg e2]
        exact inv.relNotHeld a w ha
  · intro a ha
    rw [hdest] at ha
    rw [hobj]
    exact inv.deadGone a ha
  · rw [hdest]
    exact inv.destNodup
  · rw [hrel]
    exact inv.relNodup


theorem uInv_destroy {st : UState} (inv : UInv st) {w₀ : Nat} {d : Option Nat}
    (hw₀ : st.uwrappers w₀ = some d) : UInv (uDestroy st w₀) := by
  cases d with
  | none =>
      have hwrap : (uDestroy st w₀).uwrappers
          = Function.update st.uwrappers w₀ none := by
        simp [uDestroy, hw₀, uDelete]
      have hnw : (uDestroy st w₀).unextW = st.unextW := by simp [uDestroy, hw₀, uDelete]
      have hobj : (uDestroy st w₀).uobjects = st.uobjects := by simp [uDestroy, hw₀, uDelete]
      have hdest : (uDestroy st w₀).udestroyed = st.udestroyed := by
        simp [uDestroy, hw₀, uDelete]
      have hrel : (uDestroy st w₀).ureleased = st.ureleased := by
        simp [uDestroy, hw₀, uDelete]
      refine ⟨?_, ?_, ?_, ?_, ?_, ?_, ?_, ?_, ?_⟩
      · intro w hge
        rw [hnw] at hge
        rw [hwrap]
        rcases eq_or_ne w w₀ with rfl | hne
        · rw [Function.update_same]
        · rw [Function.update_noteq hne]
          exact inv.wClosed w hge
      · intro w₁ w₂ a h1 h2
        rw [hwrap] at h1 h2
        rcases eq_or_ne w₁ w₀ with rfl | h1n
        · rw [Function.update_same] at h1
          cases h1
        · rw [Function.update_noteq h1n] at h1
          rcases eq_or_ne w₂ w₀ with rfl | h2n
          · rw [Function.update_same] at h2
            cases h2
          · rw [Function.update_noteq h2n] at h2
            exact inv.exclusive w₁ w₂ a h1 h2
      · intro w a h1
        rw [hwrap] at h1
        rw [hobj]
        rcases eq_or_ne w w₀ with rfl | hn
        · rw [Function.update_same] at h1
          cases h1
        · rw [Function.update_noteq hn] at h1
          exact inv.heldLive w a h1
      · intro a ha
        rw [hobj] at ha
        rw [hrel]
        rcases inv.liveHeld a ha with ⟨w, hw⟩ | hr
        · have hwne : w ≠ w₀ := by
            intro hcon
            rw [hcon, hw₀] at hw
            simp at hw
          refine Or.inl ⟨w, ?_⟩
          rw [hwrap, Function.update_noteq hwne]
          exact hw
        · exact Or.inr hr
      · intro a ha
        rw [hrel] at ha
        rw [hobj]
        exact inv.relLive a ha
      · intro a w ha
        rw [hrel] at ha
        rw [hwrap]
        rcases eq_or_ne w w₀ with rfl | hn
        · rw [Function.update_same]
          simp
        · rw [Function.update_noteq hn]
          exact inv.relNotHeld a w ha
      · intro a ha
        rw [hdest] at ha
        rw [hobj]
        exact inv.deadGone a ha
      · rw [hdest]
        exact inv.destNodup
      · rw [hrel]
        exact inv.relNodup
  | some a₀ =>
      have hlive : st.uobjects a₀ = true := inv.heldLive w₀ a₀ hw₀
      have hnotdead : a₀ ∉ st.udestroyed := by
        intro hcon
        rw [inv.deadGone a₀ hcon] at hlive
        cases hlive
      have hwrap : (uDestroy st w₀).uwrappers
          = Function.update st.uwrappers w₀ none := by
        simp [uDestroy, hw₀, uDelete]
      have hnw : (uDestroy st w₀).unextW = st.unextW := by simp [uDestroy, hw₀, uDelete]
      have hobj : (uDestroy st w₀).uobjects = Function.update st.uobjects a₀ false := by
        simp [uDestroy, hw₀, uDelete]
      have hdest : (uDestroy st w₀).udestroyed = a₀ :: st.udestroyed := by
        simp [uDestroy, hw₀, uDelete]
      have hrel : (uDestroy st w₀).ureleased = st.ureleased := by
        simp [uDestroy, hw₀, uDelete]
      refine ⟨?_, ?_, ?_, ?_, ?_, ?_, ?_, ?_, ?_⟩
      · intro w hge
        rw [hnw] at hge
        rw [hwrap]
        rcases eq_or_ne w w₀ with rfl | hne
        · rw [Function.update_same]
        · rw [Function.update_noteq hne]
          exact inv.wClosed w hge
      · intro w₁ w₂ a h1 h2
        rw [hwrap] at h1 h2
        rcases eq_or_ne w₁ w₀ with rfl | h1n
        · rw [Function.update_same] at h1
          cases h1
        · rw [Function.update_noteq h1n] at h1
          rcases eq_or_ne w₂ w₀ with rfl | h2n
          · rw [Function.update_same] at h2
            cases h2
          · rw [Function.update_noteq h2n] at h2
            exact inv.exclusive w₁ w₂ a h1 h2
      · intro w a h1
        rw [hwrap] at h1
        rcases eq_or_ne w w₀ with rfl | hn
        · rw [Function.update_same] at h1
          cases h1
        · rw [Function.update_noteq hn] at h1
          have h2 := inv.heldLive w a h1
          rw [hobj]
          rcases eq_or_ne a a₀ with rfl | han
          · exact absurd (inv.exclusive w w₀ a h1 hw₀) hn
          · rw [Function.update_noteq han]
            exact h2
      · intro a ha
        rw [hobj] at ha
        rw [hrel]
        rcases eq_or_ne a a₀ with rfl | han
        · rw [Function.update_same] at ha
          cases ha
        · rw [Function.update_noteq han] at ha
          rcases inv.liveHeld a ha with ⟨w, hw⟩ | hr
          · have hwne : w ≠ w₀ := by
              intro hcon
              rw [hcon, hw₀] at hw
              injection hw with hw'
              injection hw' with hw''
              exact han hw''.symm
            refine Or.inl ⟨w, ?_⟩
            rw [hwrap, Function.update_noteq hwne]
            exact hw
          · exact Or.inr hr
      · intro a ha
        rw [hrel] at ha
        rw [hobj]
        have h1 := inv.relLive a ha
        rcases eq_or_ne a a₀ with rfl | han
        · exact absurd hw₀ (inv.relNotHeld a w₀ ha)
        · rw [Function.update_noteq han]
          exact h1
      · intro a w ha
        rw [hrel] at ha
        rw [hwrap]
        rcases eq_or_ne w w₀ with rfl | hn
        · rw [Function.update_same]
          simp
        · rw [Function.update_noteq hn]
          exact inv.relNotHeld a w ha
      · intro a ha
        rw [hdest] at ha
        rw [hobj]
        rcases List.mem_cons.mp ha with rfl | ha'
        · rw [Function.update_same]
        · rcases eq_or_ne a a₀ with rfl | han
          · rw [Function.update_same]
          · rw [Function.update_noteq han]
            exact inv.deadGone a ha'
      · rw [hdest]
        exact List.nodup_cons.mpr ⟨hnotdead, inv.destNodup⟩
      · rw [hrel]
        exact inv.relNodup

theorem uInv_release {st : UState} (inv : UInv st) {w₀ : Nat} {d : Option Nat}
    (hw₀ : st.uwrappers w₀ = some d) : UInv (uRelease st w₀).2 := by
  have hlt : w₀ < st.unextW := by
    by_contra h
    rw [inv.wClosed w₀ (Nat.le_of_not_lt h)] at hw₀
    cases hw₀
  cases d with
  | none =>
      have hup : Function.update st.uwrappers w₀ (some none) = st.uwrappers := by
        rw [← hw₀]
        exact Function.update_eq_self w₀ st.uwrappers
      have h1 : (uRelease st w₀).2
          = { st with uwrappers := Function.update st.uwrappers w₀ (some none) } := by
        simp [uRelease, hw₀]
      have heq : (uRelease st w₀).2 = st := by
        rw [h1, hup]
      rw [heq]
      exact inv
  | some a₀ =>
      have hwrap : (uRelease st w₀).2.uwrappers
          = Function.update st.uwrappers w₀ (some none) := by
        simp [uRelease, hw₀]
      have hnw : (uRelease st w₀).2.unextW = st.unextW := by simp [uRelease, hw₀]
      have hobj : (uRelease st w₀).2.uobjects = st.uobjects := by simp [uRelease, hw₀]
      have hdest : (uRelease st w₀).2.udestroyed = st.udestroyed := by simp [uRelease, hw₀]
      have hrel : (uRelease st w₀).2.ureleased = a₀ :: st.ureleased := by
        simp [uRelease, hw₀]
      have hnotrel : a₀ ∉ st.ureleased := fun hcon => inv.relNotHeld a₀ w₀ hcon hw₀
      refine ⟨?_, ?_, ?_, ?_, ?_, ?_, ?_, ?_, ?_⟩
      · intro w hge
        rw [hnw] at hge
        rw [hwrap, Function.update_noteq (by omega)]
        exact inv.wClosed w hge
      · intro w₁ w₂ a h1 h2
        rw [hwrap] at h1 h2
        rcases eq_or_ne w₁ w₀ with rfl | h1n
        · rw [Function.update_same] at h1
          simp at h1
        · rw [Function.update_noteq h1n] at h1
          rcases eq_or_ne w₂ w₀ with rfl | h2n
          · rw [Function.update_same] at h2
            simp at h2
          · rw [Function.update_noteq h2n] at h2
            exact inv.exclusive w₁ w₂ a h1 h2
      · intro w a h1
        rw [hwrap] at h1
        rw [hobj]
        rcases eq_or_ne w w₀ with rfl | hn
        · rw [Function.update_same] at h1
          simp at h1
        · rw [Function.update_noteq hn] at h1
          exact inv.heldLive w a h1
      · intro a ha
        rw [hobj] at ha
        rw [hrel, hwrap]
        rcases inv.liveHeld a ha with ⟨w, hw⟩ | hr
        · rcases eq_or_ne w w₀ with rfl | hne
          · rw [hw₀] at hw
            injection hw with hw'
            injection hw' with hw''
            exact Or.inr (hw'' ▸ List.mem_cons_self a₀ st.ureleased)
          · refine Or.inl ⟨w, ?_⟩
            rw [Function.update_noteq hne]
            exact hw
        · exact Or.inr (List.mem_cons_of_mem a₀ hr)
      · intro a ha
        rw [hrel] at ha
        rw [hobj]
        rcases List.mem_cons.mp ha with rfl | ha'
        · exact inv.heldLive w₀ a hw₀
        · exact inv.relLive a ha'
      · intro a w ha
        rw [hrel] at ha
        rw [hwrap]
        rcases eq_or_ne w w₀ with rfl | hne
        · rw [Function.update_same]
          simp
        · rw [Function.update_noteq hne]
          rcases List.mem_cons.mp ha with rfl | ha'
          · intro hcon
            exact hne (inv.exclusive w w₀ a hcon hw₀)
          · exact inv.relNotHeld a w ha'
      · intro a ha
        rw [hdest] at ha
        rw [hobj]
        exact inv.deadGone a ha
      · rw [hdest]
        exact inv.destNodup
      · rw [hrel]
        exact List.nodup_cons.mpr ⟨hnotrel, inv.relNodup⟩

theorem uInv_assignRaw {st : UState} (inv : UInv st) {w₀ : Nat} {cur d : Option Nat}
    (hw₀ : st.uwrappers w₀ = some cur)
    (hleg : uOkData st d = true ∨ d = cur) : UInv (uAssignRaw st w₀ d) := by
  rcases eq_or_ne d cur with rfl | hne
  · have heq : uAssignRaw st w₀ d = st := by simp [uAssignRaw, hw₀]
    rw [heq]
    exact inv
  · have hok : uOkData st d = true := by
      rcases hleg with h | h
      · exact h
      · exact absurd h hne
    have hlt : w₀ < st.unextW := by
      by_contra h
      rw [inv.wClosed w₀ (Nat.le_of_not_lt h)] at hw₀
      cases hw₀
    have h1wr : (uAdopt (uDelete st cur) d).uwrappers = st.uwrappers := by
      rw [uAdopt_uwrappers, uDelete_uwrappers]
    have hwrap : (uAssignRaw st w₀ d).uwrappers
        = Function.update st.uwrappers w₀ (some d) := by
      simp [uAssignRaw, hw₀, hne, h1wr]
    have hnw : (uAssignRaw st w₀ d).unextW = st.unextW := by
      simp [uAssignRaw, hw₀, hne, uAdopt_unextW, uDelete_unextW]
    have hobj : ∀ a, (uAssignRaw st w₀ d).uobjects a
        = if d = some a then true else if cur = some a then false else st.uobjects a := by
      intro a
      have h2 : (uAssignRaw st w₀ d).uobjects = (uAdopt (uDelete st cur) d).uobjects := by
        simp [uAssignRaw, hw₀, hne]
      rw [h2, uAdopt_uobjects, uDelete_uobjects]
    have hdest : (uAssignRaw st w₀ d).udestroyed = (uDelete st cur).udestroyed := by
      simp [uAssignRaw, hw₀, hne, uAdopt_udestroyed]
    have hrel : (uAssignRaw st w₀ d).ureleased
        = (uAdopt (uDelete st cur) d).ureleased := by
      simp [uAssignRaw, hw₀, hne]
    have hrelmem : ∀ a, a ∈ (uAssignRaw st w₀ d).ureleased →
        a ∈ st.ureleased ∧ d ≠ some a := by
      intro a ha
      rw [hrel] at ha
      cases hd : d with
      | none =>
          rw [hd] at ha
          have ha2 : a ∈ (uDelete st cur).ureleased := ha
          rw [uDelete_ureleased] at ha2
          exact ⟨ha2, by simp⟩
      | some a₁ =>
          rw [hd] at ha
          have ha2 : a ∈ ((uDelete st cur).ureleased).erase a₁ := ha
          rw [uDelete_ureleased] at ha2
          refine ⟨List.mem_of_mem_erase ha2, ?_⟩
          intro hcon
          injection hcon with hcon'
          exact (inv.relNodup.mem_erase_iff.mp ha2).1 hcon'.symm
    refine ⟨?_, ?_, ?_, ?_, ?_, ?_, ?_, ?_, ?_⟩
    · intro w hge
      rw [hnw] at hge
      rw [hwrap, Function.update_noteq (by omega)]
      exact inv.wClosed w hge
    · intro w₁ w₂ a h1 h2
      rw [hwrap] at h1 h2
      rcases eq_or_ne w₁ w₀ with rfl | h1n
      · rcases eq_or_ne w₂ w₁ with rfl | h2n
        · rfl
        · rw [Function.update_same] at h1
          rw [Function.update_noteq h2n] at h2
          injection h1 with h1'
          rw [h1'] at hok
          exact absurd h2 (uOk_not_held inv (uOkData_some_iff.mp hok) w₂)
      · rw [Function.update_noteq h1n] at h1
        rcases eq_or_ne w₂ w₀ with rfl | h2n
        · rw [Function.update_same] at h2
          injection h2 with h2'
          rw [h2'] at hok
          exact absurd h1 (uOk_not_held inv (uOkData_some_iff.mp hok) w₁)
        · rw [Function.update_noteq h2n] at h2
          exact inv.exclusive w₁ w₂ a h1 h2
    · intro w a h1
      rw [hwrap] at h1
      rw [hobj a]
      rcases eq_or_ne w w₀ with rfl | hn
      · rw [Function.update_same] at h1
        injection h1 with h1'
        rw [if_pos h1']
      · rw [Function.update_noteq hn] at h1
        have hda : d ≠ some a := by
          intro hcon
          rw [hcon] at hok
          exact (uOk_not_held inv (uOkData_some_iff.mp hok) w) h1
        have hca : cur ≠ some a := by
          intro hcon
          exact hn (inv.exclusive w w₀ a h1 (by rw [hw₀, hcon]))
        rw [if_neg hda, if_neg hca]
        exact inv.heldLive w a h1
    · intro a ha
      rw [hobj a] at ha
      by_cases hda : d = some a
      · refine Or.inl ⟨w₀, ?_⟩
        rw [hwrap, Function.update_same, hda]
      · rw [if_neg hda] at ha
        by_cases hca : cur = some a
        · rw [if_pos hca] at ha
          cases ha
        · rw [if_neg hca] at ha
          rcases inv.liveHeld a ha with ⟨w, hw⟩ | hr
          · have hwne : w ≠ w₀ := by
              intro hcon
              rw [hcon, hw₀] at hw
              injection hw with hw'
              exact hca hw'
            refine Or.inl ⟨w, ?_⟩
            rw [hwrap, Function.update_noteq hwne]
            exact hw
          · refine Or.inr ?_
            rw [hrel]
            cases hd : d with
            | none =>
                show a ∈ (uDelete st cur).ureleased
                rw [uDelete_ureleased]
                exact hr
            | some a₁ =>
                show a ∈ ((uDelete st cur).ureleased).erase a₁
                rw [uDelete_ureleased]
                have ha1 : a ≠ a₁ := by
                  intro hcon
                  exact hda (by rw [hd, hcon])
                exact (List.mem_erase_of_ne ha1).mpr hr
    · intro a ha
      have h2 := hrelmem a ha
      have h3 := inv.relLive a h2.1
      rw [hobj a, if_neg h2.2]
      have hca : cur ≠ some a := by
        intro hcon
        exact inv.relNotHeld a w₀ h2.1 (by rw [hw₀, hcon])
      rw [if_neg hca]
      exact h3
    · intro a w ha
      have h2 := hrelmem a ha
      rw [hwrap]
      rcases eq_or_ne w w₀ with rfl | hn
      · rw [Function.update_same]
        intro hcon
        injection hcon with hcon'
        exact h2.2 hcon'
      · rw [Function.update_noteq hn]
        exact inv.relNotHeld a w h2.1
    · intro a ha
      rw [hdest] at ha
      rw [hobj a]
      have hsplit : a ∈ st.udestroyed ∨ cur = some a := by
        cases hc : cur with
        | none =>
            rw [hc] at ha
            exact Or.inl ha
        | some a₀ =>
            rw [hc, uDelete_udestroyed_some] at ha
            rcases List.mem_cons.mp ha with rfl | ha'
            · exact Or.inr rfl
            · exact Or.inl ha'
      have hda : d ≠ some a := by
        intro hcon
        rw [hcon] at hok
        rcases hsplit with hold | hcur
        · exact (uOk_not_dead inv (uOkData_some_iff.mp hok)) hold
        · exact (uOk_not_held inv (uOkData_some_iff.mp hok) w₀) (by rw [hw₀, hcur])
      rw [if_neg hda]
      by_cases hca : cur = some a
      · rw [if_pos hca]
      · rw [if_neg hca]
        rcases hsplit with hold | hcur
        · exact inv.deadGone a hold
        · exact absurd hcur hca
    · rw [hdest]
      cases hc : cur with
      | none => exact inv.destNodup
      | some a₀ =>
          rw [uDelete_udestroyed_some]
          have hlive : st.uobjects a₀ = true := inv.heldLive w₀ a₀ (by rw [hw₀, hc])
          have hnd : a₀ ∉ st.udestroyed := by
            intro hcon
            rw [inv.deadGone a₀ hcon] at hlive
            cases hlive
          exact List.nodup_cons.mpr ⟨hnd, inv.destNodup⟩
    · rw [hrel]
      cases hd : d with
      | none =>
          show ((uDelete st cur).ureleased).Nodup
          rw [uDelete_ureleased]
          exact inv.relNodup
      | some a₁ =>
          show (((uDelete st cur).ureleased).erase a₁).Nodup
          rw [uDelete_ureleased]
          exact inv.relNodup.erase a₁


theorem uInv_moveAssign {st : UState} (inv : UInv st) {w₀ s : Nat} {cur vs : Option Nat}
    (hne : w₀ ≠ s) (hw : st.uwrappers w₀ = some cur) (hs : st.uwrappers s = some vs) :
    UInv (uMoveAssign st w₀ s) := by
  have hltw : w₀ < st.unextW := by
    by_contra h
    rw [inv.wClosed w₀ (Nat.le_of_not_lt h)] at hw
    cases hw
  have hlts : s < st.unextW := by
    by_contra h
    rw [inv.wClosed s (Nat.le_of_not_lt h)] at hs
    cases hs
  have hcore : uMoveAssign st w₀ s
      = { uDelete st cur with
          uwrappers := Function.update
            (Function.update (uDelete st cur).uwrappers w₀ (some vs)) s (some none) } := by
    simp [uMoveAssign, hne, hw, hs]
  have hlook : ∀ w, (uMoveAssign st w₀ s).uwrappers w
      = if w = s then some none
        else if w = w₀ then some vs else st.uwrappers w := by
    intro w
    rw [hcore]
    show Function.update
        (Function.update (uDelete st cur).uwrappers w₀ (some vs)) s (some none) w = _
    rcases eq_or_ne w s with rfl | h1
    · rw [Function.update_same, if_pos rfl]
    · rw [Function.update_noteq h1, if_neg h1]
      rcases eq_or_ne w w₀ with rfl | h2
      · rw [Function.update_same, if_pos rfl]
      · rw [Function.update_noteq h2, if_neg h2, uDelete_uwrappers]
  have hnw : (uMoveAssign st w₀ s).unextW = st.unextW := by
    rw [hcore]
    show (uDelete st cur).unextW = st.unextW
    exact uDelete_unextW st cur
  have hobj : ∀ a, (uMoveAssign st w₀ s).uobjects a
      = if cur = some a then false else st.uobjects a := by
    intro a
    rw [hcore]
    show (uDelete st cur).uobjects a = _
    exact uDelete_uobjects st cur a
  have hdest : (uMoveAssign st w₀ s).udestroyed = (uDelete st cur).udestroyed := by
    rw [hcore]
  have hrel : (uMoveAssign st w₀ s).ureleased = st.ureleased := by
    rw [hcore]
    show (uDelete st cur).ureleased = st.ureleased
    exact uDelete_ureleased st cur
  refine ⟨?_, ?_, ?_, ?_, ?_, ?_, ?_, ?_, ?_⟩
  · intro w hge
    rw [hnw] at hge
    rw [hlook w, if_neg (by omega), if_neg (by omega)]
    exact inv.wClosed w hge
  · intro w₁ w₂ a h1 h2
    rw [hlook w₁] at h1
    rw [hlook w₂] at h2
    by_cases e1s : w₁ = s
    · rw [if_pos e1s] at h1
      simp at h1
    · rw [if_neg e1s] at h1
      by_cases e2s : w₂ = s
      · rw [if_pos e2s] at h2
        simp at h2
      · rw [if_neg e2s] at h2
        by_cases e1w : w₁ = w₀
        · rw [if_pos e1w] at h1
          by_cases e2w : w₂ = w₀
          · rw [e1w, e2w]
          · rw [if_neg e2w] at h2
            injection h1 with h1'
            have hsa : st.uwrappers s = some (some a) := by rw [hs, h1']
            exact absurd (inv.exclusive w₂ s a h2 hsa) e2s
        · rw [if_neg e1w] at h1
          by_cases e2w : w₂ = w₀
          · rw [if_pos e2w] at h2
            injection h2 with h2'
            have hsa : st.uwrappers s = some (some a) := by rw [hs, h2']
            exact absurd (inv.exclusive w₁ s a h1 hsa) e1s
          · rw [if_neg e2w] at h2
            exact inv.exclusive w₁ w₂ a h1 h2
  · intro w a h1
    rw [hlook w] at h1
    rw [hobj a]
    by_cases e1 : w = s
    · rw [if_pos e1] at h1
      simp at h1
    · rw [if_neg e1] at h1
      by_cases e2 : w = w₀
      · rw [if_pos e2] at h1
        injection h1 with h1'
        have hsa : st.uwrappers s = some (some a) := by rw [hs, h1']
        have hca : cur ≠ some a := by
          intro hcon
          exact hne (inv.exclusive w₀ s a (by rw [hw, hcon]) hsa)
        rw [if_neg hca]
        exact inv.heldLive s a hsa
      · rw [if_neg e2] at h1
        have hca : cur ≠ some a := by
          intro hcon
          exact e2 (inv.exclusive w w₀ a h1 (by rw [hw, hcon]))
        rw [if_neg hca]
        exact inv.heldLive w a h1
  · intro a ha
    rw [hobj a] at ha
    rw [hrel]
    by_cases hca : cur = some a
    · rw [if_pos hca] at ha
      cases ha
    · rw [if_neg hca] at ha
      rcases inv.liveHeld a ha with ⟨w, hw2⟩ | hr
      · by_cases e1 : w = w₀
        · exfalso
          rw [e1, hw] at hw2
          injection hw2 with hw2'
          exact hca hw2'
        · by_cases e2 : w = s
          · refine Or.inl ⟨w₀, ?_⟩
            rw [hlook w₀, if_neg hne, if_pos rfl]
            rw [e2, hs] at hw2
            injection hw2 with hw2'
            rw [hw2']
          · refine Or.inl ⟨w, ?_⟩
            rw [hlook w, if_neg e2, if_neg e1]
            exact hw2
      · exact Or.inr hr
  · intro a ha
    rw [hrel] at ha
    rw [hobj a]
    have h1 := inv.relLive a ha
    have hca : cur ≠ some a := by
      intro hcon
      exact inv.relNotHeld a w₀ ha (by rw [hw, hcon])
    rw [if_neg hca]
    exact h1
  · intro a w ha
    rw [hrel] at ha
    rw [hlook w]
    by_cases e1 : w = s
    · rw [if_pos e1]
      simp
    · rw [if_neg e1]
      by_cases e2 : w = w₀
      · rw [if_pos e2]
        intro hcon
        injection hcon with hcon'
        exact inv.relNotHeld a s ha (by rw [hs, hcon'])
      · rw [if_neg e2]
        exact inv.relNotHeld a w ha
  · intro a ha
    rw [hdest] at ha
    rw [hobj a]
    have hsplit : a ∈ st.udestroyed ∨ cur = some a := by
      cases hc : cur with
      | none =>
          rw [hc] at ha
          exact Or.inl ha
      | some a₀ =>
          rw [hc, uDelete_udestroyed_some] at ha
          rcases List.mem_cons.mp ha with rfl | ha'
          · exact Or.inr rfl
          · exact Or.inl ha'
    by_cases hca : cur = some a
    · rw [if_pos hca]
    · rw [if_neg hca]
      rcases hsplit with hold | hcur
      · exact inv.deadGone a hold
      · exact absurd hcur hca
  · rw [hdest]
    cases hc : cur with
    | none => exact inv.destNodup
    | some a₀ =>
        rw [uDelete_udestroyed_some]
        have hlive : st.uobjects a₀ = true := inv.heldLive w₀ a₀ (by rw [hw, hc])
        have hnd : a₀ ∉ st.udestroyed := by
          intro hcon
          rw [inv.deadGone a₀ hcon] at hlive
          cases hlive
        exact List.nodup_cons.mpr ⟨hnd, inv.destNodup⟩
  · rw [hrel]
    exact inv.relNodup

/-! ## `UInv` along legal traces -/

theorem uInv_step {st : UState} {op : UOp} (inv : UInv st) (hleg : uLegal st op = true) :
    UInv (uStep st op) := by
  cases op with
  | ctor d => exact uInv_new inv hleg
  | moveCtor s =>
      have hleg' : (st.uwrappers s).isSome = true := hleg
      obtain ⟨vs, hs⟩ := Option.isSome_iff_exists.mp hleg'
      exact uInv_moveCtor inv hs
  | destroy w =>
      have hleg' : (st.uwrappers w).isSome = true := hleg
      obtain ⟨d, hd⟩ := Option.isSome_iff_exists.mp hleg'
      exact uInv_destroy inv hd
  | assignRaw w d =>
      simp only [uLegal] at hleg
      cases hw : st.uwrappers w with
      | none =>
          rw [hw] at hleg
          cases hleg
      | some cur =>
          rw [hw] at hleg
          simp only [Bool.or_eq_true, beq_iff_eq] at hleg
          exact uInv_assignRaw inv hw hleg
  | moveAssign w s =>
      rcases eq_or_ne w s with rfl | hne
      · have heq : uMoveAssign st w w = st := by simp [uMoveAssign]
        show UInv (uMoveAssign st w w)
        rw [heq]
        exact inv
      · simp only [uLegal, Bool.and_eq_true] at hleg
        obtain ⟨h1, h2⟩ := hleg
        obtain ⟨cur, hw⟩ := Option.isSome_iff_exists.mp h1
        obtain ⟨vs, hs⟩ := Option.isSome_iff_exists.mp h2
        exact uInv_moveAssign inv hne hw hs
  | release w =>
      have hleg' : (st.uwrappers w).isSome = true := hleg
      obtain ⟨d, hd⟩ := Option.isSome_iff_exists.mp hleg'
      exact uInv_release inv hd

theorem uLegal_run (l : List UOp) : ∀ {st : UState}, UInv st → uLegalFrom st l = true →
    UInv (uRunFrom st l) := by
  induction l with
  | nil => exact fun inv _ => inv
  | cons op l ih =>
      intro st inv hleg
      simp only [uLegalFrom, Bool.and_eq_true] at hleg
      exact ih (uInv_step inv hleg.1) hleg.2


/-! ## Destruction events along `U_ptr` traces -/

theorem u_step_destroyed_cases (st : UState) (op : UOp) :
    (uStep st op).udestroyed = st.udestroyed
    ∨ ∃ w a, uOpWrapper op = some w ∧ st.uwrappers w = some (some a)
        ∧ (uStep st op).udestroyed = a :: st.udestroyed := by
  cases op with
  | ctor d =>
      left
      show (uNew st d).udestroyed = st.udestroyed
      cases d <;> rfl
  | moveCtor s =>
      left
      show (uMoveCtor st s).udestroyed = st.udestroyed
      cases hs : st.uwrappers s with
      | none => simp [uMoveCtor, hs]
      | some vs => simp [uMoveCtor, hs]
  | destroy w =>
      cases hw : st.uwrappers w with
      | none =>
          left
          show (uDestroy st w).udestroyed = st.udestroyed
          simp [uDestroy, hw]
      | some d =>
          cases d with
          | none =>
              left
              show (uDestroy st w).udestroyed = st.udestroyed
              simp [uDestroy, hw, uDelete]
          | some a =>
              right
              refine ⟨w, a, rfl, hw, ?_⟩
              show (uDestroy st w).udestroyed = a :: st.udestroyed
              simp [uDestroy, hw, uDelete]
  | assignRaw w d =>
      cases hw : st.uwrappers w with
      | none =>
          left
          show (uAssignRaw st w d).udestroyed = st.udestroyed
          simp [uAssignRaw, hw]
      | some cur =>
          by_cases hg : d = cur
          · left
            show (uAssignRaw st w d).udestroyed = st.udestroyed
            simp [uAssignRaw, hw, hg]
          · have hdd : (uAssignRaw st w d).udestroyed = (uDelete st cur).udestroyed := by
              simp [uAssignRaw, hw, hg, uAdopt_udestroyed]
            cases hc : cur with
            | none =>
                left
                show (uAssignRaw st w d).udestroyed = st.udestroyed
                rw [hdd, hc]
                rfl
            | some a =>
                right
                refine ⟨w, a, rfl, by rw [hw, hc], ?_⟩
                show (uAssignRaw st w d).udestroyed = a :: st.udestroyed
                rw [hdd, hc, uDelete_udestroyed_some]
  | moveAssign w s =>
      rcases eq_or_ne w s with rfl | hne
      · left
        show (uMoveAssign st w w).udestroyed = st.udestroyed
        simp [uMoveAssign]
      · cases hw : st.uwrappers w with
        | none =>
            left
            show (uMoveAssign st w s).udestroyed = st.udestroyed
            cases hs : st.uwrappers s <;> simp [uMoveAssign, hne, hw, hs]
        | some cur =>
            cases hs : st.uwrappers s with
            | none =>
                left
                show (uMoveAssign st w s).udestroyed = st.udestroyed
                simp [uMoveAssign, hne, hw, hs]
            | some vs =>
                have hdd : (uMoveAssign st w s).udestroyed
                    = (uDelete st cur).udestroyed := by
                  simp [uMoveAssign, hne, hw, hs]
                cases hc : cur with
                | none =>
                    left
                    show (uMoveAssign st w s).udestroyed = st.udestroyed
                    rw [hdd, hc]
                    rfl
                | some a =>
                    right
                    refine ⟨w, a, rfl, by rw [hw, hc], ?_⟩
                    show (uMoveAssign st w s).udestroyed = a :: st.udestroyed
                    rw [hdd, hc, uDelete_udestroyed_some]
  | release w =>
      left
      show (uRelease st w).2.udestroyed = st.udestroyed
      cases hw : st.uwrappers w with
      | none => simp [uRelease, hw]
      | some d =>
          cases d with
          | none => simp [uRelease, hw]
          | some a => simp [uRelease, hw]

theorem u_step_destroyed_mono (st : UState) (op : UOp) {a : Nat}
    (h : a ∈ st.udestroyed) : a ∈ (uStep st op).udestroyed := by
  rcases u_step_destroyed_cases st op with hc | ⟨w, a', -, -, hc⟩
  · rw [hc]
    exact h
  · rw [hc]
    exact List.mem_cons_of_mem _ h

theorem u_step_objects_persist (st : UState) (op : UOp) {a : Nat}
    (h : st.uobjects a = true) :
    (uStep st op).uobjects a = true ∨ a ∈ (uStep st op).udestroyed := by
  have hdel : ∀ d, (if d = some a then false else st.uobjects a) = true
      → (uDelete st d).uobjects a = true := by
    intro d hcase
    rw [uDelete_uobjects]
    exact hcase
  cases op with
  | ctor d =>
      left
      show (uNew st d).uobjects a = true
      have heq : (uNew st d).uobjects = (uAdopt st d).uobjects := by cases d <;> rfl
      rw [heq, uAdopt_uobjects]
      split_ifs with hc
      · rfl
      · exact h
  | moveCtor s =>
      left
      show (uMoveCtor st s).uobjects a = true
      cases hs : st.uwrappers s with
      | none => simp [uMoveCtor, hs, h]
      | some vs => simp [uMoveCtor, hs, h]
  | destroy w =>
      cases hw : st.uwrappers w with
      | none =>
          left
          show (uDestroy st w).uobjects a = true
          simp [uDestroy, hw, h]
      | some d =>
          have ho : (uDestroy st w).uobjects = (uDelete st d).uobjects := by
            simp [uDestroy, hw]
          have hdd : (uDestroy st w).udestroyed = (uDelete st d).udestroyed := by
            simp [uDestroy, hw]
          by_cases hda : d = some a
          · right
            show a ∈ (uDestroy st w).udestroyed
            rw [hdd, hda, uDelete_udestroyed_some]
            exact List.mem_cons_self a st.udestroyed
          · left
            show (uDestroy st w).uobjects a = true
            rw [ho, uDelete_uobjects, if_neg hda]
            exact h
  | assignRaw w d =>
      cases hw : st.uwrappers w with
      | none =>
          left
          show (uAssignRaw st w d).uobjects a = true
          simp [uAssignRaw, hw, h]
      | some cur =>
          by_cases hg : d = cur
          · left
            show (uAssignRaw st w d).uobjects a = true
            simp [uAssignRaw, hw, hg, h]
          · have ho : (uAssignRaw st w d).uobjects
                = (uAdopt (uDelete st cur) d).uobjects := by
              simp [uAssignRaw, hw, hg]
            have hdd : (uAssignRaw st w d).udestroyed
                = (uDelete st cur).udestroyed := by
              simp [uAssignRaw, hw, hg, uAdopt_udestroyed]
            by_cases hca : cur = some a
            · right
              show a ∈ (uAssignRaw st w d).udestroyed
              rw [hdd, hca, uDelete_udestroyed_some]
              exact List.mem_cons_self a st.udestroyed
            · left
              show (uAssignRaw st w d).uobjects a = true
              rw [ho, uAdopt_uobjects, uDelete_uobjects]
              split_ifs with h1
              · rfl
              · exact h
  | moveAssign w s =>
      rcases eq_or_ne w s with rfl | hne
      · left
        show (uMoveAssign st w w).uobjects a = true
        simp [uMoveAssign, h]
      · cases hw : st.uwrappers w with
        | none =>
            left
            show (uMoveAssign st w s).uobjects a = true
            cases hs : st.uwrappers s <;> simp [uMoveAssign, hne, hw, hs, h]
        | some cur =>
            cases hs : st.uwrappers s with
            | none =>
                left
                show (uMoveAssign st w s).uobjects a = true
                simp [uMoveAssign, hne, hw, hs, h]
            | some vs =>
                have ho : (uMoveAssign st w s).uobjects = (uDelete st cur).uobjects := by
                  simp [uMoveAssign, hne, hw, hs]
                have hdd : (uMoveAssign st w s).udestroyed
                    = (uDelete st cur).udestroyed := by
                  simp [uMoveAssign, hne, hw, hs]
                by_cases hca : cur = some a
                · right
                  show a ∈ (uMoveAssign st w s).udestroyed
                  rw [hdd, hca, uDelete_udestroyed_some]
                  exact List.mem_cons_self a st.udestroyed
                · left
                  show (uMoveAssign st w s).uobjects a = true
                  rw [ho, uDelete_uobjects, if_neg hca]
                  exact h
  | release w =>
      left
      show (uRelease st w).2.uobjects a = true
      cases hw : st.uwrappers w with
      | none => simp [uRelease, hw, h]
      | some d =>
          cases d with
          | none => simp [uRelease, hw, h]
          | some a₀ => simp [uRelease, hw, h]

theorem u_intro_sets_live {st : UState} (inv : UInv st) {op : UOp} {a : Nat}
    (hleg : uLegal st op = true) (ha : uOpIntro op = some a) :
    (uStep st op).uobjects a = true := by
  cases op with
  | ctor d =>
      cases d with
      | none => cases ha
      | some a' =>
          injection ha with ha'
          subst ha'
          show (uNew st (some a')).uobjects a' = true
          show (uAdopt st (some a')).uobjects a' = true
          rw [uAdopt_uobjects, if_pos rfl]
  | moveCtor s => cases ha
  | destroy w => cases ha
  | assignRaw w d =>
      cases d with
      | none => cases ha
      | some a' =>
          injection ha with ha'
          subst ha'
          show (uAssignRaw st w (some a')).uobjects a' = true
          simp only [uLegal] at hleg
          cases hw : st.uwrappers w with
          | none =>
              rw [hw] at hleg
              cases hleg
          | some cur =>
              by_cases hg : (some a' : Option Nat) = cur
              · have hnoop : uAssignRaw st w (some a') = st := by
                  simp [uAssignRaw, hw, hg]
                rw [hnoop]
                exact inv.heldLive w a' (by rw [hw, ← hg])
              · have ho : (uAssignRaw st w (some a')).uobjects
                    = (uAdopt (uDelete st cur) (some a')).uobjects := by
                  simp [uAssignRaw, hw, hg]
                rw [ho, uAdopt_uobjects, if_pos rfl]
  | moveAssign w s => cases ha
  | release w => cases ha

theorem u_run_objects_persist (l : List UOp) : ∀ {st : UState} {a : Nat},
    (st.uobjects a = true ∨ a ∈ st.udestroyed) →
    ((uRunFrom st l).uobjects a = true ∨ a ∈ (uRunFrom st l).udestroyed) := by
  induction l with
  | nil => exact fun h => h
  | cons op l ih =>
      intro st a h
      refine ih ?_
      rcases h with h | h
      · exact u_step_objects_persist st op h
      · exact Or.inr (u_step_destroyed_mono st op h)

theorem u_introduced_alive (l : List UOp) : ∀ {st : UState},
    UInv st → uLegalFrom st l = true → ∀ a, a ∈ uIntroduced l →
    ((uRunFrom st l).uobjects a = true ∨ a ∈ (uRunFrom st l).udestroyed) := by
  induction l with
  | nil =>
      intro st _ _ a ha
      cases ha
  | cons op l ih =>
      intro st inv hleg a ha
      simp only [uLegalFrom, Bool.and_eq_true] at hleg
      obtain ⟨h1, h2⟩ := hleg
      have hinv' := uInv_step inv h1
      cases hio : uOpIntro op with
      | none =>
          have ha' : a ∈ uIntroduced l := by
            simpa [uIntroduced, List.filterMap_cons, hio] using ha
          exact ih hinv' h2 a ha'
      | some a₀ =>
          have ha' : a = a₀ ∨ a ∈ uIntroduced l := by
            simpa [uIntroduced, List.filterMap_cons, hio] using ha
          rcases ha' with rfl | ha'
          · exact u_run_objects_persist l (Or.inl (u_intro_sets_live inv h1 hio))
          · exact ih hinv' h2 a ha'

theorem u_no_objects_of_dead {st : UState} (inv : UInv st) (hdead : uDead st = true)
    (hrel : st.ureleased = []) (a : Nat) : st.uobjects a = false := by
  have hall : ∀ w, st.uwrappers w = none := by
    intro w
    rcases Nat.lt_or_ge w st.unextW with h | h
    · simp only [uDead, List.all_eq_true, List.mem_range, decide_eq_true_eq] at hdead
      exact hdead w h
    · exact inv.wClosed w h
  cases hcase : st.uobjects a with
  | false => rfl
  | true =>
      rcases inv.liveHeld a hcase with ⟨w, hw⟩ | hr
      · rw [hall w] at hw
        cases hw
      · rw [hrel] at hr
        cases hr

theorem u_exactly_once {l : List UOp} (hleg : uLegalFrom uInit l = true)
    (hdead : uDead (uRun l) = true) (hrel : (uRun l).ureleased = [])
    {a : Nat} (ha : a ∈ uIntroduced l) :
    (uRun l).udestroyed.count a = 1 := by
  have hinv : UInv (uRun l) := uLegal_run l uInv_init hleg
  have hend := u_introduced_alive l uInv_init hleg a ha
  rcases hend with h | h
  · have hfalse : (uRun l).uobjects a = false := u_no_objects_of_dead hinv hdead hrel a
    rw [show uRunFrom uInit l = uRun l from rfl, hfalse] at h
    cases h
  · exact List.count_eq_one_of_mem hinv.destNodup h

theorem u_precise {l1 l2 : List UOp} {op : UOp}
    (hleg : uLegalFrom uInit (l1 ++ op :: l2) = true) {a : Nat}
    (hnot : a ∉ (uRun l1).udestroyed) (hin : a ∈ (uStep (uRun l1) op).udestroyed) :
    ∃ w, uOpWrapper op = some w ∧ (uRun l1).uwrappers w = some (some a)
      ∧ ∀ w', (uRun l1).uwrappers w' = some (some a) → w' = w := by
  rw [uLegalFrom_append] at hleg
  simp only [Bool.and_eq_true] at hleg
  have hinv : UInv (uRun l1) := uLegal_run l1 uInv_init hleg.1
  rcases u_step_destroyed_cases (uRun l1) op with hc | ⟨w, a', hop, hw, hc⟩
  · rw [hc] at hin
    exact absurd hin hnot
  · rw [hc] at hin
    rcases List.mem_cons.mp hin with rfl | he
    · exact ⟨w, hop, hw, fun w' hw' => hinv.exclusive w' w a hw' hw⟩
    · exact absurd he hnot


/-! ## Claim C1 — the destructor runs exactly once, at the last removal -/

/-- C1 (amended with the 16-bit sharing bound): along every legal `S_ptr`
trace that keeps each control block within 65535 sharing wrappers and ends
with every wrapper destroyed, each address placed under ownership appears
exactly once in the destruction log, and every destruction event happens
precisely at an operation that destroys or reassigns the last live wrapper
referencing the resource's control block; along every legal `U_ptr` trace
ending with all wrappers destroyed and no address left `release`d, each
address placed under ownership is destroyed exactly once, precisely at an
operation that destroys or reassigns the wrapper that is its sole owner. -/
theorem c1_destructor_exactly_once :
    (∀ l : List SOp, sGood l = true → sDead (sRun l) = true →
      (∀ a, a ∈ sIntroduced l → (sRun l).destroyed.count a = 1)
      ∧ (∀ l1 op l2, l = l1 ++ op :: l2 → ∀ a, a ∉ (sRun l1).destroyed →
          a ∈ (sStep (sRun l1) op).destroyed →
          ∃ w v b, opWrapper op = some w ∧ (sRun l1).wrappers w = some v
            ∧ v.data = some a ∧ v.ref = some b ∧ sHolders (sRun l1) b = 1))
    ∧ (∀ l : List UOp, uLegalFrom uInit l = true → uDead (uRun l) = true →
        (uRun l).ureleased = [] →
        (∀ a, a ∈ uIntroduced l → (uRun l).udestroyed.count a = 1)
        ∧ (∀ l1 op l2, l = l1 ++ op :: l2 → ∀ a, a ∉ (uRun l1).udestroyed →
            a ∈ (uStep (uRun l1) op).udestroyed →
            ∃ w, uOpWrapper op = some w ∧ (uRun l1).uwrappers w = some (some a)
              ∧ ∀ w', (uRun l1).uwrappers w' = some (some a) → w' = w)) := by
  constructor
  · intro l hgood hdead
    constructor
    · intro a ha
      exact s_exactly_once hgood hdead ha
    · intro l1 op l2 hsplit a hnot hin
      subst hsplit
      exact s_precise hgood hnot hin
  · intro l hleg hdead hrel
    constructor
    · intro a ha
      exact u_exactly_once hleg hdead hrel ha
    · intro l1 op l2 hsplit a hnot hin
      subst hsplit
      exact u_precise hleg hnot hin

/-- C1 witness: on the concrete trace that builds one owning wrapper for
an address and then destroys it, the destructor log records that address
exactly once — on both the shared and the exclusive side. -/
theorem c1_destructor_exactly_once_witness :
    (sRun [SOp.ctor (some 7), SOp.destroy 0]).destroyed.count 7 = 1
    ∧ (uRun [UOp.ctor (some 5), UOp.destroy 0]).udestroyed.count 5 = 1 := by
  constructor
  · exact (c1_destructor_exactly_once.1 [SOp.ctor (some 7), SOp.destroy 0]
      (by decide) (by decide)).1 7 (by decide)
  · exact (c1_destructor_exactly_once.2 [UOp.ctor (some 5), UOp.destroy 0]
      (by decide) (by decide) (by decide)).1 5 (by decide)

end DuinoMemory
